import Mathlib

/-!
# Scoundrel rules engine: shallow embedding and verified properties

The Go package `game` (files `models.go`, `engine.go`) is embedded as pure
state-passing functions.  Every method with a pointer receiver becomes a
function returning the updated receiver together with the method's result.

Modelling conventions
* Go `int` is `Int`.  Every quantity the engine computes (card values 2..14,
  health between `20 - 42 * 14` and `20`) is far inside the 64-bit range, so
  the engine is embedded with exact arithmetic.  The two methods that take an
  arbitrary amount, `Player.ApplyDamage` and `Player.Heal`, are embedded a
  second time with the wrap-around of a 64-bit `int` (`Player.ApplyDamage64`,
  `Player.Heal64`, through `wrapInt64`); the two embeddings agree whenever the
  exact result is representable, as it is for every call the engine makes.
* `Suit` and `Rank` are the Go enumerations (`iota` constants); `Rank.toInt`
  is the conversion `int(r)`.
* `*Card` is a `Card` value; a nilable pointer field is an `Option`.
* A Go slice is a `List`.  The engine never appends to a room slice that
  shares its backing array with the deck while cards have been played, and
  `Room.PlayCard` only shifts elements inside the room's own window, so no
  write through one slice is visible through another.
* A returned `error` is `Option GameError` (`none` is `nil`).
* Randomness (`uuid.New`, the time-seeded `rand.Rand`) is an explicit argument.
-/

namespace Scoundrel

/-! ## models.go -/

/-- Card suit: `Clubs Suit = iota`, `Diamonds`, `Hearts`, `Spades`. -/
inductive Suit where
  | Clubs
  | Diamonds
  | Hearts
  | Spades
deriving DecidableEq, Repr

/-- Card rank: `Two Rank = iota + 2` up to `Ace`. -/
inductive Rank where
  | Two
  | Three
  | Four
  | Five
  | Six
  | Seven
  | Eight
  | Nine
  | Ten
  | Jack
  | Queen
  | King
  | Ace
deriving DecidableEq, Repr

/-- The integer behind a rank constant, `int(r)`. -/
def Rank.toInt : Rank → Int
  | .Two => 2
  | .Three => 3
  | .Four => 4
  | .Five => 5
  | .Six => 6
  | .Seven => 7
  | .Eight => 8
  | .Nine => 9
  | .Ten => 10
  | .Jack => 11
  | .Queen => 12
  | .King => 13
  | .Ace => 14

/-- The integer behind a suit constant, `int(s)`. -/
def Suit.toInt : Suit → Int
  | .Clubs => 0
  | .Diamonds => 1
  | .Hearts => 2
  | .Spades => 3

/-- The values visited by `for s := Clubs; s <= Spades; s++`. -/
def Suit.loop : List Suit := [.Clubs, .Diamonds, .Hearts, .Spades]

/-- The values visited by `for r := Two; r <= Ace; r++`. -/
def Rank.loop : List Rank :=
  [.Two, .Three, .Four, .Five, .Six, .Seven, .Eight, .Nine, .Ten, .Jack, .Queen, .King, .Ace]

/-- Functional type of a card. -/
inductive CardType where
  | Monster
  | Weapon
  | Potion
deriving DecidableEq, Repr

/-- A playing card. -/
structure Card where
  suit : Suit
  rank : Rank
deriving DecidableEq, Repr

/-- Go `NewCard` builds a card from suit and rank. -/
def NewCard (suit : Suit) (rank : Rank) : Card := { suit := suit, rank := rank }

/-- Go `Card.Value` is `int(c.Rank)`. -/
def Card.Value (c : Card) : Int := c.rank.toInt

/-- Go `Card.Type`: the switch on the suit (its `default` arm is unreachable for the four suits). -/
def Card.CardType (c : Card) : CardType :=
  match c.suit with
  | .Clubs => .Monster
  | .Spades => .Monster
  | .Diamonds => .Weapon
  | .Hearts => .Potion

/-- Go `Card.IsRedFaceOrAce`. -/
def Card.IsRedFaceOrAce (c : Card) : Bool :=
  (c.suit == .Hearts || c.suit == .Diamonds) && decide (c.rank.toInt ≥ Rank.Jack.toInt)

/-- Errors returned by the engine; each constructor is one `errors.New` message. -/
inductive GameError where
  /-- The message `game is already over`. -/
  | gameOver
  /-- The message `game is not in progress`. -/
  | notInProgress
  /-- The message `invalid card index`. -/
  | invalidIndex
  /-- The message `cannot skip two rooms in a row`. -/
  | previousRoomSkipped
  /-- The message `cannot skip a room after playing cards`. -/
  | cardsAlreadyPlayed
  /-- The message `not enough cards in deck`. -/
  | notEnoughCards
  /-- The message `session not found`. -/
  | sessionNotFound
  /-- A Go run-time panic (nil dereference, slice bounds), not a returned error. -/
  | runtimePanic
deriving DecidableEq, Repr

/-- The game player. -/
structure Player where
  health : Int
  maxHealth : Int
  equippedWeapon : Option Card
  defeatedMonsters : List Card
  usedPotionThisRoom : Bool
deriving DecidableEq, Repr

/-- Go `NewPlayer`. -/
def NewPlayer (maxHealth : Int) : Player :=
  { health := maxHealth
    maxHealth := maxHealth
    equippedWeapon := none
    defeatedMonsters := []
    usedPotionThisRoom := false }

/-- Go `Player.ApplyDamage`: subtracts and returns a nil error.  Exact arithmetic: the code's
result whenever `health - amount` is representable (see `Player.ApplyDamage64`). -/
def Player.ApplyDamage (p : Player) (amount : Int) : Player × Option GameError :=
  ({ p with health := p.health - amount }, none)

/-- Go `Player.Heal`, with exact arithmetic: the code's result whenever `health + amount` is
representable (see `Player.Heal64`). -/
def Player.Heal (p : Player) (amount : Int) : Player :=
  let p1 := { p with health := p.health + amount }
  if p1.health > p1.maxHealth then { p1 with health := p1.maxHealth } else p1

/-- The least value of a 64-bit Go `int`. -/
def minInt64 : Int := -9223372036854775808

/-- The greatest value of a 64-bit Go `int`. -/
def maxInt64 : Int := 9223372036854775807

/-- The value a 64-bit Go `int` holds when the exact result of an addition or a subtraction
is `x`: the integer from `minInt64` to `maxInt64` congruent to `x` modulo `2 ^ 64`. -/
def wrapInt64 (x : Int) : Int :=
  (x + 9223372036854775808) % 18446744073709551616 - 9223372036854775808

/-- Go `Player.ApplyDamage` on a 64-bit `int`: `p.health -= amount` wraps around. -/
def Player.ApplyDamage64 (p : Player) (amount : Int) : Player × Option GameError :=
  ({ p with health := wrapInt64 (p.health - amount) }, none)

/-- Go `Player.Heal` on a 64-bit `int`: `p.health += amount` wraps around, and the comparison
with `maxHealth` is made on the wrapped sum. -/
def Player.Heal64 (p : Player) (amount : Int) : Player :=
  let p1 := { p with health := wrapInt64 (p.health + amount) }
  if p1.health > p1.maxHealth then { p1 with health := p1.maxHealth } else p1

/-- Go `Player.EquipWeapon`. -/
def Player.EquipWeapon (p : Player) (card : Card) : Player :=
  { p with equippedWeapon := some card, defeatedMonsters := [] }

/-- Go `Player.AddDefeatedMonster`. -/
def Player.AddDefeatedMonster (p : Player) (monster : Card) : Player :=
  { p with defeatedMonsters := p.defeatedMonsters ++ [monster] }

/-- Go `Player.CanUseWeaponAgainst`. -/
def Player.CanUseWeaponAgainst (p : Player) (monster : Card) : Bool :=
  if p.equippedWeapon = none ∨ p.defeatedMonsters.length = 0 then true
  else
    match p.defeatedMonsters.getLast? with
    | some lastDefeatedMonster => decide (monster.Value ≤ lastDefeatedMonster.Value)
    | none => true

/-- Go `Player.SetUsedPotionThisRoom`. -/
def Player.SetUsedPotionThisRoom (p : Player) (used : Bool) : Player :=
  { p with usedPotionThisRoom := used }

/-- A room: unplayed cards and played cards. -/
structure Room where
  cards : List Card
  playedCards : List Card
deriving DecidableEq, Repr

/-- Go `NewRoom`. -/
def NewRoom (cards : List Card) : Room := { cards := cards, playedCards := [] }

/-- Go `Room.PlayCard`: the updated room, and the card or the error. -/
def Room.PlayCard (r : Room) (index : Int) : Room × Except GameError Card :=
  if index < 0 ∨ index ≥ (r.cards.length : Int) then (r, .error .invalidIndex)
  else
    match r.cards[index.toNat]? with
    | some card =>
      ({ cards := r.cards.take index.toNat ++ r.cards.drop (index.toNat + 1)
         playedCards := r.playedCards ++ [card] }, .ok card)
    | none => (r, .error .runtimePanic)

/-- Go `Room.RemainingCard`. -/
def Room.RemainingCard (r : Room) : Option Card :=
  if r.cards.length = 1 then r.cards[0]? else none

/-- Go `Room.Completed`. -/
def Room.Completed (r : Room) : Bool := decide (r.playedCards.length = 3)

/-- Go `Room.AllCards`. -/
def Room.AllCards (r : Room) : List Card := r.cards ++ r.playedCards

/-- The deck. -/
structure Deck where
  cards : List Card
  prevRoomSkipped : Bool
deriving DecidableEq, Repr

/-- Go `NewDeck`: the two nested loops, appending every card that is not a red face card or ace. -/
def NewDeck : Deck :=
  { cards := Suit.loop.foldl (fun acc s =>
      Rank.loop.foldl (fun acc2 r =>
        let card := NewCard s r
        if !card.IsRedFaceOrAce then acc2 ++ [card] else acc2) acc) []
    prevRoomSkipped := false }

/-- The swap callback of `Deck.Shuffle`: `d.cards[i], d.cards[j] = d.cards[j], d.cards[i]`. -/
def swapCards (l : List Card) (i j : Nat) : List Card :=
  match l[i]?, l[j]? with
  | some a, some b => (l.set i b).set j a
  | _, _ => l

/-- The loop of `rand.Shuffle`: for `i` from `n - 1` down to `1`, swap `i` with a random
`j` in `[0, i]`; `rnd i` is the random number drawn at step `i`. -/
def shuffleLoop (rnd : Nat → Nat) : Nat → List Card → List Card
  | 0, l => l
  | i + 1, l => shuffleLoop rnd i (swapCards l (i + 1) (rnd (i + 1) % (i + 2)))

/-- Go `Deck.Shuffle`, with the random source as an argument. -/
def Deck.Shuffle (d : Deck) (rnd : Nat → Nat) : Deck :=
  { d with cards := shuffleLoop rnd (d.cards.length - 1) d.cards }

/-- Go `Deck.Draw`: the updated deck, and the drawn cards or the error. -/
def Deck.Draw (d : Deck) (count : Int) : Deck × Except GameError (List Card) :=
  if count > (d.cards.length : Int) then (d, .error .notEnoughCards)
  else if count < 0 then (d, .error .runtimePanic)
  else ({ d with cards := d.cards.drop count.toNat }, .ok (d.cards.take count.toNat))

/-- Go `Deck.AddToBottom`. -/
def Deck.AddToBottom (d : Deck) (cards : List Card) : Deck :=
  { d with cards := d.cards ++ cards }

/-- Go `Deck.Remaining`. -/
def Deck.Remaining (d : Deck) : Int := d.cards.length

/-- Go `Deck.SetPrevRoomSkipped`. -/
def Deck.SetPrevRoomSkipped (d : Deck) (skipped : Bool) : Deck :=
  { d with prevRoomSkipped := skipped }

/-! ## engine.go -/

/-- Overall state of a game. -/
inductive GameState where
  | Initial
  | InProgress
  | Won
  | Lost
deriving DecidableEq, Repr

/-- An active game session. -/
structure GameSession where
  ID : String
  player : Player
  deck : Deck
  currentRoom : Option Room
  playHistory : List Card
  state : GameState
  lastCardPlayed : Option Card
deriving DecidableEq, Repr

/-- Go `GameSession.CreateRoom`. -/
def GameSession.CreateRoom (g : GameSession) : GameSession × Option GameError :=
  if g.state = .Won ∨ g.state = .Lost then (g, some .gameOver)
  else
    let deal := fun (g1 : GameSession) (cards : List Card) =>
      ({ g1 with
          currentRoom := some (NewRoom cards)
          state := GameState.InProgress
          player := g1.player.SetUsedPotionThisRoom false }, (none : Option GameError))
    match g.currentRoom.bind Room.RemainingCard with
    | some remainingCard =>
      match g.deck.Draw 3 with
      | (d, .error _) => ({ g with deck := d, state := .Won }, none)
      | (d, .ok newCards) => deal { g with deck := d } ([remainingCard] ++ newCards)
    | none =>
      match g.deck.Draw 4 with
      | (d, .error _) => ({ g with deck := d, state := .Won }, none)
      | (d, .ok cards) => deal { g with deck := d } cards

/-- Go `NewGameSession`; `id` is the generated identifier and `rnd` the random source of the
shuffle. -/
def NewGameSession (id : String) (rnd : Nat → Nat) : GameSession :=
  let player := NewPlayer 20
  let deck := NewDeck.Shuffle rnd
  let session : GameSession :=
    { ID := id
      player := player
      deck := deck
      currentRoom := none
      playHistory := []
      state := .Initial
      lastCardPlayed := none }
  session.CreateRoom.1

/-- Go `GameSession.handleMonster`. -/
def GameSession.handleMonster (g : GameSession) (card : Card) : GameSession × Option GameError :=
  match g.player.equippedWeapon with
  | some weapon =>
    if g.player.CanUseWeaponAgainst card then
      let damage := card.Value - weapon.Value
      let damage := if damage < 0 then 0 else damage
      match g.player.ApplyDamage damage with
      | (p, some err) => ({ g with player := p }, some err)
      | (p, none) => ({ g with player := p.AddDefeatedMonster card }, none)
    else
      match g.player.ApplyDamage card.Value with
      | (p, some err) => ({ g with player := p }, some err)
      | (p, none) => ({ g with player := p }, none)
  | none =>
    match g.player.ApplyDamage card.Value with
    | (p, some err) => ({ g with player := p }, some err)
    | (p, none) => ({ g with player := p }, none)

/-- Go `GameSession.handleMonsterWithoutWeapon`. -/
def GameSession.handleMonsterWithoutWeapon (g : GameSession) (card : Card) :
    GameSession × Option GameError :=
  match g.player.ApplyDamage card.Value with
  | (p, some err) => ({ g with player := p }, some err)
  | (p, none) => ({ g with player := p }, none)

/-- Go `GameSession.handleWeapon`. -/
def GameSession.handleWeapon (g : GameSession) (card : Card) : GameSession × Option GameError :=
  ({ g with player := g.player.EquipWeapon card }, none)

/-- Go `GameSession.handlePotion`. -/
def GameSession.handlePotion (g : GameSession) (card : Card) : GameSession × Option GameError :=
  if !g.player.usedPotionThisRoom then
    ({ g with player := (g.player.Heal card.Value).SetUsedPotionThisRoom true }, none)
  else (g, none)

/-- Go `GameSession.PlayCard`. -/
def GameSession.PlayCard (g : GameSession) (index : Int) : GameSession × Option GameError :=
  if g.state ≠ .InProgress then (g, some .notInProgress)
  else
    match g.currentRoom with
    | none => (g, some .runtimePanic)
    | some room =>
      match room.PlayCard index with
      | (room1, .error err) => ({ g with currentRoom := some room1 }, some err)
      | (room1, .ok card) =>
        let g1 := { g with currentRoom := some room1, lastCardPlayed := some card }
        let handled :=
          match card.CardType with
          | .Monster => g1.handleMonster card
          | .Weapon => g1.handleWeapon card
          | .Potion => g1.handlePotion card
        match handled with
        | (g2, some err) => (g2, some err)
        | (g2, none) =>
          let g3 := { g2 with playHistory := g2.playHistory ++ [card] }
          let next : GameSession × Option GameError :=
            match g3.currentRoom with
            | some room3 => if room3.Completed then g3.CreateRoom else (g3, none)
            | none => (g3, some .runtimePanic)
          match next with
          | (g4, some err) => (g4, some err)
          | (g4, none) =>
            if g4.player.health ≤ 0 then ({ g4 with state := .Lost }, none) else (g4, none)

/-- Go `GameSession.PlayCardWithoutWeapon`. -/
def GameSession.PlayCardWithoutWeapon (g : GameSession) (index : Int) :
    GameSession × Option GameError :=
  if g.state ≠ .InProgress then (g, some .notInProgress)
  else
    match g.currentRoom with
    | none => (g, some .runtimePanic)
    | some room =>
      match room.PlayCard index with
      | (room1, .error err) => ({ g with currentRoom := some room1 }, some err)
      | (room1, .ok card) =>
        let g1 := { g with currentRoom := some room1, lastCardPlayed := some card }
        let handled :=
          match card.CardType with
          | .Monster => g1.handleMonsterWithoutWeapon card
          | .Weapon => g1.handleWeapon card
          | .Potion => g1.handlePotion card
        match handled with
        | (g2, some err) => (g2, some err)
        | (g2, none) =>
          let g3 := { g2 with playHistory := g2.playHistory ++ [card] }
          let next : GameSession × Option GameError :=
            match g3.currentRoom with
            | some room3 => if room3.Completed then g3.CreateRoom else (g3, none)
            | none => (g3, some .runtimePanic)
          match next with
          | (g4, some err) => (g4, some err)
          | (g4, none) =>
            if g4.player.health ≤ 0 then ({ g4 with state := .Lost }, none) else (g4, none)

/-- Go `GameSession.SkipRoom`. -/
def GameSession.SkipRoom (g : GameSession) : GameSession × Option GameError :=
  if g.state ≠ .InProgress then (g, some .notInProgress)
  else if g.deck.prevRoomSkipped then (g, some .previousRoomSkipped)
  else
    match g.currentRoom with
    | none => (g, some .runtimePanic)
    | some room =>
      if room.playedCards.length > 0 then (g, some .cardsAlreadyPlayed)
      else
        let g1 := { g with deck := (g.deck.AddToBottom room.AllCards).SetPrevRoomSkipped true }
        g1.CreateRoom

/-- Go `GameSession.IsGameOver`. -/
def GameSession.IsGameOver (g : GameSession) : Bool :=
  g.state == .Won || g.state == .Lost

/-! ## session.go -/

/-- The session registry: the Go map from identifiers to sessions, as a partial function.
The mutex guards the map and is not part of its content. -/
structure SessionManager where
  sessions : String → Option GameSession

/-- Go `NewSessionManager`. -/
def NewSessionManager : SessionManager := { sessions := fun _ => none }

/-- The map assignment `sm.sessions[id] = session`; a session mutated in place through its
pointer is the session stored under its identifier afterwards. -/
def SessionManager.put (sm : SessionManager) (id : String) (session : GameSession) :
    SessionManager :=
  { sessions := fun k => if k = id then some session else sm.sessions k }

/-- Go `SessionManager.CreateSession`; `id` and `rnd` are the random data of
`NewGameSession`. -/
def SessionManager.CreateSession (sm : SessionManager) (id : String) (rnd : Nat → Nat) :
    SessionManager × String :=
  let session := NewGameSession id rnd
  (sm.put session.ID session, session.ID)

/-- Go `SessionManager.GetSession`: the session or the error; the registry is only read. -/
def SessionManager.GetSession (sm : SessionManager) (id : String) :
    Option GameSession × Option GameError :=
  match sm.sessions id with
  | none => (none, some .sessionNotFound)
  | some session => (some session, none)

/-- Go `SessionManager.DeleteSession`. -/
def SessionManager.DeleteSession (sm : SessionManager) (id : String) : SessionManager :=
  { sessions := fun k => if k = id then none else sm.sessions k }

/-- Go `SessionManager.PlayCard`: the registry afterwards, and the session or the error. -/
def SessionManager.PlayCard (sm : SessionManager) (sessionID : String) (cardIndex : Int) :
    SessionManager × Option GameSession × Option GameError :=
  match sm.sessions sessionID with
  | none => (sm, none, some .sessionNotFound)
  | some session =>
    match session.PlayCard cardIndex with
    | (session1, some err) => (sm.put sessionID session1, none, some err)
    | (session1, none) => (sm.put sessionID session1, some session1, none)

/-- Go `SessionManager.PlayCardWithoutWeapon`. -/
def SessionManager.PlayCardWithoutWeapon (sm : SessionManager) (sessionID : String)
    (cardIndex : Int) : SessionManager × Option GameSession × Option GameError :=
  match sm.sessions sessionID with
  | none => (sm, none, some .sessionNotFound)
  | some session =>
    match session.PlayCardWithoutWeapon cardIndex with
    | (session1, some err) => (sm.put sessionID session1, none, some err)
    | (session1, none) => (sm.put sessionID session1, some session1, none)

/-- Go `SessionManager.SkipRoom`. -/
def SessionManager.SkipRoom (sm : SessionManager) (sessionID : String) :
    SessionManager × Option GameSession × Option GameError :=
  match sm.sessions sessionID with
  | none => (sm, none, some .sessionNotFound)
  | some session =>
    match session.SkipRoom with
    | (session1, some err) => (sm.put sessionID session1, none, some err)
    | (session1, none) => (sm.put sessionID session1, some session1, none)

/-- Go `SessionManager.CleanupSessions`: the loop deletes every entry whose session is over;
`maxAge` is not used by the code. -/
def SessionManager.CleanupSessions (sm : SessionManager) (maxAge : Int) : SessionManager :=
  let _ := maxAge
  { sessions := fun k =>
      match sm.sessions k with
      | some session => if session.IsGameOver then none else some session
      | none => none }

/-! ## Auxiliary definitions used by the proofs -/

/-- The session `CreateRoom` leaves behind when it deals `cards` and keeps `rest` in the deck. -/
def dealt (g : GameSession) (cards rest : List Card) : GameSession :=
  { g with
      deck := { g.deck with cards := rest }
      currentRoom := some (NewRoom cards)
      state := GameState.InProgress
      player := g.player.SetUsedPotionThisRoom false }

/-- Effect of `handleMonster` on the player. -/
def monsterEffect (p : Player) (card : Card) : Player :=
  match p.equippedWeapon with
  | some weapon =>
    if p.CanUseWeaponAgainst card then
      { p with
          health := p.health - max 0 (card.Value - weapon.Value)
          defeatedMonsters := p.defeatedMonsters ++ [card] }
    else { p with health := p.health - card.Value }
  | none => { p with health := p.health - card.Value }

/-- Effect of `handleMonsterWithoutWeapon` on the player. -/
def bareEffect (p : Player) (card : Card) : Player :=
  { p with health := p.health - card.Value }

/-- Effect of `handlePotion` on the player. -/
def potionEffect (p : Player) (card : Card) : Player :=
  if p.usedPotionThisRoom then p
  else { p with health := min (p.health + card.Value) p.maxHealth, usedPotionThisRoom := true }

/-- Effect on the player of the card dispatch of a play operation whose Monster handler has
the effect `mon`. -/
def cardEffect (mon : Player → Card → Player) (p : Player) (card : Card) : Player :=
  match card.CardType with
  | .Monster => mon p card
  | .Weapon => p.EquipWeapon card
  | .Potion => potionEffect p card

/-- The loss check that ends a play operation. -/
def lossCheck (g : GameSession) : GameSession :=
  if g.player.health ≤ 0 then { g with state := .Lost } else g

/-- The room step of a play operation: deal the next room when three cards are played. -/
def roomStep (g : GameSession) (playedBefore : Nat) : GameSession :=
  if playedBefore + 1 = 3 then g.CreateRoom.1 else g

/-- The session just before the room step, when `card` at index `i` of `room` is played and
the dispatch has the effect `mon` for monsters. -/
def played (mon : Player → Card → Player) (g : GameSession) (room : Room) (i : Nat)
    (card : Card) : GameSession :=
  { g with
      currentRoom := some { cards := room.cards.take i ++ room.cards.drop (i + 1)
                            playedCards := room.playedCards ++ [card] }
      lastCardPlayed := some card
      player := cardEffect mon g.player card
      playHistory := g.playHistory ++ [card] }

/-- The end of a play operation: pass on an error of the room step, else the loss check. -/
def finishPlay (next : GameSession × Option GameError) : GameSession × Option GameError :=
  match next with
  | (g4, some err) => (g4, some err)
  | (g4, none) =>
    if g4.player.health ≤ 0 then ({ g4 with state := .Lost }, none) else (g4, none)

/-- The room step of a play operation, with its error. -/
def roomNext (g3 : GameSession) : GameSession × Option GameError :=
  match g3.currentRoom with
  | some room3 => if room3.Completed then g3.CreateRoom else (g3, none)
  | none => (g3, some .runtimePanic)

/-- A session in the middle of a room: a potion and a monster are played, the potion flag is
set, and the next card at index 0 is the 6 of Diamonds. -/
def weaponThirdSession : GameSession :=
  { ID := String.mk []
    player := { health := 18, maxHealth := 20, equippedWeapon := none, defeatedMonsters := [],
                usedPotionThisRoom := true }
    deck := { cards := [⟨.Clubs, .Seven⟩, ⟨.Spades, .Eight⟩, ⟨.Hearts, .Nine⟩, ⟨.Clubs, .Ten⟩]
              prevRoomSkipped := false }
    currentRoom := some { cards := [⟨.Diamonds, .Six⟩, ⟨.Spades, .Three⟩]
                          playedCards := [⟨.Hearts, .Five⟩, ⟨.Clubs, .Two⟩] }
    playHistory := [⟨.Hearts, .Five⟩, ⟨.Clubs, .Two⟩]
    state := .InProgress
    lastCardPlayed := some ⟨.Clubs, .Two⟩ }

/-- The session `SkipRoom` hands to `CreateRoom`: the room's cards are at the bottom of the
deck and `prevRoomSkipped` is set. -/
def skipped (g : GameSession) (room : Room) : GameSession :=
  { g with deck := (g.deck.AddToBottom room.AllCards).SetPrevRoomSkipped true }

/-- A session whose room is completed by a potion: a potion was already used in this room,
and the card at index 0 is the 9 of Hearts. -/
def potionThirdSession : GameSession :=
  { ID := String.mk []
    player := { health := 9, maxHealth := 20, equippedWeapon := none, defeatedMonsters := [],
                usedPotionThisRoom := true }
    deck := { cards := [⟨.Hearts, .Four⟩, ⟨.Spades, .Eight⟩, ⟨.Clubs, .Nine⟩, ⟨.Clubs, .Ten⟩]
              prevRoomSkipped := false }
    currentRoom := some { cards := [⟨.Hearts, .Nine⟩, ⟨.Spades, .Three⟩]
                          playedCards := [⟨.Hearts, .Five⟩, ⟨.Clubs, .Jack⟩] }
    playHistory := [⟨.Hearts, .Five⟩, ⟨.Clubs, .Jack⟩]
    state := .InProgress
    lastCardPlayed := some ⟨.Clubs, .Jack⟩ }

/-- A session at its last room: 2 cards played, 2 unplayed, a single card left in the deck. -/
def lastRoomSession : GameSession :=
  { ID := String.mk []
    player := { health := 7, maxHealth := 20, equippedWeapon := some ⟨.Diamonds, .Five⟩,
                defeatedMonsters := [⟨.Clubs, .Two⟩], usedPotionThisRoom := false }
    deck := { cards := [⟨.Clubs, .Ten⟩], prevRoomSkipped := false }
    currentRoom := some { cards := [⟨.Spades, .Three⟩, ⟨.Clubs, .King⟩]
                          playedCards := [⟨.Diamonds, .Five⟩, ⟨.Clubs, .Two⟩] }
    playHistory := [⟨.Diamonds, .Five⟩, ⟨.Clubs, .Two⟩]
    state := .InProgress
    lastCardPlayed := some ⟨.Clubs, .Two⟩ }

/-- One call of an exported operation of a session. -/
inductive Op where
  | playCard (index : Int)
  | playCardWithoutWeapon (index : Int)
  | skipRoom
  | createRoom
deriving DecidableEq, Repr

/-- The call `op` made on the session `g`: the session afterwards and the returned error. -/
def Op.apply (op : Op) (g : GameSession) : GameSession × Option GameError :=
  match op with
  | .playCard index => g.PlayCard index
  | .playCardWithoutWeapon index => g.PlayCardWithoutWeapon index
  | .skipRoom => g.SkipRoom
  | .createRoom => g.CreateRoom

/-- The session after a sequence of calls, made one after the other whatever they return. -/
def runOps (ops : List Op) (g : GameSession) : GameSession :=
  ops.foldl (fun s op => (op.apply s).1) g

/-- A random source whose shuffle puts the two black aces and kings on top of the deck,
followed by the 2 of Hearts, the 3 of Diamonds, the 4 of Clubs and the 5 of Spades. -/
def demoRnd (i : Nat) : Nat :=
  [0, 0, 2, 1, 2, 3, 2, 3, 0, 1, 3, 4, 5, 6, 7, 8, 9, 10, 13, 15, 16, 17, 18, 19, 20, 21, 23,
   24, 25, 26, 27, 28, 29, 30, 31, 32, 33, 35, 36, 37, 38, 39, 40, 41].getD i 0

/-- The new session dealt from the shuffle of `demoRnd`. -/
def demoSession : GameSession := NewGameSession (String.mk []) demoRnd

/-- The room after the calls `Room.PlayCard index` for the indices of `indices`, in order,
whatever each call returns. -/
def Room.playAll (r : Room) (indices : List Int) : Room :=
  indices.foldl (fun room index => (room.PlayCard index).1) r

/-- The sessions reachable from a new session by calls of `PlayCard`, `PlayCardWithoutWeapon`
and `SkipRoom`, with any arguments and whatever the calls return. -/
inductive Reachable : GameSession → Prop where
  | init (id : String) (rnd : Nat → Nat) : Reachable (NewGameSession id rnd)
  | playCard (g : GameSession) (index : Int) : Reachable g → Reachable (g.PlayCard index).1
  | playCardWithoutWeapon (g : GameSession) (index : Int) :
      Reachable g → Reachable (g.PlayCardWithoutWeapon index).1
  | skipRoom (g : GameSession) : Reachable g → Reachable g.SkipRoom.1

/-- The values of a list of cards never increase from first to last. -/
def nonIncreasing (l : List Card) : Prop :=
  l.Chain' (fun a b => b.Value ≤ a.Value)

/-- Invariant of the player: maxHealth 20, health at most 20, and a defeated-monster list of
Monster cards whose values never increase, empty when no weapon is equipped. -/
structure PlayerInv (p : Player) : Prop where
  maxHealth : p.maxHealth = 20
  health : p.health ≤ 20
  sorted : nonIncreasing p.defeatedMonsters
  monsters : ∀ c ∈ p.defeatedMonsters, c.CardType = .Monster
  weapon : p.defeatedMonsters ≠ [] → p.equippedWeapon ≠ none

/-- Invariant of room, deck and history: the room has 4 cards in all, at most 3 played (at
most 2 while InProgress, exactly 3 with a single deck card when Won), and deck, unplayed
cards and history together are a permutation of the 44 cards of `NewDeck`. -/
def RoomInv (g : GameSession) : Prop :=
  ∃ room, g.currentRoom = some room ∧
    room.cards.length + room.playedCards.length = 4 ∧
    room.playedCards.length ≤ 3 ∧
    (g.state = .InProgress → room.playedCards.length ≤ 2) ∧
    (g.state = .Won → room.playedCards.length = 3 ∧ g.deck.cards.length = 1) ∧
    (g.deck.cards ++ room.cards ++ g.playHistory).Perm NewDeck.cards

/-- Invariant of every reachable session. -/
structure Inv (g : GameSession) : Prop where
  room : RoomInv g
  player : PlayerInv g.player
  notInitial : g.state ≠ .Initial
  lost : g.state = .Lost ↔ g.player.health ≤ 0
  deckMod : g.deck.cards.length % 3 = 1

/-- One atomic step of a request with respect to the registry mutex: the four mutex calls,
and the start and the end of a mutating method (`PlayCard`, `PlayCardWithoutWeapon`,
`SkipRoom`) of the session stored under `id`. -/
inductive LockStep where
  | rlock
  | runlock
  | lock
  | unlock
  | enter (id : String)
  | leave (id : String)
deriving DecidableEq, Repr

/-- State of the registry mutex and the requests that are inside a mutating session method:
number of read locks held, whether the write lock is held, and the pairs of a request number
and the identifier of the session it is mutating. -/
structure LockState where
  readers : Nat
  writer : Bool
  inside : List (Nat × String)
deriving DecidableEq, Repr

/-- The step `step` taken by request `req`; `none` when the request is blocked: `RLock` waits
for the writer, `Lock` waits for the writer and all readers. -/
def LockStep.exec (req : Nat) (st : LockState) (step : LockStep) : Option LockState :=
  match step with
  | .rlock => if st.writer then none else some { st with readers := st.readers + 1 }
  | .runlock => some { st with readers := st.readers - 1 }
  | .lock =>
    if st.writer || decide (st.readers > 0) then none else some { st with writer := true }
  | .unlock => some { st with writer := false }
  | .enter id => some { st with inside := (req, id) :: st.inside }
  | .leave id => some { st with inside := st.inside.erase (req, id) }

/-- Steps of `SessionManager.GetSession`: `RLock`, the map lookup, the deferred `RUnlock`. -/
def getSessionSteps : List LockStep := [.rlock, .runlock]

/-- Steps of `SessionManager.PlayCard` (and of its siblings `PlayCardWithoutWeapon` and
`SkipRoom`): `Lock`, the session method, the deferred `Unlock`. -/
def registryPlayCardSteps (id : String) : List LockStep :=
  [.lock, .enter id, .leave id, .unlock]

/-- Steps of `Handler.PlayCardHandler` (and of `PlayCardWithoutWeaponHandler` and
`SkipRoomHandler`): the call of `GetSession`, then the session method on the returned
pointer. -/
def playCardHandlerSteps (id : String) : List LockStep :=
  getSessionSteps ++ [.enter id, .leave id]

/-- Whether every mutating session method of a request starts while that request holds the
write lock; `held` tells whether it holds the lock before the first step. -/
def mutatesUnderWriteLock (held : Bool) : List LockStep → Bool
  | [] => true
  | .lock :: rest => mutatesUnderWriteLock true rest
  | .unlock :: rest => mutatesUnderWriteLock false rest
  | .enter _ :: rest => held && mutatesUnderWriteLock held rest
  | _ :: rest => mutatesUnderWriteLock held rest

/-- The requests `reqs` run concurrently under the schedule `sched`, which names the request
that takes its next step; `none` when a scheduled request is blocked or has finished. -/
def runSchedule (sched : List Nat) (reqs : List (List LockStep)) (st : LockState) :
    Option (List (List LockStep) × LockState) :=
  match sched with
  | [] => some (reqs, st)
  | req :: later =>
    match reqs[req]? with
    | some (step :: rest) =>
      match step.exec req st with
      | some st1 => runSchedule later (reqs.set req rest) st1
      | none => none
    | _ => none

/-- Two different requests are inside a mutating method of the same session. -/
def raced (st : LockState) : Bool :=
  st.inside.any (fun a => st.inside.any (fun b => a.1 != b.1 && a.2 == b.2))

/-- Whether the call is a play of a card (`PlayCard` or `PlayCardWithoutWeapon`). -/
def Op.isPlay : Op → Bool
  | .playCard _ => true
  | .playCardWithoutWeapon _ => true
  | _ => false

/-- Whether the call is a `SkipRoom`. -/
def Op.isSkip : Op → Bool
  | .skipRoom => true
  | _ => false

/-- The number of calls of `ops` of the kind `kind` that return no error when the calls are
made one after the other, starting from the session `g`. -/
def countOk (kind : Op → Bool) : List Op → GameSession → Nat
  | [], _ => 0
  | op :: rest, g =>
    (if kind op && (op.apply g).2.isNone then 1 else 0) + countOk kind rest (op.apply g).1

/-- A session in the middle of a room with the 7 of Diamonds equipped, no monster defeated
with it yet, and the 10 of Spades at index 0 of the room. -/
def armedSession : GameSession :=
  { ID := String.mk []
    player := { health := 12, maxHealth := 20, equippedWeapon := some ⟨.Diamonds, .Seven⟩,
                defeatedMonsters := [], usedPotionThisRoom := false }
    deck := { cards := [⟨.Clubs, .Seven⟩, ⟨.Spades, .Eight⟩, ⟨.Hearts, .Nine⟩, ⟨.Clubs, .Ten⟩]
              prevRoomSkipped := false }
    currentRoom := some { cards := [⟨.Spades, .Ten⟩, ⟨.Spades, .Three⟩, ⟨.Hearts, .Four⟩]
                          playedCards := [⟨.Diamonds, .Seven⟩] }
    playHistory := [⟨.Diamonds, .Seven⟩]
    state := .InProgress
    lastCardPlayed := some ⟨.Diamonds, .Seven⟩ }

/-- Whether every call of the sequence, made one after the other, returns without error. -/
def allOk : List Op → GameSession → Bool
  | [], _ => true
  | op :: rest, g => (op.apply g).2.isNone && allOk rest (op.apply g).1

/-- A random source whose shuffle deals a game that is won by playing index 0 every time: the
10 of Diamonds first, then the monsters from the aces down with the 10 and 9 of Hearts in
between, then the other weapons and potions. -/
def winRnd (i : Nat) : Nat :=
  [0, 0, 1, 1, 3, 2, 4, 1, 6, 6, 9, 2, 8, 4, 7, 3, 6, 4, 5, 19, 4, 18, 3, 17, 2, 16, 1, 15, 0,
   13, 14, 15, 16, 17, 18, 19, 20, 22, 23, 24, 25, 26, 27, 28].getD i 0

/-- The calls of a whole game: 42 times `PlayCard 0`. -/
def winOps : List Op := List.replicate 42 (.playCard 0)

/-! ## Helper lemmas -/

theorem swapCards_perm (l : List Card) (i j : Nat) : (swapCards l i j).Perm l := by
  unfold swapCards
  split
  · rename_i a b hi hj
    obtain ⟨hi', rfl⟩ := List.getElem?_eq_some.1 hi
    obtain ⟨hj', rfl⟩ := List.getElem?_eq_some.1 hj
    rw [List.perm_iff_count]
    intro c
    have h1 : (if l[i] == c then 1 else 0) ≤ l.count c := by
      split
      · rename_i h
        have : l[i] = c := by simpa using h
        exact List.count_pos_iff.2 (this ▸ List.getElem_mem hi')
      · omega
    have h2 : (if l[j] == c then 1 else 0) ≤ l.count c := by
      split
      · rename_i h
        have : l[j] = c := by simpa using h
        exact List.count_pos_iff.2 (this ▸ List.getElem_mem hj')
      · omega
    rw [List.count_set _ _ _ _ (by simpa using hj'), List.count_set _ _ _ _ hi']
    by_cases hij : i = j
    · subst hij
      simp only [List.getElem_set_self]
      split_ifs at * <;> omega
    · rw [List.getElem_set_ne hij]
      split_ifs at * <;> omega
  · exact List.Perm.refl _

theorem shuffleLoop_perm (rnd : Nat → Nat) (i : Nat) (l : List Card) :
    (shuffleLoop rnd i l).Perm l := by
  induction i generalizing l with
  | zero => exact List.Perm.refl _
  | succ n ih => exact (ih _).trans (swapCards_perm _ _ _)

theorem Shuffle_perm (d : Deck) (rnd : Nat → Nat) : (d.Shuffle rnd).cards.Perm d.cards :=
  shuffleLoop_perm _ _ _

theorem shuffleLoop_congr (rnd rnd2 : Nat → Nat) (n : Nat) (l : List Card)
    (h : ∀ k, 1 ≤ k → k ≤ n → rnd k = rnd2 k) :
    shuffleLoop rnd n l = shuffleLoop rnd2 n l := by
  induction n generalizing l with
  | zero => rfl
  | succ n ih =>
    simp only [shuffleLoop]
    rw [h (n + 1) (by omega) (by omega)]
    exact ih _ (fun k h1 h2 => h k h1 (by omega))

theorem swapCards_drop (l : List Card) (i j : Nat) (hj : j ≤ i) (hi : i < l.length) :
    (swapCards l i j).drop i = l[j] :: l.drop (i + 1) := by
  have hj2 : j < l.length := by omega
  unfold swapCards
  rw [List.getElem?_eq_getElem hi, List.getElem?_eq_getElem hj2]
  simp only
  have hlen : i < ((l.set i l[j]).set j l[i]).length := by simpa using hi
  rw [List.drop_eq_getElem_cons hlen]
  congr 1
  · by_cases hij : j = i
    · subst hij
      simp
    · rw [List.getElem_set_ne hij]
      simp
  · rw [List.drop_set_of_lt _ _ (by omega), List.drop_set_of_lt _ _ (by omega)]

theorem shuffleLoop_reaches (n : Nat) (l p : List Card) (hperm : l.Perm p)
    (hn : n < l.length) (hdrop : l.drop (n + 1) = p.drop (n + 1)) :
    ∃ rnd, shuffleLoop rnd n l = p := by
  induction n generalizing l with
  | zero =>
    refine ⟨fun _ => 0, ?_⟩
    show l = p
    have h1 : (l.take 1 ++ l.drop 1).Perm (p.take 1 ++ l.drop 1) := by
      rw [List.take_append_drop, hdrop, List.take_append_drop]
      exact hperm
    have h2 := (List.perm_append_right_iff _).1 h1
    have hpl : 0 < p.length := by rw [← hperm.length_eq]; exact hn
    have e1 : l.take 1 = [l[0]] := by
      cases l with
      | nil => simp at hn
      | cons a t => rfl
    have e2 : p.take 1 = [p[0]] := by
      cases p with
      | nil => simp at hpl
      | cons a t => rfl
    rw [e1, e2] at h2
    have h3 := List.perm_singleton.1 h2
    rw [← List.take_append_drop 1 l, ← List.take_append_drop 1 p, e1, e2, h3, hdrop]
  | succ n ih =>
    have hpl : n + 1 < p.length := by rw [← hperm.length_eq]; exact hn
    have h1 : (l.take (n + 2) ++ l.drop (n + 2)).Perm (p.take (n + 2) ++ l.drop (n + 2)) := by
      rw [List.take_append_drop, hdrop, List.take_append_drop]
      exact hperm
    have h2 := (List.perm_append_right_iff _).1 h1
    have hx : p[n + 1] ∈ p.take (n + 2) :=
      List.mem_take_iff_getElem.2 ⟨n + 1, by omega, rfl⟩
    obtain ⟨j, hj, hjx⟩ := List.mem_take_iff_getElem.1 (h2.symm.subset hx)
    have hj2 : j ≤ n + 1 := by omega
    have hd2 : (swapCards l (n + 1) j).drop (n + 1) = p.drop (n + 1) := by
      rw [swapCards_drop l (n + 1) j hj2 hn, hjx, hdrop, ← List.drop_eq_getElem_cons hpl]
    obtain ⟨rnd2, hr⟩ := ih (swapCards l (n + 1) j) ((swapCards_perm l _ _).trans hperm)
      (by rw [(swapCards_perm l _ _).length_eq]; omega) hd2
    refine ⟨fun k => if k = n + 1 then j else rnd2 k, ?_⟩
    simp only [shuffleLoop, if_true]
    rw [Nat.mod_eq_of_lt (by omega : j < n + 2), ← hr]
    exact shuffleLoop_congr _ _ n _ (fun k _ h2 => by simp; omega)

theorem Shuffle_reaches (d : Deck) (p : List Card) (hperm : p.Perm d.cards) :
    ∃ rnd, (d.Shuffle rnd).cards = p := by
  unfold Deck.Shuffle
  by_cases h0 : d.cards.length = 0
  · have hd : d.cards = [] := List.length_eq_zero.1 h0
    rw [hd] at hperm
    refine ⟨fun _ => 0, ?_⟩
    simp only [hd, List.length_nil]
    exact (List.perm_nil.1 hperm).symm ▸ rfl
  · obtain ⟨rnd, hr⟩ := shuffleLoop_reaches (d.cards.length - 1) d.cards p hperm.symm
      (by omega)
      (by rw [List.drop_of_length_le (by omega), List.drop_of_length_le
            (by rw [hperm.length_eq]; omega)])
    exact ⟨rnd, hr⟩

theorem Draw_ok (d : Deck) (n : Nat) (h : n ≤ d.cards.length) :
    d.Draw (n : Int) = ({ d with cards := d.cards.drop n }, .ok (d.cards.take n)) := by
  unfold Deck.Draw
  have h1 : ¬ ((n : Int) > (d.cards.length : Int)) := by omega
  have h2 : ¬ ((n : Int) < 0) := by omega
  simp only [h1, h2, if_false, Int.toNat_ofNat]

theorem Draw_fail (d : Deck) (n : Nat) (h : d.cards.length < n) :
    d.Draw (n : Int) = (d, .error .notEnoughCards) := by
  unfold Deck.Draw
  have h1 : (n : Int) > (d.cards.length : Int) := by omega
  simp only [h1, if_true]

theorem CreateRoom_over (g : GameSession) (h : g.state = .Won ∨ g.state = .Lost) :
    g.CreateRoom = (g, some .gameOver) := by
  unfold GameSession.CreateRoom
  simp only [h, if_true]

theorem CreateRoom_fresh (g : GameSession) (hs : ¬ (g.state = .Won ∨ g.state = .Lost))
    (hr : g.currentRoom.bind Room.RemainingCard = none) (hd : 4 ≤ g.deck.cards.length) :
    g.CreateRoom = (dealt g (g.deck.cards.take 4) (g.deck.cards.drop 4), none) := by
  unfold GameSession.CreateRoom
  have := Draw_ok g.deck 4 hd
  simp only [Nat.cast_ofNat] at this
  simp only [hs, if_false, hr, this]
  rfl

theorem CreateRoom_fresh_won (g : GameSession) (hs : ¬ (g.state = .Won ∨ g.state = .Lost))
    (hr : g.currentRoom.bind Room.RemainingCard = none) (hd : g.deck.cards.length < 4) :
    g.CreateRoom = ({ g with state := .Won }, none) := by
  unfold GameSession.CreateRoom
  have := Draw_fail g.deck 4 hd
  simp only [Nat.cast_ofNat] at this
  simp only [hs, if_false, hr, this]

theorem CreateRoom_leftover (g : GameSession) (c : Card)
    (hs : ¬ (g.state = .Won ∨ g.state = .Lost))
    (hr : g.currentRoom.bind Room.RemainingCard = some c) (hd : 3 ≤ g.deck.cards.length) :
    g.CreateRoom = (dealt g (c :: g.deck.cards.take 3) (g.deck.cards.drop 3), none) := by
  unfold GameSession.CreateRoom
  have := Draw_ok g.deck 3 hd
  simp only [Nat.cast_ofNat] at this
  simp only [hs, if_false, hr, this]
  rfl

theorem CreateRoom_leftover_won (g : GameSession) (c : Card)
    (hs : ¬ (g.state = .Won ∨ g.state = .Lost))
    (hr : g.currentRoom.bind Room.RemainingCard = some c) (hd : g.deck.cards.length < 3) :
    g.CreateRoom = ({ g with state := .Won }, none) := by
  unfold GameSession.CreateRoom
  have := Draw_fail g.deck 3 hd
  simp only [Nat.cast_ofNat] at this
  simp only [hs, if_false, hr, this]

theorem handleMonster_eq (g : GameSession) (card : Card) :
    g.handleMonster card = ({ g with player := monsterEffect g.player card }, none) := by
  unfold GameSession.handleMonster monsterEffect Player.ApplyDamage Player.AddDefeatedMonster
  cases hw : g.player.equippedWeapon with
  | none => rfl
  | some w =>
    by_cases hc : g.player.CanUseWeaponAgainst card = true
    · simp only [hc, if_true]
      by_cases hd : card.Value - w.Value < 0
      · simp only [hd, if_true, max_eq_left (le_of_lt hd)]
      · simp only [hd, if_false, max_eq_right (not_lt.1 hd)]
    · simp only [hc]
      rfl

theorem handleMonsterWithoutWeapon_eq (g : GameSession) (card : Card) :
    g.handleMonsterWithoutWeapon card = ({ g with player := bareEffect g.player card }, none) :=
  rfl

theorem Heal_health (p : Player) (n : Int) :
    p.Heal n = { p with health := min (p.health + n) p.maxHealth } := by
  unfold Player.Heal
  by_cases h : p.health + n > p.maxHealth
  · simp only [h, if_true, min_eq_right (le_of_lt h)]
  · simp only [h, if_false, min_eq_left (not_lt.1 h)]

theorem handlePotion_eq (g : GameSession) (card : Card) :
    g.handlePotion card = ({ g with player := potionEffect g.player card }, none) := by
  unfold GameSession.handlePotion potionEffect
  cases hu : g.player.usedPotionThisRoom with
  | true => rfl
  | false =>
    simp only [Bool.not_false, if_true, Heal_health, Player.SetUsedPotionThisRoom]
    rfl

theorem CreateRoom_cases (g : GameSession) (hs : ¬ (g.state = .Won ∨ g.state = .Lost)) :
    g.CreateRoom = ({ g with state := .Won }, none) ∨
    ∃ cards rest, g.CreateRoom = (dealt g cards rest, none) := by
  cases hr : g.currentRoom.bind Room.RemainingCard with
  | none =>
    by_cases hd : 4 ≤ g.deck.cards.length
    · exact Or.inr ⟨_, _, CreateRoom_fresh g hs hr hd⟩
    · exact Or.inl (CreateRoom_fresh_won g hs hr (not_le.1 hd))
  | some c =>
    by_cases hd : 3 ≤ g.deck.cards.length
    · exact Or.inr ⟨_, _, CreateRoom_leftover g c hs hr hd⟩
    · exact Or.inl (CreateRoom_leftover_won g c hs hr (not_le.1 hd))

theorem Room_PlayCard_ok (room : Room) (i : Nat) (card : Card) (hc : room.cards[i]? = some card) :
    room.PlayCard (i : Int) =
      ({ cards := room.cards.take i ++ room.cards.drop (i + 1)
         playedCards := room.playedCards ++ [card] }, .ok card) := by
  unfold Room.PlayCard
  have hi : i < room.cards.length := (List.getElem?_eq_some.1 hc).1
  have h1 : ¬ ((i : Int) < 0 ∨ (i : Int) ≥ (room.cards.length : Int)) := by omega
  simp only [h1, if_false, Int.toNat_ofNat, hc]

theorem finishPlay_ok (g : GameSession) : finishPlay (g, none) = (lossCheck g, none) := by
  simp only [finishPlay, lossCheck]
  split <;> rfl

theorem playTail_eq (g3 : GameSession) (room1 : Room)
    (hs : g3.state = .InProgress) (hr : g3.currentRoom = some room1) :
    finishPlay (roomNext g3) =
      (lossCheck (if room1.playedCards.length = 3 then g3.CreateRoom.1 else g3), none) := by
  unfold roomNext
  rw [hr]
  simp only [Room.Completed]
  by_cases h3 : room1.playedCards.length = 3
  · simp only [h3, decide_True, if_true]
    have hst : ¬ (g3.state = .Won ∨ g3.state = .Lost) := by simp [hs]
    rcases CreateRoom_cases _ hst with h | ⟨cs, rest, h⟩ <;> rw [h] <;> exact finishPlay_ok _
  · simp only [h3, decide_False, if_false, Bool.false_eq_true]
    exact finishPlay_ok _

theorem roomStep_played (mon : Player → Card → Player) (g : GameSession) (room : Room)
    (i : Nat) (card : Card) (hs : g.state = .InProgress) :
    finishPlay (roomNext (played mon g room i card)) =
      (lossCheck (roomStep (played mon g room i card) room.playedCards.length), none) := by
  refine (playTail_eq (played mon g room i card) _ hs rfl).trans ?_
  simp only [roomStep, List.length_append, List.length_singleton]

/-- Go `PlayCard` on an in-progress session, at an index holding `card`. -/
theorem PlayCard_eq (g : GameSession) (room : Room) (i : Nat) (card : Card)
    (hs : g.state = .InProgress) (hr : g.currentRoom = some room)
    (hc : room.cards[i]? = some card) :
    g.PlayCard (i : Int) =
      (lossCheck (roomStep (played monsterEffect g room i card) room.playedCards.length),
        none) := by
  rw [← roomStep_played monsterEffect g room i card hs]
  unfold GameSession.PlayCard
  rw [if_neg (not_not.2 hs)]
  simp only [hr, Room_PlayCard_ok room i card hc, handleMonster_eq, handlePotion_eq,
    GameSession.handleWeapon]
  cases ht : card.CardType <;> simp only [played, cardEffect, ht] <;> rfl

/-- Go `PlayCardWithoutWeapon` on an in-progress session, at an index holding `card`. -/
theorem PlayCardWithoutWeapon_eq (g : GameSession) (room : Room) (i : Nat) (card : Card)
    (hs : g.state = .InProgress) (hr : g.currentRoom = some room)
    (hc : room.cards[i]? = some card) :
    g.PlayCardWithoutWeapon (i : Int) =
      (lossCheck (roomStep (played bareEffect g room i card) room.playedCards.length),
        none) := by
  rw [← roomStep_played bareEffect g room i card hs]
  unfold GameSession.PlayCardWithoutWeapon
  rw [if_neg (not_not.2 hs)]
  simp only [hr, Room_PlayCard_ok room i card hc, handleMonsterWithoutWeapon_eq,
    handlePotion_eq, GameSession.handleWeapon]
  cases ht : card.CardType <;> simp only [played, cardEffect, ht] <;> rfl

theorem lossCheck_player (g : GameSession) : (lossCheck g).player = g.player := by
  unfold lossCheck
  split <;> rfl

theorem lossCheck_deck (g : GameSession) : (lossCheck g).deck = g.deck := by
  unfold lossCheck
  split <;> rfl

theorem lossCheck_room (g : GameSession) : (lossCheck g).currentRoom = g.currentRoom := by
  unfold lossCheck
  split <;> rfl

theorem played_state (mon : Player → Card → Player) (g : GameSession) (room : Room) (i : Nat)
    (card : Card) (hs : g.state = .InProgress) :
    ¬ ((played mon g room i card).state = .Won ∨ (played mon g room i card).state = .Lost) := by
  simp [played, hs]

/-- The room step never touches health, maxHealth, weapon or defeated monsters. -/
theorem roomStep_player (g : GameSession) (n : Nat) (hs : ¬ (g.state = .Won ∨ g.state = .Lost)) :
    (roomStep g n).player.health = g.player.health ∧
    (roomStep g n).player.maxHealth = g.player.maxHealth ∧
    (roomStep g n).player.equippedWeapon = g.player.equippedWeapon ∧
    (roomStep g n).player.defeatedMonsters = g.player.defeatedMonsters := by
  unfold roomStep
  split
  · rcases CreateRoom_cases g hs with h | ⟨cs, rest, h⟩ <;> rw [h] <;>
      simp [dealt, Player.SetUsedPotionThisRoom]
  · simp

theorem monsterEffect_weapon (p : Player) (card : Card) :
    (monsterEffect p card).equippedWeapon = p.equippedWeapon := by
  unfold monsterEffect
  split
  · split <;> rfl
  · rfl

theorem Card_Value_pos (c : Card) : 2 ≤ c.Value ∧ c.Value ≤ 14 := by
  unfold Card.Value
  cases c.rank <;> simp [Rank.toInt]

theorem lossCheck_state (g : GameSession) :
    (0 < g.player.health → (lossCheck g).state = g.state) ∧
    (g.player.health ≤ 0 → (lossCheck g).state = .Lost) := by
  unfold lossCheck
  constructor <;> intro h
  · rw [if_neg (not_le.2 h)]
  · rw [if_pos h]

/-- The room step either keeps the room and the potion flag, or deals a new room (no played
card) and clears the flag; it keeps them whenever the play was not the third of the room. -/
theorem roomStep_flag (g : GameSession) (n : Nat) (hs : ¬ (g.state = .Won ∨ g.state = .Lost)) :
    ((roomStep g n).currentRoom = g.currentRoom ∧
      (roomStep g n).player.usedPotionThisRoom = g.player.usedPotionThisRoom) ∨
    ((∃ cs, (roomStep g n).currentRoom = some (NewRoom cs)) ∧
      (roomStep g n).player.usedPotionThisRoom = false ∧ n + 1 = 3) := by
  unfold roomStep
  split
  · rename_i h3
    rcases CreateRoom_cases g hs with h | ⟨cs, rest, h⟩ <;> rw [h]
    · exact Or.inl ⟨rfl, rfl⟩
    · exact Or.inr ⟨⟨cs, rfl⟩, rfl, h3⟩
  · exact Or.inl ⟨rfl, rfl⟩

theorem play_weapon_same (g : GameSession) (room : Room) (i : Nat) (card : Card)
    (ht : card.CardType ≠ .Monster) :
    played bareEffect g room i card = played monsterEffect g room i card := by
  unfold played cardEffect
  cases h : card.CardType <;> simp_all

theorem SkipRoom_eq (g : GameSession) (room : Room) (hs : g.state = .InProgress)
    (hp : g.deck.prevRoomSkipped = false) (hr : g.currentRoom = some room)
    (hn : room.playedCards = []) :
    g.SkipRoom = (skipped g room).CreateRoom := by
  unfold GameSession.SkipRoom skipped
  rw [if_neg (not_not.2 hs)]
  simp only [hp, Bool.false_eq_true, if_false, hr, hn, List.length_nil, gt_iff_lt,
    lt_self_iff_false]

theorem played_remaining (mon : Player → Card → Player) (g : GameSession) (room : Room)
    (i : Nat) (card : Card) :
    (played mon g room i card).currentRoom.bind Room.RemainingCard
      = Room.RemainingCard { cards := room.cards.take i ++ room.cards.drop (i + 1)
                             playedCards := room.playedCards ++ [card] } := rfl

theorem play_ops (g : GameSession) (room : Room) (i : Nat) (card : Card)
    (hs : g.state = .InProgress) (hr : g.currentRoom = some room)
    (hc : room.cards[i]? = some card) (r : GameSession × Option GameError)
    (hrr : r = g.PlayCard (i : Int) ∨ r = g.PlayCardWithoutWeapon (i : Int)) :
    ∃ mon, r = (lossCheck (roomStep (played mon g room i card) room.playedCards.length),
      none) := by
  rcases hrr with h | h
  · exact ⟨_, by rw [h, PlayCard_eq g room i card hs hr hc]⟩
  · exact ⟨_, by rw [h, PlayCardWithoutWeapon_eq g room i card hs hr hc]⟩

theorem PlayCard_notInProgress (g : GameSession) (index : Int) (hs : g.state ≠ .InProgress) :
    g.PlayCard index = (g, some .notInProgress) := by
  unfold GameSession.PlayCard
  rw [if_pos hs]

theorem PlayCardWithoutWeapon_notInProgress (g : GameSession) (index : Int)
    (hs : g.state ≠ .InProgress) :
    g.PlayCardWithoutWeapon index = (g, some .notInProgress) := by
  unfold GameSession.PlayCardWithoutWeapon
  rw [if_pos hs]

theorem Room_PlayCard_invalid (room : Room) (index : Int)
    (hi : index < 0 ∨ index ≥ (room.cards.length : Int)) :
    room.PlayCard index = (room, .error .invalidIndex) := by
  unfold Room.PlayCard
  rw [if_pos hi]

theorem PlayCard_invalid (g : GameSession) (room : Room) (index : Int)
    (hs : g.state = .InProgress) (hr : g.currentRoom = some room)
    (hi : index < 0 ∨ index ≥ (room.cards.length : Int)) :
    g.PlayCard index = (g, some .invalidIndex) := by
  unfold GameSession.PlayCard
  rw [if_neg (not_not.2 hs)]
  simp only [hr, Room_PlayCard_invalid room index hi]
  rw [← hr]

theorem PlayCardWithoutWeapon_invalid (g : GameSession) (room : Room) (index : Int)
    (hs : g.state = .InProgress) (hr : g.currentRoom = some room)
    (hi : index < 0 ∨ index ≥ (room.cards.length : Int)) :
    g.PlayCardWithoutWeapon index = (g, some .invalidIndex) := by
  unfold GameSession.PlayCardWithoutWeapon
  rw [if_neg (not_not.2 hs)]
  simp only [hr, Room_PlayCard_invalid room index hi]
  rw [← hr]

theorem PlayCard_noRoom (g : GameSession) (index : Int) (hs : g.state = .InProgress)
    (hr : g.currentRoom = none) : g.PlayCard index = (g, some .runtimePanic) := by
  unfold GameSession.PlayCard
  rw [if_neg (not_not.2 hs)]
  simp only [hr]

theorem PlayCardWithoutWeapon_noRoom (g : GameSession) (index : Int)
    (hs : g.state = .InProgress) (hr : g.currentRoom = none) :
    g.PlayCardWithoutWeapon index = (g, some .runtimePanic) := by
  unfold GameSession.PlayCardWithoutWeapon
  rw [if_neg (not_not.2 hs)]
  simp only [hr]

/-- An index inside the room is the cast of a natural number that holds a card. -/
theorem valid_index (room : Room) (index : Int)
    (hi : ¬ (index < 0 ∨ index ≥ (room.cards.length : Int))) :
    ∃ (i : Nat) (card : Card), index = (i : Int) ∧ room.cards[i]? = some card := by
  have h1 : 0 ≤ index := by omega
  have h2 : index.toNat < room.cards.length := by omega
  exact ⟨index.toNat, room.cards[index.toNat], (Int.toNat_of_nonneg h1).symm,
    List.getElem?_eq_getElem h2⟩

/-- A play operation that returns no error was made on an in-progress session, at an index
that holds a card of the current room. -/
theorem play_success (g : GameSession) (index : Int) (r : GameSession × Option GameError)
    (hrr : r = g.PlayCard index ∨ r = g.PlayCardWithoutWeapon index) (hok : r.2 = none) :
    g.state = .InProgress ∧ ∃ (room : Room) (i : Nat) (card : Card),
      g.currentRoom = some room ∧ index = (i : Int) ∧ room.cards[i]? = some card := by
  by_cases hs : g.state = .InProgress
  · refine ⟨hs, ?_⟩
    cases hr : g.currentRoom with
    | none =>
      rcases hrr with h | h
      · rw [h, PlayCard_noRoom g index hs hr] at hok; cases hok
      · rw [h, PlayCardWithoutWeapon_noRoom g index hs hr] at hok; cases hok
    | some room =>
      by_cases hi : index < 0 ∨ index ≥ (room.cards.length : Int)
      · rcases hrr with h | h
        · rw [h, PlayCard_invalid g room index hs hr hi] at hok; cases hok
        · rw [h, PlayCardWithoutWeapon_invalid g room index hs hr hi] at hok; cases hok
      · obtain ⟨i, card, h1, h2⟩ := valid_index room index hi
        exact ⟨room, i, card, rfl, h1, h2⟩
  · rcases hrr with h | h
    · rw [h, PlayCard_notInProgress g index hs] at hok; cases hok
    · rw [h, PlayCardWithoutWeapon_notInProgress g index hs] at hok; cases hok

/-- The room step leaves the session InProgress or Won. -/
theorem roomStep_state (g : GameSession) (n : Nat) (hs : g.state = .InProgress) :
    (roomStep g n).state = .InProgress ∨ (roomStep g n).state = .Won := by
  unfold roomStep
  split
  · rcases CreateRoom_cases g (by simp [hs]) with h | ⟨cs, rest, h⟩ <;> rw [h]
    · exact Or.inr rfl
    · exact Or.inl rfl
  · exact Or.inl hs

theorem SkipRoom_notInProgress (g : GameSession) (hs : g.state ≠ .InProgress) :
    g.SkipRoom = (g, some .notInProgress) := by
  unfold GameSession.SkipRoom
  rw [if_pos hs]

theorem SkipRoom_prevSkipped (g : GameSession) (hs : g.state = .InProgress)
    (hp : g.deck.prevRoomSkipped = true) :
    g.SkipRoom = (g, some .previousRoomSkipped) := by
  unfold GameSession.SkipRoom
  rw [if_neg (not_not.2 hs), if_pos hp]

theorem SkipRoom_played (g : GameSession) (room : Room) (hs : g.state = .InProgress)
    (hp : g.deck.prevRoomSkipped = false) (hr : g.currentRoom = some room)
    (hn : room.playedCards ≠ []) :
    g.SkipRoom = (g, some .cardsAlreadyPlayed) := by
  unfold GameSession.SkipRoom
  rw [if_neg (not_not.2 hs)]
  have : room.playedCards.length > 0 := List.length_pos.2 hn
  simp only [hp, Bool.false_eq_true, if_false, hr, this, if_true]

theorem SkipRoom_noRoom (g : GameSession) (hs : g.state = .InProgress)
    (hp : g.deck.prevRoomSkipped = false) (hr : g.currentRoom = none) :
    g.SkipRoom = (g, some .runtimePanic) := by
  unfold GameSession.SkipRoom
  rw [if_neg (not_not.2 hs)]
  simp only [hp, Bool.false_eq_true, if_false, hr]

/-- A skip of an untouched room with at least four cards in deck and room together deals the
first four cards of the deck followed by the room. -/
theorem SkipRoom_deals (g : GameSession) (room : Room) (hs : g.state = .InProgress)
    (hp : g.deck.prevRoomSkipped = false) (hr : g.currentRoom = some room)
    (hn : room.playedCards = []) (h4 : room.cards.length = 4) :
    g.SkipRoom = (dealt (skipped g room) ((g.deck.cards ++ room.cards).take 4)
      ((g.deck.cards ++ room.cards).drop 4), none) := by
  rw [SkipRoom_eq g room hs hp hr hn]
  rw [CreateRoom_fresh (skipped g room) (by simp [skipped, hs])
    (by simp [skipped, hr, Room.RemainingCard, h4])
    (by simp [skipped, Deck.AddToBottom, Deck.SetPrevRoomSkipped, Room.AllCards, h4]; omega)]
  simp [skipped, Deck.AddToBottom, Deck.SetPrevRoomSkipped, Room.AllCards, hn]

theorem NewDeck_shuffle_length (rnd : Nat → Nat) : (NewDeck.Shuffle rnd).cards.length = 44 := by
  rw [List.Perm.length_eq (Shuffle_perm NewDeck rnd)]
  decide

/-- The new session: the first four cards of the shuffled deck are dealt. -/
theorem NewGameSession_dealt (id : String) (rnd : Nat → Nat) :
    NewGameSession id rnd = dealt
      { ID := id, player := NewPlayer 20, deck := NewDeck.Shuffle rnd, currentRoom := none,
        playHistory := [], state := .Initial, lastCardPlayed := none }
      ((NewDeck.Shuffle rnd).cards.take 4) ((NewDeck.Shuffle rnd).cards.drop 4) := by
  unfold NewGameSession
  simp only
  rw [CreateRoom_fresh _ (by simp) (by simp)
    (by simp only [NewDeck_shuffle_length]; omega)]

/-- Every call of a play operation either returns an error and leaves the session as it
was, or is a successful play of a card of the current room of an in-progress session. -/
theorem play_cases (g : GameSession) (index : Int) (r : GameSession × Option GameError)
    (hrr : r = g.PlayCard index ∨ r = g.PlayCardWithoutWeapon index) :
    (r.1 = g ∧ r.2 ≠ none) ∨
    (g.state = .InProgress ∧ ∃ (room : Room) (i : Nat) (card : Card)
      (mon : Player → Card → Player), g.currentRoom = some room ∧ index = (i : Int) ∧
      room.cards[i]? = some card ∧
      r = (lossCheck (roomStep (played mon g room i card) room.playedCards.length), none)) := by
  by_cases hs : g.state = .InProgress
  · cases hr : g.currentRoom with
    | none =>
      left
      rcases hrr with h | h
      · rw [h, PlayCard_noRoom g index hs hr]; simp
      · rw [h, PlayCardWithoutWeapon_noRoom g index hs hr]; simp
    | some room =>
      by_cases hi : index < 0 ∨ index ≥ (room.cards.length : Int)
      · left
        rcases hrr with h | h
        · rw [h, PlayCard_invalid g room index hs hr hi]; simp
        · rw [h, PlayCardWithoutWeapon_invalid g room index hs hr hi]; simp
      · right
        obtain ⟨i, card, h1, h2⟩ := valid_index room index hi
        subst h1
        obtain ⟨mon, hm⟩ := play_ops g room i card hs hr h2 r hrr
        exact ⟨hs, room, i, card, mon, rfl, rfl, h2, hm⟩
  · left
    rcases hrr with h | h
    · rw [h, PlayCard_notInProgress g index hs]; simp
    · rw [h, PlayCardWithoutWeapon_notInProgress g index hs]; simp

theorem CreateRoom_prevSkipped (g : GameSession) :
    g.CreateRoom.1.deck.prevRoomSkipped = g.deck.prevRoomSkipped := by
  by_cases hs : g.state = .Won ∨ g.state = .Lost
  · rw [CreateRoom_over g hs]
  · rcases CreateRoom_cases g hs with h | ⟨cs, rest, h⟩
    · rw [h]
    · rw [h]; rfl

theorem CreateRoom_noError (g : GameSession) (hs : ¬ (g.state = .Won ∨ g.state = .Lost)) :
    g.CreateRoom.2 = none := by
  rcases CreateRoom_cases g hs with h | ⟨cs, rest, h⟩ <;> rw [h]

theorem roomStep_prevSkipped (g : GameSession) (n : Nat) :
    (roomStep g n).deck.prevRoomSkipped = g.deck.prevRoomSkipped := by
  unfold roomStep
  split
  · exact CreateRoom_prevSkipped g
  · rfl

theorem play_prevSkipped (g : GameSession) (index : Int) (r : GameSession × Option GameError)
    (hrr : r = g.PlayCard index ∨ r = g.PlayCardWithoutWeapon index) :
    r.1.deck.prevRoomSkipped = g.deck.prevRoomSkipped := by
  rcases play_cases g index r hrr with ⟨h, -⟩ | ⟨-, room, i, card, mon, -, -, -, h⟩
  · rw [h]
  · rw [h]
    show (lossCheck _).deck.prevRoomSkipped = _
    rw [lossCheck_deck, roomStep_prevSkipped]
    rfl

/-- No operation ever clears `prevRoomSkipped`. -/
theorem prevSkipped_stays (g : GameSession) (op : Op) (hp : g.deck.prevRoomSkipped = true) :
    (op.apply g).1.deck.prevRoomSkipped = true := by
  cases op with
  | playCard index => rw [← hp]; exact play_prevSkipped g index _ (Or.inl rfl)
  | playCardWithoutWeapon index => rw [← hp]; exact play_prevSkipped g index _ (Or.inr rfl)
  | skipRoom =>
    show g.SkipRoom.1.deck.prevRoomSkipped = true
    by_cases hs : g.state = .InProgress
    · rw [SkipRoom_prevSkipped g hs hp]; exact hp
    · rw [SkipRoom_notInProgress g hs]; exact hp
  | createRoom => rw [← hp]; exact CreateRoom_prevSkipped g

/-- `Room.PlayCard` never changes the total number of cards of a room. -/
theorem Room_PlayCard_total (r : Room) (index : Int) :
    (r.PlayCard index).1.cards.length + (r.PlayCard index).1.playedCards.length
      = r.cards.length + r.playedCards.length := by
  by_cases hi : index < 0 ∨ index ≥ (r.cards.length : Int)
  · rw [Room_PlayCard_invalid r index hi]
  · obtain ⟨i, card, rfl, hc⟩ := valid_index r index hi
    have hlt : i < r.cards.length := (List.getElem?_eq_some.1 hc).1
    rw [Room_PlayCard_ok r i card hc]
    simp only [List.length_append, List.length_take, List.length_drop, List.length_singleton]
    omega

theorem Room_playAll_total (r : Room) (indices : List Int) :
    (r.playAll indices).cards.length + (r.playAll indices).playedCards.length
      = r.cards.length + r.playedCards.length := by
  unfold Room.playAll
  induction indices generalizing r with
  | nil => rfl
  | cons index rest ih =>
    rw [List.foldl_cons, ih, Room_PlayCard_total]

/-- A play operation never reports `sessionNotFound`. -/
theorem play_not_sessionNotFound (g : GameSession) (index : Int)
    (r : GameSession × Option GameError)
    (hrr : r = g.PlayCard index ∨ r = g.PlayCardWithoutWeapon index) :
    r.2 ≠ some .sessionNotFound := by
  by_cases hs : g.state = .InProgress
  · cases hr : g.currentRoom with
    | none =>
      rcases hrr with h | h
      · rw [h, PlayCard_noRoom g index hs hr]; simp
      · rw [h, PlayCardWithoutWeapon_noRoom g index hs hr]; simp
    | some room =>
      by_cases hi : index < 0 ∨ index ≥ (room.cards.length : Int)
      · rcases hrr with h | h
        · rw [h, PlayCard_invalid g room index hs hr hi]; simp
        · rw [h, PlayCardWithoutWeapon_invalid g room index hs hr hi]; simp
      · obtain ⟨i, card, h1, h2⟩ := valid_index room index hi
        subst h1
        obtain ⟨mon, hm⟩ := play_ops g room i card hs hr h2 r hrr
        rw [hm]; simp
  · rcases hrr with h | h
    · rw [h, PlayCard_notInProgress g index hs]; simp
    · rw [h, PlayCardWithoutWeapon_notInProgress g index hs]; simp

/-- `SkipRoom` never reports `sessionNotFound`. -/
theorem SkipRoom_not_sessionNotFound (g : GameSession) :
    g.SkipRoom.2 ≠ some .sessionNotFound := by
  by_cases hs : g.state = .InProgress
  · cases hp : g.deck.prevRoomSkipped with
    | true => rw [SkipRoom_prevSkipped g hs hp]; simp
    | false =>
      cases hr : g.currentRoom with
      | none => rw [SkipRoom_noRoom g hs hp hr]; simp
      | some room =>
        by_cases hn : room.playedCards = []
        · rw [SkipRoom_eq g room hs hp hr hn, CreateRoom_noError _ (by simp [skipped, hs])]
          simp
        · rw [SkipRoom_played g room hs hp hr hn]; simp
  · rw [SkipRoom_notInProgress g hs]; simp

theorem perm_play (d a b h x : List Card) (c : Card) (hp : (d ++ (a ++ c :: b) ++ h).Perm x) :
    (d ++ (a ++ b) ++ (h ++ [c])).Perm x := by
  refine List.Perm.trans ?_ hp
  rw [List.perm_iff_count]
  intro y
  simp only [List.count_append, List.count_cons, List.count_nil]
  omega

theorem perm_deal (d h x : List Card) (c : Card) (hp : (d ++ [c] ++ h).Perm x) :
    (d.drop 3 ++ (c :: d.take 3) ++ h).Perm x := by
  refine List.Perm.trans ?_ hp
  rw [List.perm_iff_count]
  intro y
  have hd : (d.take 3).count y + (d.drop 3).count y = d.count y := by
    rw [← List.count_append, List.take_append_drop]
  simp only [List.count_append, List.count_cons, List.count_nil]
  omega

theorem perm_skip (d r h x : List Card) (hp : (d ++ r ++ h).Perm x) :
    ((d ++ r).drop 4 ++ (d ++ r).take 4 ++ h).Perm x := by
  refine List.Perm.trans ?_ hp
  rw [List.perm_iff_count]
  intro y
  have hd : ((d ++ r).take 4).count y + ((d ++ r).drop 4).count y = (d ++ r).count y := by
    rw [← List.count_append, List.take_append_drop]
  simp only [List.count_append] at hd ⊢
  omega

/-- With a weapon equipped, `CanUseWeaponAgainst` holds only for an empty defeated list or a
monster not stronger than the last defeated one. -/
theorem CanUse_last (p : Player) (card weapon : Card) (hw : p.equippedWeapon = some weapon)
    (hc : p.CanUseWeaponAgainst card = true) :
    ∀ last ∈ p.defeatedMonsters.getLast?, card.Value ≤ last.Value := by
  intro last hlast
  have hl : p.defeatedMonsters.getLast? = some last := hlast
  have hne : p.defeatedMonsters.length ≠ 0 := by
    intro h0
    rw [List.length_eq_zero.1 h0] at hl
    cases hl
  unfold Player.CanUseWeaponAgainst at hc
  simpa [hw, hne, hl] using hc

theorem monsterEffect_cases (p : Player) (card : Card) :
    monsterEffect p card = { p with health := p.health - card.Value } ∨
    ∃ weapon, p.equippedWeapon = some weapon ∧ p.CanUseWeaponAgainst card = true ∧
      monsterEffect p card =
        { p with health := p.health - max 0 (card.Value - weapon.Value)
                 defeatedMonsters := p.defeatedMonsters ++ [card] } := by
  unfold monsterEffect
  split
  · rename_i weapon hw
    split
    · rename_i hc
      exact Or.inr ⟨weapon, hw, hc, rfl⟩
    · exact Or.inl rfl
  · exact Or.inl rfl

theorem PlayerInv_damage (p : Player) (n : Int) (hn : 0 ≤ n) (hp : PlayerInv p) :
    PlayerInv { p with health := p.health - n } :=
  ⟨hp.maxHealth, by have := hp.health; show p.health - n ≤ 20; omega, hp.sorted, hp.monsters,
    hp.weapon⟩

theorem PlayerInv_monsterEffect (p : Player) (card : Card) (hp : PlayerInv p)
    (ht : card.CardType = .Monster) : PlayerInv (monsterEffect p card) := by
  have hv := Card_Value_pos card
  rcases monsterEffect_cases p card with h | ⟨weapon, hw, hc, h⟩
  · rw [h]
    exact PlayerInv_damage p _ (by omega) hp
  · rw [h]
    refine ⟨hp.maxHealth, ?_, ?_, ?_, ?_⟩
    · have := hp.health
      have : 0 ≤ max 0 (card.Value - weapon.Value) := le_max_left _ _
      show p.health - max 0 (card.Value - weapon.Value) ≤ 20
      omega
    · show nonIncreasing (p.defeatedMonsters ++ [card])
      unfold nonIncreasing
      rw [List.chain'_append]
      refine ⟨hp.sorted, List.chain'_singleton _, ?_⟩
      intro x hx y hy
      simp only [List.head?_cons, Option.mem_def, Option.some.injEq] at hy
      rw [← hy]
      exact CanUse_last p card weapon hw hc x hx
    · intro c hcm
      change c ∈ p.defeatedMonsters ++ [card] at hcm
      simp only [List.mem_append, List.mem_singleton] at hcm
      rcases hcm with h2 | h2
      · exact hp.monsters c h2
      · rw [h2]; exact ht
    · intro _
      show p.equippedWeapon ≠ none
      simp [hw]

theorem PlayerInv_cardEffect (mon : Player → Card → Player) (p : Player) (card : Card)
    (hmon : mon = monsterEffect ∨ mon = bareEffect) (hp : PlayerInv p) :
    PlayerInv (cardEffect mon p card) := by
  have hv := Card_Value_pos card
  unfold cardEffect
  cases ht : card.CardType with
  | Monster =>
    rcases hmon with h | h
    · rw [h]; exact PlayerInv_monsterEffect p card hp ht
    · rw [h]
      exact PlayerInv_damage p _ (by omega) hp
  | Weapon =>
    exact ⟨hp.maxHealth, hp.health, List.chain'_nil, by simp [Player.EquipWeapon],
      by simp [Player.EquipWeapon]⟩
  | Potion =>
    simp only [potionEffect]
    split
    · exact hp
    · exact ⟨hp.maxHealth, by simp only [hp.maxHealth]; exact min_le_right _ _, hp.sorted,
        hp.monsters, hp.weapon⟩

/-- As `play_cases`, and the monster effect is one of the two handlers. -/
theorem play_cases_mon (g : GameSession) (index : Int) (r : GameSession × Option GameError)
    (hrr : r = g.PlayCard index ∨ r = g.PlayCardWithoutWeapon index) :
    (r.1 = g ∧ r.2 ≠ none) ∨
    (g.state = .InProgress ∧ ∃ (room : Room) (i : Nat) (card : Card)
      (mon : Player → Card → Player), (mon = monsterEffect ∨ mon = bareEffect) ∧
      g.currentRoom = some room ∧ index = (i : Int) ∧ room.cards[i]? = some card ∧
      r = (lossCheck (roomStep (played mon g room i card) room.playedCards.length), none)) := by
  rcases play_cases g index r hrr with h | ⟨hs, room, i, card, mon, hr, hidx, hc, -⟩
  · exact Or.inl h
  · right
    subst hidx
    refine ⟨hs, room, i, card, ?_⟩
    rcases hrr with h | h
    · exact ⟨monsterEffect, Or.inl rfl, hr, rfl, hc,
        by rw [h, PlayCard_eq g room i card hs hr hc]⟩
    · exact ⟨bareEffect, Or.inr rfl, hr, rfl, hc,
        by rw [h, PlayCardWithoutWeapon_eq g room i card hs hr hc]⟩

/-- A freshly dealt room of four cards on a living player satisfies the invariant. -/
theorem Inv_dealt (g : GameSession) (cs rest : List Card) (hcs : cs.length = 4)
    (hperm : (rest ++ cs ++ g.playHistory).Perm NewDeck.cards) (hp : PlayerInv g.player)
    (hh : 0 < g.player.health) (hmod : rest.length % 3 = 1) : Inv (dealt g cs rest) := by
  have hroom : RoomInv (dealt g cs rest) :=
    ⟨NewRoom cs, rfl, (by show cs.length + 0 = 4; omega), Nat.zero_le 3,
      (fun _ => Nat.zero_le 2), (fun h => by cases h), hperm⟩
  have hplayer : PlayerInv (g.player.SetUsedPotionThisRoom false) :=
    ⟨hp.maxHealth, hp.health, hp.sorted, hp.monsters, hp.weapon⟩
  refine Inv.mk hroom hplayer (fun h => by cases h) ⟨(fun h => by cases h), (fun h => ?_)⟩ hmod
  have h2 : g.player.health ≤ 0 := h
  omega

theorem Inv_init (id : String) (rnd : Nat → Nat) : Inv (NewGameSession id rnd) := by
  rw [NewGameSession_dealt]
  have hl := NewDeck_shuffle_length rnd
  apply Inv_dealt
  · rw [List.length_take, hl]; omega
  · refine List.Perm.trans ?_ (Shuffle_perm NewDeck rnd)
    rw [List.append_nil]
    exact List.perm_append_comm.trans (List.take_append_drop 4 _ ▸ List.Perm.refl _)
  · exact ⟨rfl, le_refl _, List.chain'_nil, (fun c hc => by cases hc),
      (fun h => absurd rfl h)⟩
  · show (0 : Int) < 20
    omega
  · rw [List.length_drop, hl]

/-- The loss check turns a session that satisfies everything but the loss rule, in state
InProgress or Won, into a session that satisfies the invariant. -/
theorem Inv_lossCheck (g : GameSession) (hroom : RoomInv g) (hp : PlayerInv g.player)
    (hst : g.state = .InProgress ∨ g.state = .Won) (hmod : g.deck.cards.length % 3 = 1) :
    Inv (lossCheck g) := by
  unfold lossCheck
  by_cases hh : g.player.health ≤ 0
  · rw [if_pos hh]
    obtain ⟨room, hr, h4, h3, -, -, hperm⟩ := hroom
    have hroom2 : RoomInv { g with state := .Lost } :=
      ⟨room, hr, h4, h3, (fun h => by cases h), (fun h => by cases h), hperm⟩
    exact Inv.mk hroom2 hp (fun h => by cases h) ⟨fun _ => hh, fun _ => rfl⟩ hmod
  · rw [if_neg hh]
    refine Inv.mk hroom hp ?_ ?_ hmod
    · rcases hst with h | h <;> rw [h] <;> simp
    · rcases hst with h | h <;> rw [h] <;> simp [hh]

theorem PlayerInv_flag (p : Player) (b : Bool) (hp : PlayerInv p) :
    PlayerInv (p.SetUsedPotionThisRoom b) :=
  ⟨hp.maxHealth, hp.health, hp.sorted, hp.monsters, hp.weapon⟩

/-- Every call of a play operation keeps the invariant. -/
theorem Inv_play (g : GameSession) (index : Int) (r : GameSession × Option GameError)
    (hrr : r = g.PlayCard index ∨ r = g.PlayCardWithoutWeapon index) (hinv : Inv g) :
    Inv r.1 := by
  rcases play_cases_mon g index r hrr with ⟨h, -⟩ |
    ⟨hs, room, i, card, mon, hmon, hr, -, hc, hreq⟩
  · rw [h]; exact hinv
  · rw [hreq]
    obtain ⟨room0, hr0, h4, -, h2, -, hperm⟩ := hinv.room
    rw [hr] at hr0
    cases hr0
    have hi : i < room.cards.length := (List.getElem?_eq_some.1 hc).1
    have hget : room.cards[i] = card := (List.getElem?_eq_some.1 hc).2
    have hpl := h2 hs
    have hcards : room.cards = room.cards.take i ++ card :: room.cards.drop (i + 1) := by
      rw [← hget, List.getElem_cons_drop, List.take_append_drop]
    have hperm1 : (g.deck.cards ++ (room.cards.take i ++ room.cards.drop (i + 1))
        ++ (g.playHistory ++ [card])).Perm NewDeck.cards := by
      apply perm_play
      rw [← hcards]
      exact hperm
    have hlen1 : (room.cards.take i ++ room.cards.drop (i + 1)).length + 1
        = room.cards.length := by
      simp only [List.length_append, List.length_take, List.length_drop]; omega
    have hlen2 : (room.cards.take i).length + (room.cards.drop (i + 1)).length + 1
        = room.cards.length := by
      rw [← List.length_append]; exact hlen1
    have hP1 : PlayerInv (played mon g room i card).player :=
      PlayerInv_cardEffect mon g.player card hmon hinv.player
    have hst1 := played_state mon g room i card hs
    apply Inv_lossCheck
    · -- room invariant after the room step
      unfold roomStep
      by_cases h3 : room.playedCards.length + 1 = 3
      · rw [if_pos h3]
        obtain ⟨c, hc1⟩ : ∃ c, room.cards.take i ++ room.cards.drop (i + 1) = [c] :=
          List.length_eq_one.1 (by omega)
        have hrem : (played mon g room i card).currentRoom.bind Room.RemainingCard
            = some c := by
          rw [played_remaining]
          simp [Room.RemainingCard, hc1]
        by_cases hd : 3 ≤ g.deck.cards.length
        · rw [CreateRoom_leftover _ c hst1 hrem hd]
          refine ⟨NewRoom (c :: g.deck.cards.take 3), rfl, ?_, ?_, ?_, ?_, ?_⟩
          · simp [NewRoom]; omega
          · simp [NewRoom]
          · intro _; simp [NewRoom]
          · intro h; cases h
          · show (g.deck.cards.drop 3 ++ (c :: g.deck.cards.take 3)
              ++ (g.playHistory ++ [card])).Perm NewDeck.cards
            apply perm_deal
            rw [← hc1]
            exact hperm1
        · rw [CreateRoom_leftover_won _ c hst1 hrem (not_le.1 hd)]
          refine ⟨_, rfl, ?_, ?_, ?_, ?_, hperm1⟩
          · simp only [List.length_append, List.length_singleton]; omega
          · simp only [List.length_append, List.length_singleton]; omega
          · intro h; cases h
          · intro _
            refine ⟨by simp only [List.length_append, List.length_singleton]; omega, ?_⟩
            have := hinv.deckMod
            show g.deck.cards.length = 1
            omega
      · rw [if_neg h3]
        refine ⟨_, rfl, ?_, ?_, ?_, ?_, hperm1⟩
        · simp only [List.length_append, List.length_singleton]; omega
        · simp only [List.length_append, List.length_singleton]; omega
        · intro _
          simp only [List.length_append, List.length_singleton]; omega
        · intro h
          have : (played mon g room i card).state = g.state := rfl
          rw [this, hs] at h
          cases h
    · -- player invariant
      unfold roomStep
      split
      · rcases CreateRoom_cases _ hst1 with h | ⟨cs, rest, h⟩ <;> rw [h]
        · exact hP1
        · exact PlayerInv_flag _ false hP1
      · exact hP1
    · exact roomStep_state _ _ hs
    · -- deck size modulo 3
      have := hinv.deckMod
      unfold roomStep
      split
      · by_cases hd : 3 ≤ g.deck.cards.length
        · rcases CreateRoom_cases _ hst1 with h | ⟨cs, rest, h⟩
          · rw [h]; exact hinv.deckMod
          · obtain ⟨c, hc1⟩ : ∃ c, room.cards.take i ++ room.cards.drop (i + 1) = [c] :=
              List.length_eq_one.1 (by omega)
            have hrem : (played mon g room i card).currentRoom.bind Room.RemainingCard
                = some c := by
              rw [played_remaining]
              simp [Room.RemainingCard, hc1]
            rw [CreateRoom_leftover _ c hst1 hrem hd]
            show (g.deck.cards.drop 3).length % 3 = 1
            simp only [List.length_drop]
            omega
        · rcases CreateRoom_cases _ hst1 with h | ⟨cs, rest, h⟩
          · rw [h]; exact hinv.deckMod
          · exfalso
            obtain ⟨c, hc1⟩ : ∃ c, room.cards.take i ++ room.cards.drop (i + 1) = [c] :=
              List.length_eq_one.1 (by omega)
            have hrem : (played mon g room i card).currentRoom.bind Room.RemainingCard
                = some c := by
              rw [played_remaining]
              simp [Room.RemainingCard, hc1]
            rw [CreateRoom_leftover_won _ c hst1 hrem (not_le.1 hd)] at h
            have := congrArg (fun x => x.1.state) h
            simp [dealt] at this
      · exact hinv.deckMod

/-- Every call of `SkipRoom` keeps the invariant. -/
theorem Inv_skip (g : GameSession) (hinv : Inv g) : Inv g.SkipRoom.1 := by
  by_cases hs : g.state = .InProgress
  · cases hp : g.deck.prevRoomSkipped with
    | true => rw [SkipRoom_prevSkipped g hs hp]; exact hinv
    | false =>
      obtain ⟨room, hr, h4, -, -, -, hperm⟩ := hinv.room
      by_cases hn : room.playedCards = []
      · have hc4 : room.cards.length = 4 := by
          rw [hn] at h4; simpa using h4
        rw [SkipRoom_deals g room hs hp hr hn hc4]
        have hh : ¬ g.player.health ≤ 0 := by
          intro h
          have := hinv.lost.2 h
          rw [hs] at this
          cases this
        refine ⟨⟨NewRoom ((g.deck.cards ++ room.cards).take 4), rfl, ?_, ?_, ?_, ?_, ?_⟩,
          PlayerInv_flag _ false hinv.player, ?_, ?_, ?_⟩
        · simp [NewRoom, hc4]
        · simp [NewRoom]
        · intro _; simp [NewRoom]
        · intro h; cases h
        · exact perm_skip _ _ _ _ hperm
        · intro h; cases h
        · show GameState.InProgress = GameState.Lost ↔ g.player.health ≤ 0
          simp [hh]
        · have := hinv.deckMod
          show ((g.deck.cards ++ room.cards).drop 4).length % 3 = 1
          simp only [List.length_drop, List.length_append, hc4]
          omega
      · rw [SkipRoom_played g room hs hp hr hn]; exact hinv
  · rw [SkipRoom_notInProgress g hs]; exact hinv

/-- Every reachable session satisfies the invariant. -/
theorem Inv_reachable (g : GameSession) (h : Reachable g) : Inv g := by
  induction h with
  | init id rnd => exact Inv_init id rnd
  | playCard g index _ ih => exact Inv_play g index _ (Or.inl rfl) ih
  | playCardWithoutWeapon g index _ ih => exact Inv_play g index _ (Or.inr rfl) ih
  | skipRoom g _ ih => exact Inv_skip g ih

theorem monsterEffect_health_le (p : Player) (card : Card) :
    (monsterEffect p card).health ≤ p.health := by
  have hv := Card_Value_pos card
  rcases monsterEffect_cases p card with h | ⟨weapon, -, -, h⟩
  · rw [h]
    show p.health - card.Value ≤ p.health
    omega
  · rw [h]
    have : 0 ≤ max 0 (card.Value - weapon.Value) := le_max_left _ _
    show p.health - max 0 (card.Value - weapon.Value) ≤ p.health
    omega

theorem NewDeck_no_red_face :
    ∀ c ∈ NewDeck.cards,
      ¬ ((c.suit = .Hearts ∨ c.suit = .Diamonds) ∧ c.rank.toInt ≥ Rank.Jack.toInt) := by
  decide

theorem NewDeck_nodup : NewDeck.cards.Nodup := by
  decide

theorem NewDeck_length : NewDeck.cards.length = 44 := by
  decide

theorem demoSession_reachable : Reachable demoSession :=
  Reachable.init (String.mk []) demoRnd

theorem demoPlayed_reachable :
    Reachable (((demoSession.SkipRoom.1.PlayCard 0).1.PlayCard 0).1.PlayCard 0).1 :=
  Reachable.playCard ((demoSession.SkipRoom.1.PlayCard 0).1.PlayCard 0).1 0
    (Reachable.playCard (demoSession.SkipRoom.1.PlayCard 0).1 0
      (Reachable.playCard demoSession.SkipRoom.1 0
        (Reachable.skipRoom demoSession demoSession_reachable)))

theorem lossCheck_history (g : GameSession) : (lossCheck g).playHistory = g.playHistory := by
  unfold lossCheck
  split <;> rfl

/-- `CreateRoom` never touches the play history and never lengthens the deck. -/
theorem CreateRoom_frame (g : GameSession) :
    g.CreateRoom.1.playHistory = g.playHistory ∧
    g.CreateRoom.1.deck.cards.length ≤ g.deck.cards.length := by
  by_cases hs : g.state = .Won ∨ g.state = .Lost
  · rw [CreateRoom_over g hs]
    exact ⟨rfl, le_refl _⟩
  · cases hr : g.currentRoom.bind Room.RemainingCard with
    | none =>
      by_cases hd : 4 ≤ g.deck.cards.length
      · rw [CreateRoom_fresh g hs hr hd]
        refine ⟨rfl, ?_⟩
        show (g.deck.cards.drop 4).length ≤ _
        rw [List.length_drop]; omega
      · rw [CreateRoom_fresh_won g hs hr (not_le.1 hd)]
        exact ⟨rfl, le_refl _⟩
    | some c =>
      by_cases hd : 3 ≤ g.deck.cards.length
      · rw [CreateRoom_leftover g c hs hr hd]
        refine ⟨rfl, ?_⟩
        show (g.deck.cards.drop 3).length ≤ _
        rw [List.length_drop]; omega
      · rw [CreateRoom_leftover_won g c hs hr (not_le.1 hd)]
        exact ⟨rfl, le_refl _⟩

theorem roomStep_frame (g : GameSession) (n : Nat) :
    (roomStep g n).playHistory = g.playHistory ∧
    (roomStep g n).deck.cards.length ≤ g.deck.cards.length := by
  unfold roomStep
  split
  · exact CreateRoom_frame g
  · exact ⟨rfl, le_refl _⟩

/-- A play that returns no error appends exactly the played card to the history; a play that
returns an error changes nothing; no play lengthens the deck. -/
theorem play_history (g : GameSession) (index : Int) (r : GameSession × Option GameError)
    (hrr : r = g.PlayCard index ∨ r = g.PlayCardWithoutWeapon index) :
    (r.2 = none → ∃ card, r.1.playHistory = g.playHistory ++ [card]) ∧
    (r.2 ≠ none → r.1 = g) ∧
    r.1.deck.cards.length ≤ g.deck.cards.length := by
  rcases play_cases g index r hrr with ⟨h1, h2⟩ | ⟨-, room, i, card, mon, -, -, -, h⟩
  · refine ⟨fun h => absurd h h2, fun _ => h1, ?_⟩
    rw [h1]
  · rw [h]
    refine ⟨fun _ => ⟨card, ?_⟩, fun hne => absurd rfl hne, ?_⟩
    · show (lossCheck _).playHistory = _
      rw [lossCheck_history, (roomStep_frame _ _).1]
      rfl
    · show (lossCheck _).deck.cards.length ≤ _
      rw [lossCheck_deck]
      exact (roomStep_frame _ _).2

/-- `SkipRoom` never touches the play history, and a skip that returns no error sets
`prevRoomSkipped`. -/
theorem SkipRoom_frame (g : GameSession) :
    g.SkipRoom.1.playHistory = g.playHistory ∧
    (g.SkipRoom.2 = none → g.SkipRoom.1.deck.prevRoomSkipped = true) := by
  by_cases hs : g.state = .InProgress
  · cases hp : g.deck.prevRoomSkipped with
    | true =>
      rw [SkipRoom_prevSkipped g hs hp]
      exact ⟨rfl, fun h => by cases h⟩
    | false =>
      cases hr : g.currentRoom with
      | none =>
        rw [SkipRoom_noRoom g hs hp hr]
        exact ⟨rfl, fun h => by cases h⟩
      | some room =>
        by_cases hn : room.playedCards = []
        · rw [SkipRoom_eq g room hs hp hr hn]
          refine ⟨(CreateRoom_frame _).1, fun _ => ?_⟩
          rw [CreateRoom_prevSkipped]
          rfl
        · rw [SkipRoom_played g room hs hp hr hn]
          exact ⟨rfl, fun h => by cases h⟩
  · rw [SkipRoom_notInProgress g hs]
    exact ⟨rfl, fun h => by cases h⟩

theorem runOps_cons (op : Op) (rest : List Op) (g : GameSession) :
    runOps (op :: rest) g = runOps rest (op.apply g).1 := rfl

theorem Reachable_apply (g : GameSession) (op : Op) (h : Reachable g)
    (hop : op ≠ .createRoom) : Reachable (op.apply g).1 := by
  cases op with
  | playCard index => exact Reachable.playCard g index h
  | playCardWithoutWeapon index => exact Reachable.playCardWithoutWeapon g index h
  | skipRoom => exact Reachable.skipRoom g h
  | createRoom => exact absurd rfl hop

theorem Reachable_runOps (ops : List Op) (g : GameSession) (h : Reachable g)
    (hops : ∀ op ∈ ops, op ≠ .createRoom) : Reachable (runOps ops g) := by
  induction ops generalizing g with
  | nil => exact h
  | cons op rest ih =>
    rw [runOps_cons]
    exact ih _ (Reachable_apply g op h (hops op (List.mem_cons_self _ _)))
      (fun o ho => hops o (List.mem_cons_of_mem _ ho))

/-- The history grows by the number of plays that return no error. -/
theorem history_counts (ops : List Op) (g : GameSession)
    (hops : ∀ op ∈ ops, op ≠ .createRoom) :
    (runOps ops g).playHistory.length = g.playHistory.length + countOk Op.isPlay ops g := by
  induction ops generalizing g with
  | nil => rfl
  | cons op rest ih =>
    rw [runOps_cons, ih _ (fun o ho => hops o (List.mem_cons_of_mem _ ho))]
    have hop := hops op (List.mem_cons_self _ _)
    have key : (op.apply g).1.playHistory.length
        = g.playHistory.length + (if Op.isPlay op && (op.apply g).2.isNone then 1 else 0) := by
      cases op with
      | playCard index =>
        have hh := play_history g index (g.PlayCard index) (Or.inl rfl)
        show (g.PlayCard index).1.playHistory.length
          = _ + (if true && (g.PlayCard index).2.isNone then 1 else 0)
        cases he : (g.PlayCard index).2 with
        | none =>
          obtain ⟨card, hc⟩ := hh.1 he
          rw [hc]; simp
        | some err =>
          rw [hh.2.1 (by rw [he]; simp)]; simp
      | playCardWithoutWeapon index =>
        have hh := play_history g index (g.PlayCardWithoutWeapon index) (Or.inr rfl)
        show (g.PlayCardWithoutWeapon index).1.playHistory.length
          = _ + (if true && (g.PlayCardWithoutWeapon index).2.isNone then 1 else 0)
        cases he : (g.PlayCardWithoutWeapon index).2 with
        | none =>
          obtain ⟨card, hc⟩ := hh.1 he
          rw [hc]; simp
        | some err =>
          rw [hh.2.1 (by rw [he]; simp)]; simp
      | skipRoom =>
        show g.SkipRoom.1.playHistory.length = _ + (if false && _ then 1 else 0)
        rw [(SkipRoom_frame g).1]; simp
      | createRoom => exact absurd rfl hop
    show _ = _ + ((if Op.isPlay op && (op.apply g).2.isNone then 1 else 0)
      + countOk Op.isPlay rest (op.apply g).1)
    rw [key]
    omega

/-- Once `prevRoomSkipped` is set, no later `SkipRoom` returns without error. -/
theorem no_skip_after_skip (ops : List Op) (g : GameSession)
    (hp : g.deck.prevRoomSkipped = true) : countOk Op.isSkip ops g = 0 := by
  induction ops generalizing g with
  | nil => rfl
  | cons op rest ih =>
    show (if Op.isSkip op && (op.apply g).2.isNone then 1 else 0)
      + countOk Op.isSkip rest (op.apply g).1 = 0
    rw [ih _ (prevSkipped_stays g op hp)]
    cases op with
    | skipRoom =>
      show (if true && g.SkipRoom.2.isNone then 1 else 0) + 0 = 0
      by_cases hs : g.state = .InProgress
      · rw [SkipRoom_prevSkipped g hs hp]; rfl
      · rw [SkipRoom_notInProgress g hs]; rfl
    | playCard index => rfl
    | playCardWithoutWeapon index => rfl
    | createRoom => rfl

/-- At most one `SkipRoom` of a sequence of calls returns without error. -/
theorem skip_at_most_once (ops : List Op) (g : GameSession) : countOk Op.isSkip ops g ≤ 1 := by
  induction ops generalizing g with
  | nil => exact Nat.zero_le 1
  | cons op rest ih =>
    show (if Op.isSkip op && (op.apply g).2.isNone then 1 else 0)
      + countOk Op.isSkip rest (op.apply g).1 ≤ 1
    cases op with
    | skipRoom =>
      show (if true && g.SkipRoom.2.isNone then 1 else 0)
        + countOk Op.isSkip rest g.SkipRoom.1 ≤ 1
      cases he : g.SkipRoom.2 with
      | none =>
        rw [no_skip_after_skip rest _ ((SkipRoom_frame g).2 he)]
        simp
      | some err =>
        have := ih g.SkipRoom.1
        simp only [Option.isNone_some, Bool.and_false, Bool.false_eq_true, if_false]
        omega
    | playCard index =>
      have := ih (g.PlayCard index).1
      show (if false && _ then 1 else 0) + countOk Op.isSkip rest (g.PlayCard index).1 ≤ 1
      simp only [Bool.false_and, Bool.false_eq_true, if_false]
      omega
    | playCardWithoutWeapon index =>
      have := ih (g.PlayCardWithoutWeapon index).1
      show (if false && _ then 1 else 0)
        + countOk Op.isSkip rest (g.PlayCardWithoutWeapon index).1 ≤ 1
      simp only [Bool.false_and, Bool.false_eq_true, if_false]
      omega
    | createRoom =>
      have := ih g.CreateRoom.1
      show (if false && _ then 1 else 0) + countOk Op.isSkip rest g.CreateRoom.1 ≤ 1
      simp only [Bool.false_and, Bool.false_eq_true, if_false]
      omega

/-- Without direct `CreateRoom` calls, the calls that return no error are the plays and the
skips that do. -/
theorem countOk_all (ops : List Op) (g : GameSession) (hops : ∀ op ∈ ops, op ≠ .createRoom) :
    countOk (fun _ => true) ops g = countOk Op.isPlay ops g + countOk Op.isSkip ops g := by
  induction ops generalizing g with
  | nil => rfl
  | cons op rest ih =>
    have hop := hops op (List.mem_cons_self _ _)
    show (if true && (op.apply g).2.isNone then 1 else 0)
        + countOk (fun _ => true) rest (op.apply g).1
      = ((if Op.isPlay op && (op.apply g).2.isNone then 1 else 0)
          + countOk Op.isPlay rest (op.apply g).1)
        + ((if Op.isSkip op && (op.apply g).2.isNone then 1 else 0)
          + countOk Op.isSkip rest (op.apply g).1)
    rw [ih _ (fun o ho => hops o (List.mem_cons_of_mem _ ho))]
    cases op with
    | createRoom => exact absurd rfl hop
    | playCard index => simp only [Op.isPlay, Op.isSkip, Bool.true_and, Bool.false_and,
        Bool.false_eq_true, if_false]; omega
    | playCardWithoutWeapon index => simp only [Op.isPlay, Op.isSkip, Bool.true_and,
        Bool.false_and, Bool.false_eq_true, if_false]; omega
    | skipRoom => simp only [Op.isPlay, Op.isSkip, Bool.true_and, Bool.false_and,
        Bool.false_eq_true, if_false]; omega

/-- The deck of a freshly dealt session is the rest of the cards. -/
theorem dealt_deck (g : GameSession) (cs rest : List Card) :
    (dealt g cs rest).deck.cards = rest := rfl

/-- In a reachable session the deck holds at most 40 cards. -/
theorem deck_le_40 (g : GameSession) (h : Reachable g) : g.deck.cards.length ≤ 40 := by
  induction h with
  | init id rnd =>
    rw [NewGameSession_dealt, dealt_deck, List.length_drop, NewDeck_shuffle_length]
  | playCard g index _ ih =>
    exact le_trans (play_history g index _ (Or.inl rfl)).2.2 ih
  | playCardWithoutWeapon g index _ ih =>
    exact le_trans (play_history g index _ (Or.inr rfl)).2.2 ih
  | skipRoom g hg ih =>
    by_cases hs : g.state = .InProgress
    · cases hp : g.deck.prevRoomSkipped with
      | true => rw [SkipRoom_prevSkipped g hs hp]; exact ih
      | false =>
        obtain ⟨room, hr, h4, -, -, -, -⟩ := (Inv_reachable g hg).room
        by_cases hn : room.playedCards = []
        · have hc4 : room.cards.length = 4 := by
            rw [hn] at h4; simpa using h4
          rw [SkipRoom_deals g room hs hp hr hn hc4]
          show ((g.deck.cards ++ room.cards).drop 4).length ≤ 40
          simp only [List.length_drop, List.length_append, hc4]
          omega
        · rw [SkipRoom_played g room hs hp hr hn]; exact ih
    · rw [SkipRoom_notInProgress g hs]; exact ih

/-- The monster handler of `PlayCard` has the effect of the bare-handed one unless a weapon
is equipped and can be used against the card. -/
theorem monsterEffect_bare (p : Player) (card : Card)
    (h : ¬ (p.equippedWeapon ≠ none ∧ p.CanUseWeaponAgainst card = true)) :
    monsterEffect p card = bareEffect p card := by
  unfold monsterEffect bareEffect
  cases hw : p.equippedWeapon with
  | none => rfl
  | some weapon =>
    have hc : ¬ p.CanUseWeaponAgainst card = true :=
      fun hc => h ⟨by rw [hw]; exact Option.some_ne_none _, hc⟩
    simp only [hc]
    rfl

/-- The two dispatches of a play agree unless the card is a Monster, a weapon is equipped and
it can be used against the card. -/
theorem played_same (g : GameSession) (room : Room) (i : Nat) (card : Card)
    (h : ¬ (card.CardType = .Monster ∧ g.player.equippedWeapon ≠ none ∧
      g.player.CanUseWeaponAgainst card = true)) :
    played monsterEffect g room i card = played bareEffect g room i card := by
  by_cases ht : card.CardType = .Monster
  · have hm : monsterEffect g.player card = bareEffect g.player card :=
      monsterEffect_bare _ _ (fun hh => h ⟨ht, hh⟩)
    unfold played cardEffect
    simp only [ht, hm]
  · exact (play_weapon_same g room i card ht).symm

/-- A monster fought with a usable weapon is added to the defeated monsters by `PlayCard`
and not by `PlayCardWithoutWeapon`. -/
theorem play_defeated (g : GameSession) (room : Room) (i : Nat) (card : Card)
    (hs : g.state = .InProgress) (hr : g.currentRoom = some room)
    (hc : room.cards[i]? = some card) (ht : card.CardType = .Monster)
    (hw : g.player.equippedWeapon ≠ none) (hu : g.player.CanUseWeaponAgainst card = true) :
    (g.PlayCard (i : Int)).1.player.defeatedMonsters = g.player.defeatedMonsters ++ [card] ∧
    (g.PlayCardWithoutWeapon (i : Int)).1.player.defeatedMonsters
      = g.player.defeatedMonsters := by
  constructor
  · rw [PlayCard_eq g room i card hs hr hc]
    show (lossCheck _).player.defeatedMonsters = _
    rw [lossCheck_player, (roomStep_player _ _ (played_state _ g room i card hs)).2.2.2]
    show (cardEffect monsterEffect g.player card).defeatedMonsters = _
    simp only [cardEffect, ht]
    rcases monsterEffect_cases g.player card with h1 | ⟨weapon, -, -, h1⟩
    · exfalso
      cases hw2 : g.player.equippedWeapon with
      | none => exact hw hw2
      | some weapon =>
        have : monsterEffect g.player card =
            { g.player with
                health := g.player.health - max 0 (card.Value - weapon.Value)
                defeatedMonsters := g.player.defeatedMonsters ++ [card] } := by
          unfold monsterEffect
          simp only [hw2, hu, if_true]
        rw [this] at h1
        have h2 := congrArg (fun p => p.defeatedMonsters.length) h1
        simp at h2
    · rw [h1]
  · rw [PlayCardWithoutWeapon_eq g room i card hs hr hc]
    show (lossCheck _).player.defeatedMonsters = _
    rw [lossCheck_player, (roomStep_player _ _ (played_state _ g room i card hs)).2.2.2]
    show (cardEffect bareEffect g.player card).defeatedMonsters = _
    simp only [cardEffect, ht, bareEffect]

/-- Dealing a room leaves the play history as it was. -/
theorem dealt_history (g : GameSession) (cs rest : List Card) :
    (dealt g cs rest).playHistory = g.playHistory := rfl

/-- The play history of a new session is empty. -/
theorem NewGameSession_history (id : String) (rnd : Nat → Nat) :
    (NewGameSession id rnd).playHistory = [] := by
  rw [NewGameSession_dealt, dealt_history]

/-- In a reachable session the play history holds at most 42 cards, and a session whose
history holds 42 cards is over. -/
theorem history_le_42 (g : GameSession) (h : Reachable g) :
    g.playHistory.length ≤ 42 ∧
    (g.playHistory.length = 42 → g.state = .Won ∨ g.state = .Lost) := by
  have hinv := Inv_reachable g h
  have hmod := hinv.deckMod
  obtain ⟨room, -, h4, h3, hin, -, hperm⟩ := hinv.room
  have hlen := hperm.length_eq
  rw [NewDeck_length] at hlen
  simp only [List.length_append] at hlen
  refine ⟨by omega, ?_⟩
  intro h42
  have hni := hinv.notInitial
  cases hst : g.state with
  | Initial => exact absurd hst hni
  | InProgress =>
    have := hin hst
    omega
  | Won => exact Or.inl rfl
  | Lost => exact Or.inr rfl

/-- Once the previous-room-skipped flag is set it stays set through every sequence of calls,
and `SkipRoom` returns an error. -/
theorem skip_fails_after (ops : List Op) (g : GameSession)
    (hp : g.deck.prevRoomSkipped = true) :
    (runOps ops g).deck.prevRoomSkipped = true ∧ (runOps ops g).SkipRoom.2 ≠ none := by
  have hrun : (runOps ops g).deck.prevRoomSkipped = true := by
    induction ops generalizing g with
    | nil => exact hp
    | cons op rest ih =>
      rw [runOps_cons]
      exact ih _ (prevSkipped_stays g op hp)
  refine ⟨hrun, ?_⟩
  by_cases hs : (runOps ops g).state = .InProgress
  · rw [SkipRoom_prevSkipped _ hs hrun]
    exact Option.some_ne_none _
  · rw [SkipRoom_notInProgress _ hs]
    exact Option.some_ne_none _

/-- When every call of a sequence returns without error, each of them is counted. -/
theorem countOk_allOk (ops : List Op) (g : GameSession) (h : allOk ops g = true) :
    countOk (fun _ => true) ops g = ops.length := by
  induction ops generalizing g with
  | nil => rfl
  | cons op rest ih =>
    have h2 : ((op.apply g).2.isNone && allOk rest (op.apply g).1) = true := h
    rw [Bool.and_eq_true] at h2
    show (if true && (op.apply g).2.isNone then 1 else 0)
      + countOk (fun _ => true) rest (op.apply g).1 = rest.length + 1
    rw [ih _ h2.2, h2.1]
    simp only [Bool.and_self, if_true]
    omega

/-- No call of `winOps` is a direct `CreateRoom`. -/
theorem winOps_plays : ∀ op ∈ winOps, op ≠ .createRoom := by
  intro op hop
  rw [List.eq_of_mem_replicate hop]
  exact fun h => Op.noConfusion h

/-- The session at the end of the game of `winOps` dealt from `winRnd` is reachable. -/
theorem winGame_reachable : Reachable (runOps winOps (NewGameSession (String.mk []) winRnd)) :=
  Reachable_runOps winOps _ (Reachable.init (String.mk []) winRnd) winOps_plays

/-- A representable result is not changed by the wrap-around. -/
theorem wrapInt64_exact (x : Int) (h1 : minInt64 ≤ x) (h2 : x ≤ maxInt64) :
    wrapInt64 x = x := by
  unfold minInt64 at h1
  unfold maxInt64 at h2
  unfold wrapInt64
  omega

/-- The wrapped result is representable and congruent to the exact one modulo `2 ^ 64`. -/
theorem wrapInt64_range (x : Int) :
    minInt64 ≤ wrapInt64 x ∧ wrapInt64 x ≤ maxInt64 ∧
    (wrapInt64 x - x) % 18446744073709551616 = 0 := by
  unfold wrapInt64 minInt64 maxInt64
  omega

/-- The effect of `Heal64`: the wrapped sum, clamped at maxHealth. -/
theorem Heal64_health (p : Player) (n : Int) :
    p.Heal64 n = { p with health := min (wrapInt64 (p.health + n)) p.maxHealth } := by
  unfold Player.Heal64
  by_cases h : wrapInt64 (p.health + n) > p.maxHealth
  · simp only [h, if_true, min_eq_right (le_of_lt h)]
  · simp only [h, if_false, min_eq_left (not_lt.1 h)]

/-- In a reachable session in progress the health is between 1 and 20. -/
theorem reachable_health_range (g : GameSession) (h : Reachable g)
    (hs : g.state = .InProgress) : 1 ≤ g.player.health ∧ g.player.health ≤ 20 := by
  have hinv := Inv_reachable g h
  refine ⟨?_, hinv.player.health⟩
  by_contra hc
  have hl : g.state = .Lost := hinv.lost.2 (by omega)
  rw [hs] at hl
  cases hl

/-! ## Claims -/

/-- C1: whatever the random source of the shuffle, the shuffled deck is a permutation of the
44 cards of `NewDeck` (and every permutation of them is the outcome of some random source),
and `NewGameSession` returns an InProgress session whose player has health 20, maxHealth 20,
no weapon, no defeated monster and an unused potion flag, whose room holds the first four
cards of the shuffled deck in order and no played card, and whose deck holds the remaining
40 cards. -/
theorem C1_NewGameSession_initial (id : String) (rnd : Nat → Nat) :
    (NewDeck.Shuffle rnd).cards.Perm NewDeck.cards ∧
    (∀ p : List Card, p.Perm NewDeck.cards → ∃ rnd2, (NewDeck.Shuffle rnd2).cards = p) ∧
    (NewGameSession id rnd).state = .InProgress ∧
    (NewGameSession id rnd).player.health = 20 ∧
    (NewGameSession id rnd).player.maxHealth = 20 ∧
    (NewGameSession id rnd).player.equippedWeapon = none ∧
    (NewGameSession id rnd).player.defeatedMonsters = [] ∧
    (NewGameSession id rnd).player.usedPotionThisRoom = false ∧
    (NewGameSession id rnd).currentRoom
      = some { cards := (NewDeck.Shuffle rnd).cards.take 4, playedCards := [] } ∧
    ((NewDeck.Shuffle rnd).cards.take 4).length = 4 ∧
    (NewGameSession id rnd).deck.cards = (NewDeck.Shuffle rnd).cards.drop 4 ∧
    (NewGameSession id rnd).deck.Remaining = 40 := by
  have hp := Shuffle_perm NewDeck rnd
  have hl : (NewDeck.Shuffle rnd).cards.length = 44 := by
    rw [List.Perm.length_eq hp]; decide
  have hc : (NewGameSession id rnd) = dealt
      { ID := id, player := NewPlayer 20, deck := NewDeck.Shuffle rnd, currentRoom := none,
        playHistory := [], state := .Initial, lastCardPlayed := none }
      ((NewDeck.Shuffle rnd).cards.take 4) ((NewDeck.Shuffle rnd).cards.drop 4) := by
    unfold NewGameSession
    simp only
    rw [CreateRoom_fresh _ (by simp) (by simp) (by simp only [hl]; omega)]
  refine ⟨hp, fun p h => Shuffle_reaches NewDeck p h, ?_, ?_, ?_, ?_, ?_, ?_, ?_, ?_, ?_, ?_⟩ <;>
    (try rw [hc]) <;>
    simp [dealt, NewPlayer, Player.SetUsedPotionThisRoom, NewRoom, Deck.Remaining, hl]

/-- Witness for C1: the unshuffled order of `NewDeck` is itself a shuffle outcome. -/
theorem C1_NewGameSession_initial_witness :
    ∃ rnd2, (NewDeck.Shuffle rnd2).cards = NewDeck.cards :=
  (C1_NewGameSession_initial (String.mk []) (fun _ => 0)).2.1 NewDeck.cards (List.Perm.refl _)

/-- C2: `NewDeck` holds exactly 44 pairwise distinct cards: every rank of Clubs and of Spades
(13 each), exactly the ranks 2..10 of Hearts and of Diamonds (9 each), no Hearts or Diamonds
card of rank Jack or higher, and `prevRoomSkipped` is false. -/
theorem C2_NewDeck_composition :
    NewDeck.cards.length = 44 ∧ NewDeck.cards.Nodup ∧
    (∀ r : Rank, ({ suit := .Clubs, rank := r } : Card) ∈ NewDeck.cards) ∧
    (∀ r : Rank, ({ suit := .Spades, rank := r } : Card) ∈ NewDeck.cards) ∧
    (∀ r : Rank, ({ suit := .Hearts, rank := r } : Card) ∈ NewDeck.cards
      ↔ (2 ≤ r.toInt ∧ r.toInt ≤ 10)) ∧
    (∀ r : Rank, ({ suit := .Diamonds, rank := r } : Card) ∈ NewDeck.cards
      ↔ (2 ≤ r.toInt ∧ r.toInt ≤ 10)) ∧
    (NewDeck.cards.filter (fun c => c.suit = .Clubs)).length = 13 ∧
    (NewDeck.cards.filter (fun c => c.suit = .Spades)).length = 13 ∧
    (NewDeck.cards.filter (fun c => c.suit = .Hearts)).length = 9 ∧
    (NewDeck.cards.filter (fun c => c.suit = .Diamonds)).length = 9 ∧
    (∀ c ∈ NewDeck.cards,
      ¬ ((c.suit = .Hearts ∨ c.suit = .Diamonds) ∧ c.rank.toInt ≥ Rank.Jack.toInt)) ∧
    (∀ c ∈ NewDeck.cards, c.IsRedFaceOrAce = false) ∧
    NewDeck.prevRoomSkipped = false := by
  refine ⟨by decide, by decide, ?_, ?_, ?_, ?_, by decide, by decide, by decide, by decide,
    by decide, by decide, rfl⟩ <;> intro r <;> cases r <;> decide

/-- C3: `handleMonster` returns no error; with a weapon of value `w` equipped and
`CanUseWeaponAgainst` true, health drops by exactly `max 0 (m - w)` and the monster is appended
to the defeated list; otherwise health drops by exactly `m` and the list is unchanged; the
weapon is unchanged and health never increases.  Played through `PlayCard` at a valid index,
a Monster card leaves the player with exactly the health, defeated list and weapon that
`handleMonster` produces. -/
theorem C3_handleMonster_damage (g : GameSession) (card : Card) :
    (g.handleMonster card).2 = none ∧
    (∀ weapon, g.player.equippedWeapon = some weapon →
      g.player.CanUseWeaponAgainst card = true →
      (g.handleMonster card).1.player.health
        = g.player.health - max 0 (card.Value - weapon.Value) ∧
      (g.handleMonster card).1.player.defeatedMonsters
        = g.player.defeatedMonsters ++ [card]) ∧
    ((g.player.equippedWeapon = none ∨ g.player.CanUseWeaponAgainst card = false) →
      (g.handleMonster card).1.player.health = g.player.health - card.Value ∧
      (g.handleMonster card).1.player.defeatedMonsters = g.player.defeatedMonsters) ∧
    (g.handleMonster card).1.player.equippedWeapon = g.player.equippedWeapon ∧
    (g.handleMonster card).1.player.health ≤ g.player.health ∧
    (∀ (room : Room) (i : Nat), g.state = .InProgress → g.currentRoom = some room →
      room.cards[i]? = some card → card.CardType = .Monster →
      (g.PlayCard (i : Int)).2 = none ∧
      (g.PlayCard (i : Int)).1.player.health = (g.handleMonster card).1.player.health ∧
      (g.PlayCard (i : Int)).1.player.defeatedMonsters
        = (g.handleMonster card).1.player.defeatedMonsters ∧
      (g.PlayCard (i : Int)).1.player.equippedWeapon = g.player.equippedWeapon) := by
  have hv := Card_Value_pos card
  rw [handleMonster_eq]
  refine ⟨rfl, ?_, ?_, monsterEffect_weapon _ _, ?_, ?_⟩
  · intro weapon hw hc
    simp only [monsterEffect, hw, hc, if_true, and_self]
  · intro h
    rcases h with h | h
    · simp only [monsterEffect, h, and_self]
    · cases hw : g.player.equippedWeapon with
      | none => simp only [monsterEffect, hw, and_self]
      | some w => simp [monsterEffect, hw, h]
  · show (monsterEffect g.player card).health ≤ g.player.health
    unfold monsterEffect
    split
    · rename_i w _
      split
      · have : 0 ≤ max 0 (card.Value - w.Value) := le_max_left _ _
        simp only
        omega
      · simp only
        omega
    · simp only
      omega
  · intro room i hs hr hc ht
    rw [PlayCard_eq g room i card hs hr hc]
    obtain ⟨h1, -, h3, h4⟩ := roomStep_player (played monsterEffect g room i card)
      room.playedCards.length (played_state _ g room i card hs)
    simp only [lossCheck_player, h1, h3, h4]
    simp [played, cardEffect, ht, monsterEffect_weapon]

/-- Witness for C3: a 10 of Spades played from a room against an equipped 5 of Diamonds. -/
theorem C3_handleMonster_damage_witness :
    (({ ID := String.mk [], player := (NewPlayer 20).EquipWeapon ⟨.Diamonds, .Five⟩,
        deck := NewDeck, currentRoom := some (NewRoom [⟨.Spades, .Ten⟩, ⟨.Clubs, .Two⟩]),
        playHistory := [], state := .InProgress,
        lastCardPlayed := none } : GameSession).PlayCard ((0 : Nat) : Int)).1.player.health
      = 15 :=
  ((C3_handleMonster_damage
      { ID := String.mk [], player := (NewPlayer 20).EquipWeapon ⟨.Diamonds, .Five⟩,
        deck := NewDeck, currentRoom := some (NewRoom [⟨.Spades, .Ten⟩, ⟨.Clubs, .Two⟩]),
        playHistory := [], state := .InProgress, lastCardPlayed := none }
      ⟨.Spades, .Ten⟩).2.2.2.2.2 (NewRoom [⟨.Spades, .Ten⟩, ⟨.Clubs, .Two⟩]) 0 rfl rfl rfl
      rfl).2.1.trans (by decide)

/-- C4: `CanUseWeaponAgainst` is true exactly when no weapon is equipped, or the defeated
list is empty, or the monster's value is at most the value of the last defeated monster; it
does not depend on the earlier elements of the list: after [5, 9] a 7 qualifies, after [9, 5]
it does not. -/
theorem C4_CanUseWeaponAgainst_last (p : Player) (monster : Card) :
    (p.CanUseWeaponAgainst monster = true ↔
      (p.equippedWeapon = none ∨ p.defeatedMonsters = [] ∨
        ∃ last, p.defeatedMonsters.getLast? = some last ∧ monster.Value ≤ last.Value)) ∧
    (∀ (earlier earlier2 : List Card) (last : Card),
      ({ p with defeatedMonsters := earlier ++ [last] } : Player).CanUseWeaponAgainst monster
        = ({ p with defeatedMonsters := earlier2 ++ [last] } : Player).CanUseWeaponAgainst
            monster) ∧
    (∀ weapon : Card,
      ({ p with equippedWeapon := some weapon
                defeatedMonsters := [⟨.Clubs, .Five⟩, ⟨.Spades, .Nine⟩] } :
          Player).CanUseWeaponAgainst ⟨.Clubs, .Seven⟩ = true ∧
      ({ p with equippedWeapon := some weapon
                defeatedMonsters := [⟨.Spades, .Nine⟩, ⟨.Clubs, .Five⟩] } :
          Player).CanUseWeaponAgainst ⟨.Clubs, .Seven⟩ = false) := by
  refine ⟨?_, ?_, ?_⟩
  · unfold Player.CanUseWeaponAgainst
    by_cases hw : p.equippedWeapon = none
    · simp [hw]
    · by_cases hd : p.defeatedMonsters = []
      · simp [hd]
      · obtain ⟨l, hl⟩ : ∃ l, p.defeatedMonsters.getLast? = some l := by
          cases h : p.defeatedMonsters.getLast? with
          | none => exact absurd (List.getLast?_eq_none_iff.1 h) hd
          | some l => exact ⟨l, rfl⟩
        simp [hw, hd, hl]
  · intro earlier earlier2 last
    unfold Player.CanUseWeaponAgainst
    simp
  · intro weapon
    constructor <;> (unfold Player.CanUseWeaponAgainst; simp; decide)

/-- C5: after equipping a weapon of value `W` (empty defeated list), monsters `m1 > m2 > m3`
played through `handleMonster` cost `max 0 (m1 - W)`, `max 0 (m2 - W)`, `max 0 (m3 - W)`, and
a fourth monster `m4 > m3` costs the full `m4`, whatever its relation to `m1` and `m2`; the
defeated list is then exactly `[m1, m2, m3]`. -/
theorem C5_weapon_accordion (g : GameSession) (weapon c1 c2 c3 c4 : Card)
    (h12 : c1.Value > c2.Value) (h23 : c2.Value > c3.Value) (h43 : c4.Value > c3.Value) :
    let g0 : GameSession := { g with player := g.player.EquipWeapon weapon }
    let g1 := (g0.handleMonster c1).1
    let g2 := (g1.handleMonster c2).1
    let g3 := (g2.handleMonster c3).1
    let g4 := (g3.handleMonster c4).1
    g0.player.defeatedMonsters = [] ∧
    g1.player.health = g0.player.health - max 0 (c1.Value - weapon.Value) ∧
    g2.player.health = g1.player.health - max 0 (c2.Value - weapon.Value) ∧
    g3.player.health = g2.player.health - max 0 (c3.Value - weapon.Value) ∧
    g4.player.health = g3.player.health - c4.Value ∧
    g3.player.defeatedMonsters = [c1, c2, c3] ∧
    g4.player.defeatedMonsters = [c1, c2, c3] ∧
    g4.player.equippedWeapon = some weapon := by
  have e1 : ¬ (c2.Value ≤ c1.Value) → False := fun h => h (le_of_lt h12)
  have e2 : ¬ (c3.Value ≤ c2.Value) → False := fun h => h (le_of_lt h23)
  have e3 : ¬ (c4.Value ≤ c3.Value) := not_le.2 h43
  simp only [handleMonster_eq]
  simp [monsterEffect, Player.EquipWeapon, Player.CanUseWeaponAgainst, le_of_lt h12,
    le_of_lt h23, e3]

/-- Witness for C5: weapon 10, monsters Queen (12), 9, 5, then King (13). -/
theorem C5_weapon_accordion_witness :
    ((((({ (NewGameSession (String.mk []) (fun _ => 0)) with
          player := (NewGameSession (String.mk []) (fun _ => 0)).player.EquipWeapon
            ⟨.Diamonds, .Ten⟩ } : GameSession).handleMonster ⟨.Clubs, .Queen⟩).1.handleMonster
        ⟨.Spades, .Nine⟩).1.handleMonster ⟨.Clubs, .Five⟩).1.handleMonster
        ⟨.Spades, .King⟩).1.player.defeatedMonsters
      = [⟨.Clubs, .Queen⟩, ⟨.Spades, .Nine⟩, ⟨.Clubs, .Five⟩] :=
  (C5_weapon_accordion (NewGameSession (String.mk []) (fun _ => 0)) ⟨.Diamonds, .Ten⟩
    ⟨.Clubs, .Queen⟩ ⟨.Spades, .Nine⟩ ⟨.Clubs, .Five⟩ ⟨.Spades, .King⟩
    (by decide) (by decide) (by decide)).2.2.2.2.2.2.1

/-- C6, counterexample: in `weaponThirdSession` the card at index 0 is a Weapon; playing it
(with either play operation) succeeds and completes the room, the next room is dealt, and
`usedPotionThisRoom` changes from true to false. -/
theorem C6_play_weapon_changes_potion_flag :
    weaponThirdSession.state = .InProgress ∧
    (weaponThirdSession.currentRoom.bind (fun r => r.cards[0]?)) = some ⟨.Diamonds, .Six⟩ ∧
    Card.CardType ⟨.Diamonds, .Six⟩ = .Weapon ∧
    weaponThirdSession.player.usedPotionThisRoom = true ∧
    (weaponThirdSession.PlayCard 0).2 = none ∧
    (weaponThirdSession.PlayCard 0).1.player.equippedWeapon = some ⟨.Diamonds, .Six⟩ ∧
    (weaponThirdSession.PlayCard 0).1.player.usedPotionThisRoom = false ∧
    (weaponThirdSession.PlayCardWithoutWeapon 0).2 = none ∧
    (weaponThirdSession.PlayCardWithoutWeapon 0).1.player.usedPotionThisRoom = false := by
  decide

/-- C6, amended: `EquipWeapon c` and `handleWeapon c` make `c` the equipped weapon and empty
the defeated list without changing health, maxHealth or `usedPotionThisRoom`.  Playing a Weapon
card `c` at a valid index with either play operation succeeds, makes `c` the equipped weapon,
empties the defeated list and keeps health and maxHealth; it keeps `usedPotionThisRoom` as
long as the room is kept (always when the play is not the third of the room), and the flag is
false when a new room was dealt.  In every case the next monster played through
`handleMonster` costs `max 0 (m - value c)`. -/
theorem C6_equipWeapon_resets (g : GameSession) (card : Card) :
    (g.player.EquipWeapon card).equippedWeapon = some card ∧
    (g.player.EquipWeapon card).defeatedMonsters = [] ∧
    (g.player.EquipWeapon card).health = g.player.health ∧
    (g.player.EquipWeapon card).maxHealth = g.player.maxHealth ∧
    (g.player.EquipWeapon card).usedPotionThisRoom = g.player.usedPotionThisRoom ∧
    g.handleWeapon card = ({ g with player := g.player.EquipWeapon card }, none) ∧
    (∀ m : Card, ((g.handleWeapon card).1.handleMonster m).1.player.health
      = g.player.health - max 0 (m.Value - card.Value)) ∧
    (∀ (room : Room) (i : Nat), g.state = .InProgress → g.currentRoom = some room →
      room.cards[i]? = some card → card.CardType = .Weapon →
      ∀ r, (r = g.PlayCard (i : Int) ∨ r = g.PlayCardWithoutWeapon (i : Int)) →
        r.2 = none ∧
        r.1.player.equippedWeapon = some card ∧
        r.1.player.defeatedMonsters = [] ∧
        r.1.player.health = g.player.health ∧
        r.1.player.maxHealth = g.player.maxHealth ∧
        (room.playedCards.length ≠ 2 →
          r.1.player.usedPotionThisRoom = g.player.usedPotionThisRoom) ∧
        (∀ room2, r.1.currentRoom = some room2 → room2.playedCards ≠ [] →
          r.1.player.usedPotionThisRoom = g.player.usedPotionThisRoom) ∧
        (∀ room2, r.1.currentRoom = some room2 → room2.playedCards = [] →
          r.1.player.usedPotionThisRoom = false) ∧
        (∀ m : Card, (r.1.handleMonster m).1.player.health
          = r.1.player.health - max 0 (m.Value - card.Value))) := by
  refine ⟨rfl, rfl, rfl, rfl, rfl, rfl, ?_, ?_⟩
  · intro m
    simp [handleMonster_eq, GameSession.handleWeapon, monsterEffect, Player.EquipWeapon,
      Player.CanUseWeaponAgainst]
  · intro room i hs hr hc ht r hrr
    have hr2 : r = (lossCheck (roomStep (played monsterEffect g room i card)
        room.playedCards.length), none) := by
      rcases hrr with h | h
      · rw [h, PlayCard_eq g room i card hs hr hc]
      · rw [h, PlayCardWithoutWeapon_eq g room i card hs hr hc,
          play_weapon_same g room i card (by simp [ht])]
    subst hr2
    have hst := played_state monsterEffect g room i card hs
    obtain ⟨h1, h2, h3, h4⟩ := roomStep_player (played monsterEffect g room i card)
      room.playedCards.length hst
    have hfl := roomStep_flag (played monsterEffect g room i card) room.playedCards.length hst
    have hp : (played monsterEffect g room i card).player = g.player.EquipWeapon card := by
      simp [played, cardEffect, ht]
    have hroom : (played monsterEffect g room i card).currentRoom
        = some { cards := room.cards.take i ++ room.cards.drop (i + 1)
                 playedCards := room.playedCards ++ [card] } := rfl
    refine ⟨rfl, ?_, ?_, ?_, ?_, ?_, ?_, ?_, ?_⟩
    · show (lossCheck _).player.equippedWeapon = _
      rw [lossCheck_player, h3, hp]; rfl
    · show (lossCheck _).player.defeatedMonsters = _
      rw [lossCheck_player, h4, hp]; rfl
    · show (lossCheck _).player.health = _
      rw [lossCheck_player, h1, hp]; rfl
    · show (lossCheck _).player.maxHealth = _
      rw [lossCheck_player, h2, hp]; rfl
    · intro hn
      show (lossCheck _).player.usedPotionThisRoom = _
      rw [lossCheck_player]
      rcases hfl with ⟨-, hf⟩ | ⟨-, -, h3⟩
      · rw [hf, hp]; rfl
      · omega
    · intro room2 hr2 hne
      change (lossCheck _).currentRoom = _ at hr2
      show (lossCheck _).player.usedPotionThisRoom = _
      rw [lossCheck_room] at hr2
      rw [lossCheck_player]
      rcases hfl with ⟨-, hf⟩ | ⟨⟨cs, hcs⟩, -, -⟩
      · rw [hf, hp]; rfl
      · rw [hcs] at hr2
        cases hr2
        exact absurd rfl hne
    · intro room2 hr2 he
      change (lossCheck _).currentRoom = _ at hr2
      show (lossCheck _).player.usedPotionThisRoom = _
      rw [lossCheck_room] at hr2
      rw [lossCheck_player]
      rcases hfl with ⟨hcr, -⟩ | ⟨-, hf, -⟩
      · rw [hcr, hroom] at hr2
        cases hr2
        simp at he
      · exact hf
    · intro m
      rw [handleMonster_eq]
      have hw : (roomStep (played monsterEffect g room i card)
          room.playedCards.length).player.equippedWeapon = some card := by rw [h3, hp]; rfl
      have hd : (roomStep (played monsterEffect g room i card)
          room.playedCards.length).player.defeatedMonsters = [] := by rw [h4, hp]; rfl
      simp [monsterEffect, lossCheck_player, hw, hd, Player.CanUseWeaponAgainst]

/-- Witness for C6 (amended): the 6 of Diamonds played as third card of `weaponThirdSession`
is equipped and health stays 18. -/
theorem C6_equipWeapon_resets_witness :
    (weaponThirdSession.PlayCard ((0 : Nat) : Int)).1.player.equippedWeapon
        = some ⟨.Diamonds, .Six⟩ ∧
      (weaponThirdSession.PlayCard ((0 : Nat) : Int)).1.player.health = 18 :=
  have h := (C6_equipWeapon_resets weaponThirdSession ⟨.Diamonds, .Six⟩).2.2.2.2.2.2.2
    { cards := [⟨.Diamonds, .Six⟩, ⟨.Spades, .Three⟩]
      playedCards := [⟨.Hearts, .Five⟩, ⟨.Clubs, .Two⟩] } 0 rfl rfl rfl rfl
    (weaponThirdSession.PlayCard ((0 : Nat) : Int)) (Or.inl rfl)
  ⟨h.2.1, h.2.2.2.1⟩

/-- C7: `handlePotion` returns no error; with the potion flag clear, health becomes
`min (health + v) maxHealth`; with the flag set, health is unchanged; the flag is set
afterwards, and maxHealth, weapon, defeated list and every other session field are unchanged.
A second potion handled right after the first never changes health; from health 10 of 20,
potions 5 then 7 give 15 and 15. -/
theorem C7_handlePotion_once (g : GameSession) (card : Card) :
    (g.handlePotion card).2 = none ∧
    (g.player.usedPotionThisRoom = false →
      (g.handlePotion card).1.player.health
        = min (g.player.health + card.Value) g.player.maxHealth) ∧
    (g.player.usedPotionThisRoom = true →
      (g.handlePotion card).1.player.health = g.player.health) ∧
    (g.handlePotion card).1.player.usedPotionThisRoom = true ∧
    (g.handlePotion card).1.player.maxHealth = g.player.maxHealth ∧
    (g.handlePotion card).1.player.equippedWeapon = g.player.equippedWeapon ∧
    (g.handlePotion card).1.player.defeatedMonsters = g.player.defeatedMonsters ∧
    (g.handlePotion card).1 = { g with player := (g.handlePotion card).1.player } ∧
    (∀ second : Card,
      ((g.handlePotion card).1.handlePotion second).1.player.health
        = (g.handlePotion card).1.player.health) ∧
    (g.player.health = 10 → g.player.maxHealth = 20 → g.player.usedPotionThisRoom = false →
      ((g.handlePotion ⟨.Hearts, .Five⟩).1.player.health = 15 ∧
       ((g.handlePotion ⟨.Hearts, .Five⟩).1.handlePotion ⟨.Hearts, .Seven⟩).1.player.health
         = 15)) := by
  simp only [handlePotion_eq]
  cases hu : g.player.usedPotionThisRoom <;>
    simp +decide [potionEffect, hu, Card.Value, Rank.toInt]
  intro h1 h2
  simp [h1, h2]

/-- Witness for C7: health 10 of 20, potions 5 then 7. -/
theorem C7_handlePotion_once_witness :
    (((({ (NewGameSession (String.mk []) (fun _ => 0)) with
          player := { (NewPlayer 20) with health := 10 } } : GameSession).handlePotion
        ⟨.Hearts, .Five⟩).1.handlePotion ⟨.Hearts, .Seven⟩).1.player.health = 15) :=
  ((C7_handlePotion_once ({ (NewGameSession (String.mk []) (fun _ => 0)) with
      player := { (NewPlayer 20) with health := 10 } } : GameSession)
    ⟨.Hearts, .Five⟩).2.2.2.2.2.2.2.2.2 rfl rfl rfl).2

/-- C8: when `CreateRoom` deals a new room (the game is not over and the deck supplies the 3
cards that join a leftover card, or the 4 cards of a fresh room), it returns no error, the
state is InProgress and `usedPotionThisRoom` is false afterwards, whatever the flag was, so
the first potion handled in the new room heals to `min (health + v) maxHealth`.  This holds
after a skip, and after a play that completes a room, also when the completing card is itself
a potion. -/
theorem C8_CreateRoom_resets_potion (g : GameSession)
    (hs : ¬ (g.state = .Won ∨ g.state = .Lost))
    (hdeal : (∃ c, g.currentRoom.bind Room.RemainingCard = some c ∧ 3 ≤ g.deck.cards.length) ∨
      (g.currentRoom.bind Room.RemainingCard = none ∧ 4 ≤ g.deck.cards.length)) :
    g.CreateRoom.2 = none ∧
    g.CreateRoom.1.state = .InProgress ∧
    g.CreateRoom.1.player.usedPotionThisRoom = false ∧
    (∃ cards, g.CreateRoom.1.currentRoom = some { cards := cards, playedCards := [] }) ∧
    (∀ potion : Card, (g.CreateRoom.1.handlePotion potion).1.player.health
      = min (g.player.health + potion.Value) g.player.maxHealth) ∧
    (∀ room : Room, g.state = .InProgress → g.deck.prevRoomSkipped = false →
      g.currentRoom = some room → room.playedCards = [] → room.cards.length = 4 →
      g.SkipRoom.2 = none ∧ g.SkipRoom.1.state = .InProgress ∧
      g.SkipRoom.1.player.usedPotionThisRoom = false ∧
      (∀ potion : Card, (g.SkipRoom.1.handlePotion potion).1.player.health
        = min (g.player.health + potion.Value) g.player.maxHealth)) ∧
    (∀ (room : Room) (i : Nat) (card : Card), g.state = .InProgress →
      g.currentRoom = some room → room.playedCards.length = 2 → room.cards.length = 2 →
      room.cards[i]? = some card → 3 ≤ g.deck.cards.length →
      ∀ r, (r = g.PlayCard (i : Int) ∨ r = g.PlayCardWithoutWeapon (i : Int)) →
        r.2 = none ∧ r.1.player.usedPotionThisRoom = false ∧
        (∃ cards, r.1.currentRoom = some { cards := cards, playedCards := [] }) ∧
        (∀ potion : Card, (r.1.handlePotion potion).1.player.health
          = min (r.1.player.health + potion.Value) r.1.player.maxHealth)) := by
  have hcr : ∃ cs rest, g.CreateRoom = (dealt g cs rest, none) := by
    rcases hdeal with ⟨c, hc, hd⟩ | ⟨hc, hd⟩
    · exact ⟨_, _, CreateRoom_leftover g c hs hc hd⟩
    · exact ⟨_, _, CreateRoom_fresh g hs hc hd⟩
  obtain ⟨cs, rest, hcr⟩ := hcr
  refine ⟨by rw [hcr], by rw [hcr]; rfl, by rw [hcr]; rfl, ⟨cs, by rw [hcr]; rfl⟩, ?_, ?_, ?_⟩
  · intro potion
    rw [hcr, handlePotion_eq]
    simp [potionEffect, dealt, Player.SetUsedPotionThisRoom]
  · intro room hst hp hr hn h4
    rw [SkipRoom_eq g room hst hp hr hn]
    rw [CreateRoom_fresh (skipped g room) (by simp [skipped, hst])
      (by simp [skipped, hr, Room.RemainingCard, h4])
      (by simp [skipped, Deck.AddToBottom, Deck.SetPrevRoomSkipped, Room.AllCards, h4]; omega)]
    refine ⟨rfl, rfl, rfl, ?_⟩
    intro potion
    rw [handlePotion_eq]
    simp [potionEffect, dealt, skipped, Player.SetUsedPotionThisRoom]
  · intro room i card hst hr hp2 hc2 hc hd r hrr
    have hi : i < room.cards.length := (List.getElem?_eq_some.1 hc).1
    have key : ∀ mon : Player → Card → Player,
        ∃ c cs rest, roomStep (played mon g room i card) room.playedCards.length
          = dealt (played mon g room i card) (c :: cs) rest := by
      intro mon
      have hlen : (room.cards.take i ++ room.cards.drop (i + 1)).length = 1 := by
        simp only [List.length_append, List.length_take, List.length_drop]
        omega
      obtain ⟨c, hc1⟩ : ∃ c, (played mon g room i card).currentRoom.bind Room.RemainingCard
          = some c := by
        rw [played_remaining]
        unfold Room.RemainingCard
        simp only [hlen, if_true]
        cases hh : (room.cards.take i ++ room.cards.drop (i + 1)) with
        | nil => rw [hh] at hlen; simp at hlen
        | cons a t => exact ⟨a, by simp⟩
      refine ⟨c, (played mon g room i card).deck.cards.take 3,
        (played mon g room i card).deck.cards.drop 3, ?_⟩
      unfold roomStep
      rw [if_pos (by omega), CreateRoom_leftover _ c (played_state mon g room i card hst) hc1 hd]
    have hr2 : ∃ mon, r = (lossCheck (roomStep (played mon g room i card)
        room.playedCards.length), none) := by
      rcases hrr with h | h
      · exact ⟨_, by rw [h, PlayCard_eq g room i card hst hr hc]⟩
      · exact ⟨_, by rw [h, PlayCardWithoutWeapon_eq g room i card hst hr hc]⟩
    obtain ⟨mon, rfl⟩ := hr2
    obtain ⟨c, cs2, rest2, hk⟩ := key mon
    refine ⟨rfl, ?_, ⟨c :: cs2, ?_⟩, ?_⟩
    · show (lossCheck _).player.usedPotionThisRoom = false
      rw [lossCheck_player, hk]; rfl
    · show (lossCheck _).currentRoom = _
      rw [lossCheck_room, hk]; rfl
    · intro potion
      rw [handlePotion_eq]
      have hf : (lossCheck (roomStep (played mon g room i card)
          room.playedCards.length)).player.usedPotionThisRoom = false := by
        rw [lossCheck_player, hk]; rfl
      simp [potionEffect, hf]

/-- Witness for C8: dealing the room that follows the completed room of a session in which
the potion flag is set clears the flag, also when the potion itself completes the room. -/
theorem C8_CreateRoom_resets_potion_witness :
    ({ potionThirdSession with
        currentRoom := some { cards := [⟨.Spades, .Three⟩]
                              playedCards := [⟨.Hearts, .Five⟩, ⟨.Clubs, .Jack⟩,
                                ⟨.Hearts, .Nine⟩] } } : GameSession).CreateRoom.1.player.usedPotionThisRoom
      = false ∧
    (potionThirdSession.PlayCard ((0 : Nat) : Int)).1.player.usedPotionThisRoom = false :=
  have h := C8_CreateRoom_resets_potion
    ({ potionThirdSession with
        currentRoom := some { cards := [⟨.Spades, .Three⟩]
                              playedCards := [⟨.Hearts, .Five⟩, ⟨.Clubs, .Jack⟩,
                                ⟨.Hearts, .Nine⟩] } } : GameSession)
    (by decide) (Or.inl ⟨⟨.Spades, .Three⟩, by decide, by decide⟩)
  have h2 := (C8_CreateRoom_resets_potion potionThirdSession (by decide)
    (Or.inr ⟨by decide, by decide⟩)).2.2.2.2.2.2
    { cards := [⟨.Hearts, .Nine⟩, ⟨.Spades, .Three⟩]
      playedCards := [⟨.Hearts, .Five⟩, ⟨.Clubs, .Jack⟩] } 0 ⟨.Hearts, .Nine⟩ rfl rfl rfl rfl
    rfl (by decide) (potionThirdSession.PlayCard ((0 : Nat) : Int)) (Or.inl rfl)
  ⟨h.2.2.1, h2.2.1⟩

/-- C9: in an InProgress session whose room has 2 played cards and the 2 unplayed cards
`[a, b]`, with at least 3 cards in the deck `d`, either play operation at index 0 or 1
succeeds and replaces the room by a new room with no played card whose cards are the card
that was not played followed by the first 3 cards of `d` (4 cards, leftover at index 0); the
deck becomes `d` without its first 3 cards. -/
theorem C9_room_progression (g : GameSession) (a b : Card) (playedCards : List Card)
    (hs : g.state = .InProgress)
    (hr : g.currentRoom = some { cards := [a, b], playedCards := playedCards })
    (hp : playedCards.length = 2) (hd : 3 ≤ g.deck.cards.length) :
    (∀ r, (r = g.PlayCard 0 ∨ r = g.PlayCardWithoutWeapon 0) →
      r.2 = none ∧
      r.1.currentRoom = some { cards := b :: g.deck.cards.take 3, playedCards := [] } ∧
      r.1.deck.cards = g.deck.cards.drop 3 ∧
      r.1.deck.prevRoomSkipped = g.deck.prevRoomSkipped) ∧
    (∀ r, (r = g.PlayCard 1 ∨ r = g.PlayCardWithoutWeapon 1) →
      r.2 = none ∧
      r.1.currentRoom = some { cards := a :: g.deck.cards.take 3, playedCards := [] } ∧
      r.1.deck.cards = g.deck.cards.drop 3 ∧
      r.1.deck.prevRoomSkipped = g.deck.prevRoomSkipped) ∧
    (b :: g.deck.cards.take 3).length = 4 ∧ (a :: g.deck.cards.take 3).length = 4 ∧
    (g.deck.cards.drop 3).length + 3 = g.deck.cards.length := by
  have step : ∀ (i : Nat) (card left : Card) (mon : Player → Card → Player),
      ([a, b] : List Card)[i]? = some card →
      ([a, b] : List Card).take i ++ ([a, b] : List Card).drop (i + 1) = [left] →
      roomStep (played mon g { cards := [a, b], playedCards := playedCards } i card)
          playedCards.length
        = dealt (played mon g { cards := [a, b], playedCards := playedCards } i card)
            (left :: g.deck.cards.take 3) (g.deck.cards.drop 3) := by
    intro i card left mon _ hleft
    unfold roomStep
    rw [if_pos (by omega), CreateRoom_leftover _ left (played_state mon g _ i card hs)
      (by rw [played_remaining]; simp only [hleft]; rfl) hd]
    rfl
  refine ⟨?_, ?_, ?_, ?_, ?_⟩
  · intro r hrr
    obtain ⟨mon, rfl⟩ := play_ops g _ 0 a hs hr rfl r (by simpa using hrr)
    have hk := step 0 a b mon rfl rfl
    refine ⟨rfl, ?_, ?_, ?_⟩
    · show (lossCheck _).currentRoom = _
      rw [lossCheck_room, hk]; rfl
    · show (lossCheck _).deck.cards = _
      rw [lossCheck_deck, hk]; rfl
    · show (lossCheck _).deck.prevRoomSkipped = _
      rw [lossCheck_deck, hk]; rfl
  · intro r hrr
    obtain ⟨mon, rfl⟩ := play_ops g _ 1 b hs hr rfl r (by simpa using hrr)
    have hk := step 1 b a mon rfl rfl
    refine ⟨rfl, ?_, ?_, ?_⟩
    · show (lossCheck _).currentRoom = _
      rw [lossCheck_room, hk]; rfl
    · show (lossCheck _).deck.cards = _
      rw [lossCheck_deck, hk]; rfl
    · show (lossCheck _).deck.prevRoomSkipped = _
      rw [lossCheck_deck, hk]; rfl
  · simp only [List.length_cons, List.length_take]; omega
  · simp only [List.length_cons, List.length_take]; omega
  · simp only [List.length_drop]; omega

/-- Witness for C9: playing index 0 of `weaponThirdSession` (2 played, 2 unplayed, 4 cards
in the deck) deals the 3 of Spades followed by the first three cards of the deck. -/
theorem C9_room_progression_witness :
    (weaponThirdSession.PlayCard 0).1.currentRoom
      = some { cards := [⟨.Spades, .Three⟩, ⟨.Clubs, .Seven⟩, ⟨.Spades, .Eight⟩,
                 ⟨.Hearts, .Nine⟩]
               playedCards := [] } ∧
    (weaponThirdSession.PlayCard 0).1.deck.cards = [⟨.Clubs, .Ten⟩] :=
  have h := (C9_room_progression weaponThirdSession ⟨.Diamonds, .Six⟩ ⟨.Spades, .Three⟩
    [⟨.Hearts, .Five⟩, ⟨.Clubs, .Two⟩] rfl rfl rfl (by decide)).1
    (weaponThirdSession.PlayCard 0) (Or.inl rfl)
  ⟨h.2.1, h.2.2.1⟩

/-- C10: in an InProgress session whose room has 2 played cards and whose deck holds fewer
than 3 cards, either play operation at a valid index returns no error; no room is dealt: the
deck is unchanged and the room keeps its other unplayed cards in order and its played cards
followed by the played card; the state is Won when the player's health after the card's
effect is positive (and Lost otherwise). -/
theorem C10_win_on_exhausted_deck (g : GameSession) (room : Room) (i : Nat) (card : Card)
    (hs : g.state = .InProgress) (hr : g.currentRoom = some room)
    (hp : room.playedCards.length = 2) (hd : g.deck.cards.length < 3)
    (hc : room.cards[i]? = some card) :
    ∀ r, (r = g.PlayCard (i : Int) ∨ r = g.PlayCardWithoutWeapon (i : Int)) →
      r.2 = none ∧
      (0 < r.1.player.health → r.1.state = .Won) ∧
      (r.1.player.health ≤ 0 → r.1.state = .Lost) ∧
      r.1.deck = g.deck ∧
      r.1.currentRoom = some { cards := room.cards.eraseIdx i
                               playedCards := room.playedCards ++ [card] } ∧
      (room.cards.eraseIdx i).length + 1 = room.cards.length := by
  intro r hrr
  obtain ⟨mon, rfl⟩ := play_ops g room i card hs hr hc r hrr
  have hi : i < room.cards.length := (List.getElem?_eq_some.1 hc).1
  have hst := played_state mon g room i card hs
  have hk : roomStep (played mon g room i card) room.playedCards.length
      = { played mon g room i card with state := .Won } := by
    unfold roomStep
    rw [if_pos (by omega)]
    cases hrem : (played mon g room i card).currentRoom.bind Room.RemainingCard with
    | none => rw [CreateRoom_fresh_won _ hst hrem (by show g.deck.cards.length < 4; omega)]
    | some c => rw [CreateRoom_leftover_won _ c hst hrem hd]
  refine ⟨rfl, ?_, ?_, ?_, ?_, ?_⟩
  · intro hh
    change 0 < (lossCheck _).player.health at hh
    show (lossCheck _).state = _
    rw [lossCheck_player] at hh
    rw [(lossCheck_state _).1 hh, hk]
  · intro hh
    change (lossCheck _).player.health ≤ 0 at hh
    show (lossCheck _).state = _
    rw [lossCheck_player] at hh
    exact (lossCheck_state _).2 hh
  · show (lossCheck _).deck = _
    rw [lossCheck_deck, hk]; rfl
  · show (lossCheck _).currentRoom = _
    rw [lossCheck_room, hk, List.eraseIdx_eq_take_drop_succ]; rfl
  · rw [List.length_eraseIdx]
    simp only [hi, if_true]
    omega

/-- Witness for C10: playing the 3 of Spades in `lastRoomSession` wins the game. -/
theorem C10_win_on_exhausted_deck_witness :
    (lastRoomSession.PlayCard ((0 : Nat) : Int)).1.state = .Won :=
  (C10_win_on_exhausted_deck lastRoomSession
    { cards := [⟨.Spades, .Three⟩, ⟨.Clubs, .King⟩]
      playedCards := [⟨.Diamonds, .Five⟩, ⟨.Clubs, .Two⟩] } 0 ⟨.Spades, .Three⟩
    rfl rfl rfl (by decide) rfl (lastRoomSession.PlayCard ((0 : Nat) : Int))
    (Or.inl rfl)).2.1 (by decide)

/-- C11: after every play operation that returns no error, the state is Lost when the
player's health is at most 0 (0 included), whether or not the play completed the room and
whether the room step dealt a new room or set Won; when health is positive the state is not
Lost: it is InProgress or Won. -/
theorem C11_loss_precedence (g : GameSession) (index : Int)
    (r : GameSession × Option GameError)
    (hrr : r = g.PlayCard index ∨ r = g.PlayCardWithoutWeapon index) (hok : r.2 = none) :
    (r.1.player.health ≤ 0 → r.1.state = .Lost) ∧
    (0 < r.1.player.health →
      r.1.state ≠ .Lost ∧ (r.1.state = .InProgress ∨ r.1.state = .Won)) := by
  obtain ⟨hs, room, i, card, hr, rfl, hc⟩ := play_success g index r hrr hok
  obtain ⟨mon, rfl⟩ := play_ops g room i card hs hr hc r hrr
  have hst := roomStep_state (played mon g room i card) room.playedCards.length hs
  constructor
  · intro hh
    change (lossCheck _).player.health ≤ 0 at hh
    rw [lossCheck_player] at hh
    exact (lossCheck_state _).2 hh
  · intro hh
    change 0 < (lossCheck _).player.health at hh
    rw [lossCheck_player] at hh
    show (lossCheck _).state ≠ _ ∧ ((lossCheck _).state = _ ∨ (lossCheck _).state = _)
    rw [(lossCheck_state _).1 hh]
    rcases hst with h | h <;> rw [h] <;> simp

/-- Witness for C11: in `lastRoomSession` (health 7, one card in the deck) the King of Clubs
completes the room, the deck cannot supply 3 cards, and the state is Lost, not Won. -/
theorem C11_loss_precedence_witness :
    (lastRoomSession.PlayCard 1).1.player.health = -6 ∧
    (lastRoomSession.PlayCard 1).1.state = .Lost :=
  ⟨by decide, (C11_loss_precedence lastRoomSession 1 (lastRoomSession.PlayCard 1)
    (Or.inl rfl) (by decide)).1 (by decide)⟩

/-- C12: on an InProgress session with `prevRoomSkipped` false and an untouched room of 4
cards, `SkipRoom` succeeds, and a second `SkipRoom` right after it fails with
`previousRoomSkipped` and leaves the session unchanged; every new session is such a
session. -/
theorem C12_no_two_skips_in_a_row :
    (∀ (g : GameSession) (room : Room), g.state = .InProgress →
      g.deck.prevRoomSkipped = false → g.currentRoom = some room → room.playedCards = [] →
      room.cards.length = 4 →
      g.SkipRoom.2 = none ∧
      g.SkipRoom.1.SkipRoom = (g.SkipRoom.1, some .previousRoomSkipped)) ∧
    (∀ (id : String) (rnd : Nat → Nat),
      (NewGameSession id rnd).SkipRoom.2 = none ∧
      (NewGameSession id rnd).SkipRoom.1.SkipRoom
        = ((NewGameSession id rnd).SkipRoom.1, some .previousRoomSkipped)) := by
  have main : ∀ (g : GameSession) (room : Room), g.state = .InProgress →
      g.deck.prevRoomSkipped = false → g.currentRoom = some room → room.playedCards = [] →
      room.cards.length = 4 →
      g.SkipRoom.2 = none ∧
      g.SkipRoom.1.SkipRoom = (g.SkipRoom.1, some .previousRoomSkipped) := by
    intro g room hs hp hr hn h4
    rw [SkipRoom_deals g room hs hp hr hn h4]
    exact ⟨rfl, SkipRoom_prevSkipped _ rfl rfl⟩
  refine ⟨main, ?_⟩
  intro id rnd
  rw [NewGameSession_dealt id rnd]
  exact main _ (NewRoom ((NewDeck.Shuffle rnd).cards.take 4)) rfl rfl rfl rfl
    (by simp [NewRoom, NewDeck_shuffle_length])

/-- Witness for C12: the session dealt from `demoRnd` can be skipped once, not twice. -/
theorem C12_no_two_skips_in_a_row_witness :
    demoSession.SkipRoom.2 = none ∧
    demoSession.SkipRoom.1.SkipRoom = (demoSession.SkipRoom.1, some .previousRoomSkipped) :=
  C12_no_two_skips_in_a_row.2 (String.mk []) demoRnd

/-- C13, the code at the failing input: in the session dealt from `demoRnd` the first room
is skipped, the next room is completed by three plays (2 of Hearts, 3 of Diamonds, 4 of
Clubs) and the game is InProgress with health 19 and an untouched room of 4 cards, yet
`SkipRoom` is refused with `previousRoomSkipped`; no operation ever clears the flag. -/
theorem C13_skip_flag_never_cleared :
    demoSession.SkipRoom.2 = none ∧
    (demoSession.SkipRoom.1.PlayCard 0).2 = none ∧
    ((demoSession.SkipRoom.1.PlayCard 0).1.PlayCard 0).2 = none ∧
    (((demoSession.SkipRoom.1.PlayCard 0).1.PlayCard 0).1.PlayCard 0).2 = none ∧
    (((demoSession.SkipRoom.1.PlayCard 0).1.PlayCard 0).1.PlayCard 0).1.state = .InProgress ∧
    (((demoSession.SkipRoom.1.PlayCard 0).1.PlayCard 0).1.PlayCard 0).1.player.health = 19 ∧
    (((demoSession.SkipRoom.1.PlayCard 0).1.PlayCard 0).1.PlayCard 0).1.currentRoom
      = some { cards := [⟨.Spades, .Five⟩, ⟨.Clubs, .Two⟩, ⟨.Clubs, .Three⟩, ⟨.Clubs, .Five⟩]
               playedCards := [] } ∧
    (((demoSession.SkipRoom.1.PlayCard 0).1.PlayCard 0).1.PlayCard 0).1.SkipRoom.2
      = some .previousRoomSkipped ∧
    (∀ (g : GameSession) (ops : List Op), g.deck.prevRoomSkipped = true →
      (runOps ops g).deck.prevRoomSkipped = true ∧
      ((runOps ops g).SkipRoom.2 = some .previousRoomSkipped ∨
        (runOps ops g).SkipRoom.2 = some .notInProgress)) := by
  set_option maxRecDepth 20000 in
  refine ⟨by decide, by decide, by decide, by decide, by decide, by decide, by decide,
    by decide, ?_⟩
  intro g ops hp
  have hrun : (runOps ops g).deck.prevRoomSkipped = true := by
    unfold runOps
    induction ops generalizing g with
    | nil => exact hp
    | cons op rest ih => exact ih _ (prevSkipped_stays g op hp)
  refine ⟨hrun, ?_⟩
  by_cases hs : (runOps ops g).state = .InProgress
  · left; rw [SkipRoom_prevSkipped _ hs hrun]
  · right; rw [SkipRoom_notInProgress _ hs]

/-- C14: on an InProgress session with `prevRoomSkipped` false, deck `d` and an untouched
room of 4 cards `r`, `SkipRoom` succeeds; the new room holds the first 4 cards of `d ++ r`
and no played card, the deck holds the remaining cards of `d ++ r` in order (as many as
before), `prevRoomSkipped` is true, the state is InProgress, and health, maxHealth, weapon,
defeated monsters and play history are unchanged. -/
theorem C14_SkipRoom_effect (g : GameSession) (room : Room) (hs : g.state = .InProgress)
    (hp : g.deck.prevRoomSkipped = false) (hr : g.currentRoom = some room)
    (hn : room.playedCards = []) (h4 : room.cards.length = 4) :
    g.SkipRoom.2 = none ∧
    g.SkipRoom.1.currentRoom
      = some { cards := (g.deck.cards ++ room.cards).take 4, playedCards := [] } ∧
    ((g.deck.cards ++ room.cards).take 4).length = 4 ∧
    g.SkipRoom.1.deck.cards = (g.deck.cards ++ room.cards).drop 4 ∧
    g.SkipRoom.1.deck.cards.length = g.deck.cards.length ∧
    g.SkipRoom.1.deck.prevRoomSkipped = true ∧
    g.SkipRoom.1.state = .InProgress ∧
    g.SkipRoom.1.player.health = g.player.health ∧
    g.SkipRoom.1.player.maxHealth = g.player.maxHealth ∧
    g.SkipRoom.1.player.equippedWeapon = g.player.equippedWeapon ∧
    g.SkipRoom.1.player.defeatedMonsters = g.player.defeatedMonsters ∧
    g.SkipRoom.1.playHistory = g.playHistory := by
  rw [SkipRoom_deals g room hs hp hr hn h4]
  refine ⟨rfl, rfl, ?_, rfl, ?_, rfl, rfl, rfl, rfl, rfl, rfl, rfl⟩
  · simp only [List.length_take, List.length_append]; omega
  · show ((g.deck.cards ++ room.cards).drop 4).length = _
    simp only [List.length_drop, List.length_append]; omega

/-- Witness for C14: skipping the first room of `demoSession` sends the two aces and kings
to the bottom of the deck, which still holds 40 cards. -/
theorem C14_SkipRoom_effect_witness :
    demoSession.SkipRoom.1.deck.cards.length = demoSession.deck.cards.length ∧
    demoSession.SkipRoom.1.deck.prevRoomSkipped = true :=
  have h := C14_SkipRoom_effect demoSession
    { cards := [⟨.Clubs, .Ace⟩, ⟨.Spades, .Ace⟩, ⟨.Clubs, .King⟩, ⟨.Spades, .King⟩]
      playedCards := [] } (by set_option maxRecDepth 20000 in decide)
    (by set_option maxRecDepth 20000 in decide)
    (by set_option maxRecDepth 20000 in decide) rfl rfl
  ⟨h.2.2.2.2.1, h.2.2.2.2.2.1⟩

/-- C15: `SkipRoom` reports `notInProgress` when the state is not InProgress, else
`previousRoomSkipped` when `prevRoomSkipped` is set, else `cardsAlreadyPlayed` when a card of
the current room has been played, and otherwise succeeds; so it returns an error exactly when
one of the three conditions holds, and whenever it does the session is unchanged. -/
theorem C15_SkipRoom_errors (g : GameSession) (room : Room) (hr : g.currentRoom = some room) :
    (g.state ≠ .InProgress → g.SkipRoom = (g, some .notInProgress)) ∧
    (g.state = .InProgress → g.deck.prevRoomSkipped = true →
      g.SkipRoom = (g, some .previousRoomSkipped)) ∧
    (g.state = .InProgress → g.deck.prevRoomSkipped = false → room.playedCards ≠ [] →
      g.SkipRoom = (g, some .cardsAlreadyPlayed)) ∧
    (g.state = .InProgress → g.deck.prevRoomSkipped = false → room.playedCards = [] →
      g.SkipRoom.2 = none) ∧
    (g.SkipRoom.2 ≠ none ↔
      (g.state ≠ .InProgress ∨ g.deck.prevRoomSkipped = true ∨ room.playedCards ≠ [])) ∧
    (g.SkipRoom.2 ≠ none → g.SkipRoom.1 = g) := by
  have h4 : g.state = .InProgress → g.deck.prevRoomSkipped = false → room.playedCards = [] →
      g.SkipRoom.2 = none := by
    intro hs hp hn
    rw [SkipRoom_eq g room hs hp hr hn]
    exact CreateRoom_noError _ (by simp [skipped, hs])
  refine ⟨SkipRoom_notInProgress g, SkipRoom_prevSkipped g,
    fun hs hp hn => SkipRoom_played g room hs hp hr hn, h4, ?_, ?_⟩
  · by_cases hs : g.state = .InProgress
    · cases hp : g.deck.prevRoomSkipped with
      | true => rw [SkipRoom_prevSkipped g hs hp]; simp
      | false =>
        by_cases hn : room.playedCards = []
        · rw [h4 hs hp hn]; simp [hs, hn]
        · rw [SkipRoom_played g room hs hp hr hn]; simp [hn]
    · rw [SkipRoom_notInProgress g hs]; simp [hs]
  · by_cases hs : g.state = .InProgress
    · cases hp : g.deck.prevRoomSkipped with
      | true => rw [SkipRoom_prevSkipped g hs hp]; simp
      | false =>
        by_cases hn : room.playedCards = []
        · intro h; exact absurd (h4 hs hp hn) h
        · rw [SkipRoom_played g room hs hp hr hn]; simp
    · rw [SkipRoom_notInProgress g hs]; simp

/-- Witness for C15: in `weaponThirdSession` two cards are played, so `SkipRoom` is refused
with `cardsAlreadyPlayed` and the session is unchanged. -/
theorem C15_SkipRoom_errors_witness :
    weaponThirdSession.SkipRoom = (weaponThirdSession, some .cardsAlreadyPlayed) :=
  (C15_SkipRoom_errors weaponThirdSession
    { cards := [⟨.Diamonds, .Six⟩, ⟨.Spades, .Three⟩]
      playedCards := [⟨.Hearts, .Five⟩, ⟨.Clubs, .Two⟩] } rfl).2.2.1 rfl rfl (by decide)

/-- C16: on a session with a current room, a play operation returns an error exactly when
the state is not InProgress or the index is negative or at least the number of unplayed
cards (`notInProgress` in the first case, else `invalidIndex`), and whenever it returns an
error the whole session is unchanged. -/
theorem C16_play_errors (g : GameSession) (room : Room) (index : Int)
    (hr : g.currentRoom = some room) (r : GameSession × Option GameError)
    (hrr : r = g.PlayCard index ∨ r = g.PlayCardWithoutWeapon index) :
    (r.2 ≠ none ↔
      (g.state ≠ .InProgress ∨ index < 0 ∨ index ≥ (room.cards.length : Int))) ∧
    (g.state ≠ .InProgress → r = (g, some .notInProgress)) ∧
    (g.state = .InProgress → (index < 0 ∨ index ≥ (room.cards.length : Int)) →
      r = (g, some .invalidIndex)) ∧
    (r.2 ≠ none → r.1 = g) := by
  have h1 : g.state ≠ .InProgress → r = (g, some .notInProgress) := by
    intro hs
    rcases hrr with h | h
    · rw [h, PlayCard_notInProgress g index hs]
    · rw [h, PlayCardWithoutWeapon_notInProgress g index hs]
  have h2 : g.state = .InProgress → (index < 0 ∨ index ≥ (room.cards.length : Int)) →
      r = (g, some .invalidIndex) := by
    intro hs hi
    rcases hrr with h | h
    · rw [h, PlayCard_invalid g room index hs hr hi]
    · rw [h, PlayCardWithoutWeapon_invalid g room index hs hr hi]
  have h3 : g.state = .InProgress → ¬ (index < 0 ∨ index ≥ (room.cards.length : Int)) →
      r.2 = none := by
    intro hs hi
    obtain ⟨i, card, hidx, hc⟩ := valid_index room index hi
    subst hidx
    obtain ⟨mon, hm⟩ := play_ops g room i card hs hr hc r hrr
    rw [hm]
  refine ⟨?_, h1, h2, ?_⟩
  · by_cases hs : g.state = .InProgress
    · by_cases hi : index < 0 ∨ index ≥ (room.cards.length : Int)
      · rw [h2 hs hi]; simp [hi]
      · rw [h3 hs hi]; simp [hs, hi]
    · rw [h1 hs]; simp [hs]
  · intro he
    by_cases hs : g.state = .InProgress
    · by_cases hi : index < 0 ∨ index ≥ (room.cards.length : Int)
      · rw [h2 hs hi]
      · exact absurd (h3 hs hi) he
    · rw [h1 hs]

/-- Witness for C16: index 2 is outside the two unplayed cards of `weaponThirdSession`. -/
theorem C16_play_errors_witness :
    weaponThirdSession.PlayCard 2 = (weaponThirdSession, some .invalidIndex) :=
  (C16_play_errors weaponThirdSession
    { cards := [⟨.Diamonds, .Six⟩, ⟨.Spades, .Three⟩]
      playedCards := [⟨.Hearts, .Five⟩, ⟨.Clubs, .Two⟩] } 2 rfl
    (weaponThirdSession.PlayCard 2) (Or.inl rfl)).2.2.1 rfl (by decide)

/-- C17: in a session whose state is Won or Lost, `PlayCard`, `PlayCardWithoutWeapon` and
`SkipRoom` return `notInProgress` and `CreateRoom` returns `gameOver`, with any argument, and
leave the session unchanged; hence the session after any sequence of calls is the same
session. -/
theorem C17_terminal_states_absorbing (g : GameSession)
    (hover : g.state = .Won ∨ g.state = .Lost) :
    (∀ index : Int, g.PlayCard index = (g, some .notInProgress)) ∧
    (∀ index : Int, g.PlayCardWithoutWeapon index = (g, some .notInProgress)) ∧
    g.SkipRoom = (g, some .notInProgress) ∧
    g.CreateRoom = (g, some .gameOver) ∧
    (∀ op : Op, (op.apply g).1 = g ∧ (op.apply g).2 ≠ none) ∧
    (∀ ops : List Op, runOps ops g = g) := by
  have hs : g.state ≠ .InProgress := by
    rcases hover with h | h <;> rw [h] <;> simp
  have hop : ∀ op : Op, (op.apply g).1 = g ∧ (op.apply g).2 ≠ none := by
    intro op
    cases op with
    | playCard index =>
      show (g.PlayCard index).1 = g ∧ (g.PlayCard index).2 ≠ none
      rw [PlayCard_notInProgress g index hs]; simp
    | playCardWithoutWeapon index =>
      show (g.PlayCardWithoutWeapon index).1 = g ∧ (g.PlayCardWithoutWeapon index).2 ≠ none
      rw [PlayCardWithoutWeapon_notInProgress g index hs]; simp
    | skipRoom =>
      show g.SkipRoom.1 = g ∧ g.SkipRoom.2 ≠ none
      rw [SkipRoom_notInProgress g hs]; simp
    | createRoom =>
      show g.CreateRoom.1 = g ∧ g.CreateRoom.2 ≠ none
      rw [CreateRoom_over g hover]; simp
  refine ⟨fun index => PlayCard_notInProgress g index hs,
    fun index => PlayCardWithoutWeapon_notInProgress g index hs,
    SkipRoom_notInProgress g hs, CreateRoom_over g hover, hop, ?_⟩
  intro ops
  unfold runOps
  induction ops with
  | nil => rfl
  | cons op rest ih =>
    rw [List.foldl_cons, (hop op).1]
    exact ih

/-- Witness for C17: after the fatal King of Clubs in `lastRoomSession` the session is Lost
and a further play, skip and deal leave it as it is. -/
theorem C17_terminal_states_absorbing_witness :
    runOps [.playCard 0, .skipRoom, .createRoom, .playCardWithoutWeapon 0]
      (lastRoomSession.PlayCard 1).1 = (lastRoomSession.PlayCard 1).1 :=
  (C17_terminal_states_absorbing (lastRoomSession.PlayCard 1).1 (Or.inr (by decide))).2.2.2.2.2
    [.playCard 0, .skipRoom, .createRoom, .playCardWithoutWeapon 0]

/-- C18: on an InProgress session, `PlayCardWithoutWeapon` at a valid index holding a Monster
card of value `m` returns no error and lowers health by exactly `m`, whatever the equipped
weapon and whatever `CanUseWeaponAgainst` answers, and leaves the equipped weapon, the
defeated-monster list and maxHealth as they were. -/
theorem C18_bare_hands_full_damage (g : GameSession) (room : Room) (i : Nat) (card : Card)
    (hs : g.state = .InProgress) (hr : g.currentRoom = some room)
    (hc : room.cards[i]? = some card) (ht : card.CardType = .Monster) :
    (g.PlayCardWithoutWeapon (i : Int)).2 = none ∧
    (g.PlayCardWithoutWeapon (i : Int)).1.player.health = g.player.health - card.Value ∧
    (g.PlayCardWithoutWeapon (i : Int)).1.player.equippedWeapon = g.player.equippedWeapon ∧
    (g.PlayCardWithoutWeapon (i : Int)).1.player.defeatedMonsters
      = g.player.defeatedMonsters ∧
    (g.PlayCardWithoutWeapon (i : Int)).1.player.maxHealth = g.player.maxHealth ∧
    (g.handleMonsterWithoutWeapon card).1.player
      = { g.player with health := g.player.health - card.Value } := by
  rw [PlayCardWithoutWeapon_eq g room i card hs hr hc]
  obtain ⟨h1, h2, h3, h4⟩ := roomStep_player (played bareEffect g room i card)
    room.playedCards.length (played_state _ g room i card hs)
  have hp : (played bareEffect g room i card).player
      = { g.player with health := g.player.health - card.Value } := by
    simp [played, cardEffect, ht, bareEffect]
  refine ⟨rfl, ?_, ?_, ?_, ?_, rfl⟩
  · show (lossCheck _).player.health = _
    rw [lossCheck_player, h1, hp]
  · show (lossCheck _).player.equippedWeapon = _
    rw [lossCheck_player, h3, hp]
  · show (lossCheck _).player.defeatedMonsters = _
    rw [lossCheck_player, h4, hp]
  · show (lossCheck _).player.maxHealth = _
    rw [lossCheck_player, h2, hp]

/-- Witness for C18: in `lastRoomSession` a 5 of Diamonds is equipped, and the 3 of Spades
fought without it costs 3 of the 7 health points. -/
theorem C18_bare_hands_full_damage_witness :
    (lastRoomSession.PlayCardWithoutWeapon ((0 : Nat) : Int)).1.player.health = 4 :=
  (C18_bare_hands_full_damage lastRoomSession
    { cards := [⟨.Spades, .Three⟩, ⟨.Clubs, .King⟩]
      playedCards := [⟨.Diamonds, .Five⟩, ⟨.Clubs, .Two⟩] } 0 ⟨.Spades, .Three⟩
    rfl rfl rfl rfl).2.1.trans (by decide)

/-- C19, as stated, fails on a 64-bit `int`: with health 20 of 20, `Heal` of the greatest
`int` wraps the sum around, the clamp does not apply, and health is -9223372036854775789
instead of `min (health + n) maxHealth = 20`. -/
theorem C19_Heal_wraps :
    ((NewPlayer 20).Heal64 9223372036854775807).health = -9223372036854775789 ∧
    ((NewPlayer 20).Heal64 9223372036854775807).health
      ≠ min ((NewPlayer 20).health + 9223372036854775807) (NewPlayer 20).maxHealth := by
  decide

/-- C19, amended: `Heal n` sets health to the wrapped sum clamped at maxHealth, which is
`min (health + n) maxHealth` for every `n` whose sum with health is representable, and then
the effect is that of the exact `Player.Heal`; this is the case for every card a reachable
session in progress heals with.  For every integer `n` no other field changes and health is
at most maxHealth afterwards (in particular when it was before). -/
theorem C19_Heal_clamped_in_range (p : Player) (n : Int) :
    (p.Heal64 n).health = min (wrapInt64 (p.health + n)) p.maxHealth ∧
    (minInt64 ≤ p.health + n → p.health + n ≤ maxInt64 →
      (p.Heal64 n).health = min (p.health + n) p.maxHealth ∧ p.Heal64 n = p.Heal n) ∧
    (p.Heal64 n).maxHealth = p.maxHealth ∧
    (p.Heal64 n).equippedWeapon = p.equippedWeapon ∧
    (p.Heal64 n).defeatedMonsters = p.defeatedMonsters ∧
    (p.Heal64 n).usedPotionThisRoom = p.usedPotionThisRoom ∧
    (p.Heal64 n).health ≤ (p.Heal64 n).maxHealth ∧
    (p.health ≤ p.maxHealth → (p.Heal64 n).health ≤ (p.Heal64 n).maxHealth) ∧
    (∀ (g : GameSession) (card : Card), Reachable g → g.state = .InProgress →
      g.player.Heal64 card.Value = g.player.Heal card.Value ∧
      (g.player.Heal64 card.Value).health
        = min (g.player.health + card.Value) g.player.maxHealth) := by
  have hexact : ∀ (q : Player) (m : Int), minInt64 ≤ q.health + m → q.health + m ≤ maxInt64 →
      (q.Heal64 m).health = min (q.health + m) q.maxHealth ∧ q.Heal64 m = q.Heal m := by
    intro q m h1 h2
    rw [Heal64_health, Heal_health, wrapInt64_exact _ h1 h2]
    exact ⟨rfl, rfl⟩
  refine ⟨?_, hexact p n, ?_, ?_, ?_, ?_, ?_, ?_, ?_⟩
  · rw [Heal64_health]
  · rw [Heal64_health]
  · rw [Heal64_health]
  · rw [Heal64_health]
  · rw [Heal64_health]
  · rw [Heal64_health]
    exact min_le_right _ _
  · intro _
    rw [Heal64_health]
    exact min_le_right _ _
  · intro g card hg hs
    have hh := reachable_health_range g hg hs
    have hv := Card_Value_pos card
    have h := hexact g.player card.Value (by unfold minInt64; omega) (by unfold maxInt64; omega)
    exact ⟨h.2, h.1⟩

/-- Witness for C19 (amended): health 18 of 20 healed by 5 is 20. -/
theorem C19_Heal_clamped_in_range_witness :
    (({ (NewPlayer 20) with health := 18 } : Player).Heal64 5).health = 20 :=
  ((C19_Heal_clamped_in_range ({ (NewPlayer 20) with health := 18 } : Player) 5).2.1
    (by decide) (by decide)).1.trans (by decide)

/-- C20, as stated, fails on a 64-bit `int`: with health 1, `ApplyDamage` of the least `int`
wraps the difference around, and health is -9223372036854775807 instead of
`health - n = 9223372036854775809`. -/
theorem C20_ApplyDamage_wraps :
    (({ (NewPlayer 20) with health := 1 } : Player).ApplyDamage64
      (-9223372036854775808)).1.health = -9223372036854775807 ∧
    (({ (NewPlayer 20) with health := 1 } : Player).ApplyDamage64
      (-9223372036854775808)).1.health
      ≠ ({ (NewPlayer 20) with health := 1 } : Player).health - (-9223372036854775808) := by
  decide

/-- C20, amended: `ApplyDamage n` returns no error and sets health to the wrapped difference,
which is exactly `health - n` for every `n` whose difference from health is representable,
and then the effect is that of the exact `Player.ApplyDamage`; this is the case for every
damage from 0 to 14 applied in a reachable session in progress.  There is no clamping at 0
(health 1 and `n = 14` give -13), and for every integer `n` no other field changes. -/
theorem C20_ApplyDamage_exact_in_range (p : Player) (n : Int) :
    (p.ApplyDamage64 n).2 = none ∧
    (p.ApplyDamage64 n).1 = { p with health := wrapInt64 (p.health - n) } ∧
    (minInt64 ≤ p.health - n → p.health - n ≤ maxInt64 →
      (p.ApplyDamage64 n).1.health = p.health - n ∧
      (p.ApplyDamage64 n).1 = { p with health := p.health - n } ∧
      p.ApplyDamage64 n = p.ApplyDamage n) ∧
    (p.ApplyDamage64 n).1.maxHealth = p.maxHealth ∧
    (p.ApplyDamage64 n).1.equippedWeapon = p.equippedWeapon ∧
    (p.ApplyDamage64 n).1.defeatedMonsters = p.defeatedMonsters ∧
    (p.ApplyDamage64 n).1.usedPotionThisRoom = p.usedPotionThisRoom ∧
    (({ p with health := 1 } : Player).ApplyDamage64 14).1.health = -13 ∧
    (∀ (g : GameSession) (d : Int), Reachable g → g.state = .InProgress → 0 ≤ d → d ≤ 14 →
      g.player.ApplyDamage64 d = g.player.ApplyDamage d ∧
      (g.player.ApplyDamage64 d).1.health = g.player.health - d) := by
  have hexact : ∀ (q : Player) (m : Int), minInt64 ≤ q.health - m → q.health - m ≤ maxInt64 →
      (q.ApplyDamage64 m).1.health = q.health - m ∧
      (q.ApplyDamage64 m).1 = { q with health := q.health - m } ∧
      q.ApplyDamage64 m = q.ApplyDamage m := by
    intro q m h1 h2
    unfold Player.ApplyDamage64 Player.ApplyDamage
    rw [wrapInt64_exact _ h1 h2]
    exact ⟨rfl, rfl, rfl⟩
  refine ⟨rfl, rfl, hexact p n, rfl, rfl, rfl, rfl, ?_, ?_⟩
  · have h1 : minInt64 ≤ ({ p with health := 1 } : Player).health - 14 := by
      show minInt64 ≤ (1 : Int) - 14
      decide
    have h2 : ({ p with health := 1 } : Player).health - 14 ≤ maxInt64 := by
      show (1 : Int) - 14 ≤ maxInt64
      decide
    rw [(hexact { p with health := 1 } 14 h1 h2).1]
    show (1 : Int) - 14 = -13
    decide
  · intro g d hg hs h0 h14
    have hh := reachable_health_range g hg hs
    have h := hexact g.player d (by unfold minInt64; omega) (by unfold maxInt64; omega)
    exact ⟨h.2.2, h.1⟩

/-- Witness for C20 (amended): health 1 damaged by 14 is -13. -/
theorem C20_ApplyDamage_exact_in_range_witness :
    (({ (NewPlayer 20) with health := 1 } : Player).ApplyDamage64 14).1.health = -13 :=
  ((C20_ApplyDamage_exact_in_range ({ (NewPlayer 20) with health := 1 } : Player) 14).2.2.1
    (by decide) (by decide)).1.trans (by decide)

/-- C21: for a deck with cards `d` and `0 ≤ n`: when `n ≤ len d`, `Draw n` returns the first
`n` cards of `d` in order and leaves the remaining `len d - n` cards in order (returned cards
followed by the new deck are `d`), with `prevRoomSkipped` unchanged; when `n > len d` it
fails with `notEnoughCards` and the deck is unchanged. -/
theorem C21_Draw_front (d : Deck) (n : Int) (hn : 0 ≤ n) :
    (n ≤ (d.cards.length : Int) →
      (d.Draw n).2 = .ok (d.cards.take n.toNat) ∧
      (d.Draw n).1.cards = d.cards.drop n.toNat ∧
      d.cards.take n.toNat ++ (d.Draw n).1.cards = d.cards ∧
      (d.cards.take n.toNat).length = n.toNat ∧
      ((d.Draw n).1.cards.length : Int) = (d.cards.length : Int) - n ∧
      (d.Draw n).1.prevRoomSkipped = d.prevRoomSkipped) ∧
    (n > (d.cards.length : Int) → d.Draw n = (d, .error .notEnoughCards)) := by
  constructor
  · intro hle
    have h1 : ¬ (n > (d.cards.length : Int)) := by omega
    have h2 : ¬ (n < 0) := by omega
    have h3 : n.toNat ≤ d.cards.length := by omega
    unfold Deck.Draw
    rw [if_neg h1, if_neg h2]
    refine ⟨rfl, rfl, List.take_append_drop _ _, ?_, ?_, rfl⟩
    · simp only [List.length_take]; omega
    · simp only [List.length_drop]; omega
  · intro hgt
    unfold Deck.Draw
    simp only [hgt, if_true]

/-- Witness for C21: drawing 3 cards from the deck of `weaponThirdSession` (4 cards) returns
the 7 of Clubs, the 8 of Spades and the 9 of Hearts and leaves the 10 of Clubs. -/
theorem C21_Draw_front_witness :
    (weaponThirdSession.deck.Draw 3).2
        = .ok [⟨.Clubs, .Seven⟩, ⟨.Spades, .Eight⟩, ⟨.Hearts, .Nine⟩] ∧
    (weaponThirdSession.deck.Draw 3).1.cards = [⟨.Clubs, .Ten⟩] :=
  have h := (C21_Draw_front weaponThirdSession.deck 3 (by decide)).1 (by decide)
  ⟨h.1, h.2.1⟩

/-- C22: for an index inside the unplayed cards, `Room.PlayCard` returns the card at that
index, removes exactly that card from the unplayed cards keeping the order of the others
(one card less), and appends it at the end of the played cards; for any other index it fails
with `invalidIndex` and leaves the room unchanged. -/
theorem C22_Room_PlayCard (r : Room) (index : Int) :
    ((0 ≤ index ∧ index < (r.cards.length : Int)) →
      ∃ card, r.cards[index.toNat]? = some card ∧
        (r.PlayCard index).2 = .ok card ∧
        (r.PlayCard index).1.cards = r.cards.eraseIdx index.toNat ∧
        (r.PlayCard index).1.cards = r.cards.take index.toNat ++ r.cards.drop (index.toNat + 1) ∧
        r.cards = r.cards.take index.toNat ++ card :: r.cards.drop (index.toNat + 1) ∧
        (r.PlayCard index).1.cards.length + 1 = r.cards.length ∧
        (r.PlayCard index).1.playedCards = r.playedCards ++ [card]) ∧
    (¬ (0 ≤ index ∧ index < (r.cards.length : Int)) →
      r.PlayCard index = (r, .error .invalidIndex)) := by
  constructor
  · rintro ⟨h0, hlt⟩
    have hi : ¬ (index < 0 ∨ index ≥ (r.cards.length : Int)) := by omega
    obtain ⟨i, card, rfl, hc⟩ := valid_index r index hi
    have hlt2 : i < r.cards.length := (List.getElem?_eq_some.1 hc).1
    have hget : r.cards[i] = card := (List.getElem?_eq_some.1 hc).2
    refine ⟨card, by simpa using hc, ?_⟩
    rw [Room_PlayCard_ok r i card hc, Int.toNat_ofNat]
    refine ⟨rfl, (List.eraseIdx_eq_take_drop_succ _ _).symm, rfl, ?_, ?_, rfl⟩
    · rw [← hget, List.getElem_cons_drop, List.take_append_drop]
    · simp only [List.length_append, List.length_take, List.length_drop]; omega
  · intro h
    exact Room_PlayCard_invalid r index (by omega)

/-- Witness for C22: playing index 1 of the room [6 of Diamonds, 3 of Spades] returns the 3
of Spades. -/
theorem C22_Room_PlayCard_witness :
    ∃ card, ([⟨.Diamonds, .Six⟩, ⟨.Spades, .Three⟩] : List Card)[(1 : Int).toNat]? = some card ∧
      ((NewRoom [⟨.Diamonds, .Six⟩, ⟨.Spades, .Three⟩]).PlayCard 1).2 = .ok card :=
  have h := (C22_Room_PlayCard (NewRoom [⟨.Diamonds, .Six⟩, ⟨.Spades, .Three⟩]) 1).1
    (by decide)
  h.elim (fun card hc => ⟨card, hc.1, hc.2.1⟩)

/-- C23: `RemainingCard` returns the unplayed card when exactly one card is unplayed and
nothing for any other count; `Completed` is true exactly when 3 cards are played; and in a
room created with 4 cards, after any calls of `Room.PlayCard`, `Completed` holds exactly when
`RemainingCard` returns a card. -/
theorem C23_RemainingCard_Completed (r : Room) :
    (∀ c, r.cards = [c] → r.RemainingCard = some c) ∧
    (r.cards.length ≠ 1 → r.RemainingCard = none) ∧
    (r.Completed = true ↔ r.playedCards.length = 3) ∧
    (r.cards.length + r.playedCards.length = 4 →
      (r.Completed = true ↔ r.RemainingCard.isSome = true)) ∧
    (∀ (cards : List Card) (indices : List Int), cards.length = 4 →
      (((NewRoom cards).playAll indices).Completed = true ↔
        ((NewRoom cards).playAll indices).RemainingCard.isSome = true)) := by
  have key : ∀ r : Room, r.cards.length + r.playedCards.length = 4 →
      (r.Completed = true ↔ r.RemainingCard.isSome = true) := by
    intro r h4
    unfold Room.Completed Room.RemainingCard
    by_cases h1 : r.cards.length = 1
    · have h3 : r.playedCards.length = 3 := by omega
      obtain ⟨c, hc⟩ := List.length_eq_one.1 h1
      simp [h3, hc]
    · have h3 : r.playedCards.length ≠ 3 := by omega
      simp [h1, h3]
  refine ⟨?_, ?_, ?_, key r, ?_⟩
  · intro c hc
    simp [Room.RemainingCard, hc]
  · intro h
    simp [Room.RemainingCard, h]
  · simp [Room.Completed]
  · intro cards indices hlen
    apply key
    rw [Room_playAll_total]
    simp [NewRoom, hlen]

/-- Witness for C23: after three plays of index 0 in a room created with four cards the room
is completed and the 5 of Spades remains. -/
theorem C23_RemainingCard_Completed_witness :
    ((NewRoom [⟨.Hearts, .Two⟩, ⟨.Diamonds, .Three⟩, ⟨.Clubs, .Four⟩,
        ⟨.Spades, .Five⟩]).playAll [0, 0, 0]).Completed = true ∧
    ((NewRoom [⟨.Hearts, .Two⟩, ⟨.Diamonds, .Three⟩, ⟨.Clubs, .Four⟩,
        ⟨.Spades, .Five⟩]).playAll [0, 0, 0]).RemainingCard = some ⟨.Spades, .Five⟩ :=
  ⟨((C23_RemainingCard_Completed (NewRoom [])).2.2.2.2
      [⟨.Hearts, .Two⟩, ⟨.Diamonds, .Three⟩, ⟨.Clubs, .Four⟩, ⟨.Spades, .Five⟩] [0, 0, 0]
      rfl).2 (by decide), by decide⟩

/-- C24: `Value` is the numeric rank, 2 to 10 for the number cards, 11 for Jack, 12 for
Queen, 13 for King and 14 for Ace; the type is Monster for Clubs and Spades, Weapon for
Diamonds and Potion for Hearts. -/
theorem C24_Value_and_Type (c : Card) :
    c.Value = c.rank.toInt ∧ 2 ≤ c.Value ∧ c.Value ≤ 14 ∧
    (List.map (fun r => (NewCard .Clubs r).Value) Rank.loop
      = [2, 3, 4, 5, 6, 7, 8, 9, 10, 11, 12, 13, 14]) ∧
    Rank.Jack.toInt = 11 ∧ Rank.Queen.toInt = 12 ∧ Rank.King.toInt = 13 ∧
    Rank.Ace.toInt = 14 ∧
    (c.CardType = .Monster ↔ (c.suit = .Clubs ∨ c.suit = .Spades)) ∧
    (c.CardType = .Weapon ↔ c.suit = .Diamonds) ∧
    (c.CardType = .Potion ↔ c.suit = .Hearts) := by
  refine ⟨rfl, (Card_Value_pos c).1, (Card_Value_pos c).2, by decide, rfl, rfl, rfl, rfl,
    ?_, ?_, ?_⟩ <;>
  (unfold Card.CardType; cases c.suit <;> simp)

/-- C25: `GetSession` and the registry operations `PlayCard`, `PlayCardWithoutWeapon` and
`SkipRoom` report `sessionNotFound` exactly when the identifier is not a key of the registry,
and then the registry is returned unchanged; after `DeleteSession id`, `GetSession id` fails
and every other identifier resolves as before. -/
theorem C25_session_not_found (sm : SessionManager) (id : String) (index : Int) :
    ((sm.GetSession id).2 = some .sessionNotFound ↔ sm.sessions id = none) ∧
    ((sm.PlayCard id index).2.2 = some .sessionNotFound ↔ sm.sessions id = none) ∧
    ((sm.PlayCardWithoutWeapon id index).2.2 = some .sessionNotFound ↔
      sm.sessions id = none) ∧
    ((sm.SkipRoom id).2.2 = some .sessionNotFound ↔ sm.sessions id = none) ∧
    (sm.sessions id = none →
      sm.GetSession id = (none, some .sessionNotFound) ∧
      sm.PlayCard id index = (sm, none, some .sessionNotFound) ∧
      sm.PlayCardWithoutWeapon id index = (sm, none, some .sessionNotFound) ∧
      sm.SkipRoom id = (sm, none, some .sessionNotFound)) ∧
    (sm.DeleteSession id).GetSession id = (none, some .sessionNotFound) ∧
    (∀ other : String, other ≠ id →
      (sm.DeleteSession id).GetSession other = sm.GetSession other) := by
  refine ⟨?_, ?_, ?_, ?_, ?_, ?_, ?_⟩
  · unfold SessionManager.GetSession
    cases h : sm.sessions id <;> simp
  · unfold SessionManager.PlayCard
    cases h : sm.sessions id with
    | none => simp
    | some session =>
      have hk := play_not_sessionNotFound session index _ (Or.inl rfl)
      rcases hpc : session.PlayCard index with ⟨s1, _ | err⟩
      · simp only [hpc]; simp
      · rw [hpc] at hk
        simp only [hpc]
        simpa using hk
  · unfold SessionManager.PlayCardWithoutWeapon
    cases h : sm.sessions id with
    | none => simp
    | some session =>
      have hk := play_not_sessionNotFound session index _ (Or.inr rfl)
      rcases hpc : session.PlayCardWithoutWeapon index with ⟨s1, _ | err⟩
      · simp only [hpc]; simp
      · rw [hpc] at hk
        simp only [hpc]
        simpa using hk
  · unfold SessionManager.SkipRoom
    cases h : sm.sessions id with
    | none => simp
    | some session =>
      have hk := SkipRoom_not_sessionNotFound session
      rcases hpc : session.SkipRoom with ⟨s1, _ | err⟩
      · simp only [hpc]; simp
      · rw [hpc] at hk
        simp only [hpc]
        simpa using hk
  · intro h
    simp only [SessionManager.GetSession, SessionManager.PlayCard,
      SessionManager.PlayCardWithoutWeapon, SessionManager.SkipRoom, h, and_self]
  · simp [SessionManager.GetSession, SessionManager.DeleteSession]
  · intro other hne
    simp [SessionManager.GetSession, SessionManager.DeleteSession, hne]

/-- Witness for C25: playing in an empty registry reports `sessionNotFound`. -/
theorem C25_session_not_found_witness :
    NewSessionManager.PlayCard (String.mk []) 0
      = (NewSessionManager, none, some .sessionNotFound) :=
  ((C25_session_not_found NewSessionManager (String.mk []) 0).2.2.2.2.1 rfl).2.1

/-- C26: for every registry and every `maxAge`, after `CleanupSessions` an identifier is
registered exactly when it was registered with a session that is not over, and it resolves to
the same unmodified session; a session is over exactly when its state is Won or Lost. -/
theorem C26_CleanupSessions (sm : SessionManager) (maxAge : Int) (id : String) :
    (∀ s, (sm.CleanupSessions maxAge).sessions id = some s →
      s.IsGameOver = false ∧ sm.sessions id = some s) ∧
    (∀ s, sm.sessions id = some s → s.IsGameOver = false →
      (sm.CleanupSessions maxAge).sessions id = some s) ∧
    (∀ s, sm.sessions id = some s → s.IsGameOver = true →
      (sm.CleanupSessions maxAge).sessions id = none) ∧
    (sm.sessions id = none → (sm.CleanupSessions maxAge).sessions id = none) ∧
    (∀ s : GameSession, s.IsGameOver = true ↔ (s.state = .Won ∨ s.state = .Lost)) := by
  refine ⟨?_, ?_, ?_, ?_, ?_⟩
  · intro s hs
    simp only [SessionManager.CleanupSessions] at hs
    cases h : sm.sessions id with
    | none => rw [h] at hs; cases hs
    | some s0 =>
      rw [h] at hs
      by_cases ho : s0.IsGameOver = true
      · simp [ho] at hs
      · simp only [ho, Bool.false_eq_true, if_false, Option.some.injEq] at hs
        subst hs
        exact ⟨by simpa using ho, rfl⟩
  · intro s hs ho
    simp [SessionManager.CleanupSessions, hs, ho]
  · intro s hs ho
    simp [SessionManager.CleanupSessions, hs, ho]
  · intro hs
    simp [SessionManager.CleanupSessions, hs]
  · intro s
    simp [GameSession.IsGameOver]

/-- Witness for C26: a registry holding the lost session that follows the fatal King of Clubs
in `lastRoomSession` is empty at that identifier after the cleanup. -/
theorem C26_CleanupSessions_witness :
    ((NewSessionManager.put (String.mk []) (lastRoomSession.PlayCard 1).1).CleanupSessions
      0).sessions (String.mk []) = none :=
  (C26_CleanupSessions (NewSessionManager.put (String.mk []) (lastRoomSession.PlayCard 1).1)
    0 (String.mk [])).2.2.1 (lastRoomSession.PlayCard 1).1 (by simp [SessionManager.put])
    (by decide)

/-- C27, the code at the failing input: two concurrent `PlayCardHandler` requests for the
same session.  Each handler leaves `GetSession` (read lock released) before it calls the
session method, so under the schedule that runs the first request up to the start of
`session.PlayCard` and then the second one, both requests are inside a mutating method of
the same session at the same time and no lock is held.  The registry method
`SessionManager.PlayCard` does hold the write lock around the session method, and there the
second request is blocked at `Lock`; the handlers do not call it. -/
theorem C27_handlers_mutate_outside_lock (id : String) :
    mutatesUnderWriteLock false (registryPlayCardSteps id) = true ∧
    mutatesUnderWriteLock false (playCardHandlerSteps id) = false ∧
    runSchedule [0, 0, 0, 1, 1, 1] [playCardHandlerSteps id, playCardHandlerSteps id]
        { readers := 0, writer := false, inside := [] }
      = some ([[.leave id], [.leave id]],
          { readers := 0, writer := false, inside := [(1, id), (0, id)] }) ∧
    raced { readers := 0, writer := false, inside := [(1, id), (0, id)] } = true ∧
    runSchedule [0, 0, 1] [registryPlayCardSteps id, registryPlayCardSteps id]
        { readers := 0, writer := false, inside := [] } = none := by
  refine ⟨rfl, rfl, rfl, ?_, rfl⟩
  simp [raced]

/-- C28: in every reachable session the deck's cards, the room's unplayed cards and the play
history together are a permutation of the 44 cards of `NewDeck`: no card is lost or
duplicated or held by two of these containers; in particular no deck card is a Hearts or
Diamonds card of rank Jack or higher. -/
theorem C28_card_conservation (g : GameSession) (h : Reachable g) :
    ∃ room, g.currentRoom = some room ∧
      (g.deck.cards ++ room.cards ++ g.playHistory).Perm NewDeck.cards ∧
      (g.deck.cards ++ room.cards ++ g.playHistory).Nodup ∧
      g.deck.cards.length + room.cards.length + g.playHistory.length = 44 ∧
      (∀ c ∈ g.deck.cards,
        ¬ ((c.suit = .Hearts ∨ c.suit = .Diamonds) ∧ c.rank.toInt ≥ Rank.Jack.toInt)) ∧
      (∀ c ∈ g.deck.cards, c.IsRedFaceOrAce = false) := by
  obtain ⟨room, hr, -, -, -, -, hperm⟩ := (Inv_reachable g h).room
  have hred : ∀ c ∈ g.deck.cards,
      ¬ ((c.suit = .Hearts ∨ c.suit = .Diamonds) ∧ c.rank.toInt ≥ Rank.Jack.toInt) := by
    intro c hc
    apply NewDeck_no_red_face c
    apply hperm.subset
    simp [hc]
  refine ⟨room, hr, hperm, hperm.nodup_iff.2 NewDeck_nodup, ?_, hred, ?_⟩
  · have := hperm.length_eq
    rw [NewDeck_length] at this
    simp only [List.length_append] at this
    omega
  · intro c hc
    have := hred c hc
    simp only [Card.IsRedFaceOrAce]
    by_cases h1 : c.suit = .Hearts ∨ c.suit = .Diamonds
    · have h2 : ¬ c.rank.toInt ≥ Rank.Jack.toInt := fun h2 => this ⟨h1, h2⟩
      simp [h2]
    · have h3 : c.suit ≠ .Hearts := fun e => h1 (Or.inl e)
      have h4 : c.suit ≠ .Diamonds := fun e => h1 (Or.inr e)
      simp [h3, h4]

/-- Witness for C28: the session after a skip and three plays in the game dealt from
`demoRnd` still holds the 44 cards. -/
theorem C28_card_conservation_witness :
    ∃ room, (((demoSession.SkipRoom.1.PlayCard 0).1.PlayCard 0).1.PlayCard 0).1.currentRoom
        = some room ∧
      ((((demoSession.SkipRoom.1.PlayCard 0).1.PlayCard 0).1.PlayCard 0).1.deck.cards
        ++ room.cards
        ++ (((demoSession.SkipRoom.1.PlayCard 0).1.PlayCard 0).1.PlayCard 0).1.playHistory).Perm
        NewDeck.cards :=
  have h := C28_card_conservation
    (((demoSession.SkipRoom.1.PlayCard 0).1.PlayCard 0).1.PlayCard 0).1 demoPlayed_reachable
  h.elim (fun room hroom => ⟨room, hroom.1, hroom.2.1⟩)

/-- C29: in every reachable session the current room has between 1 and 4 cards in all,
played and unplayed together (exactly 4), and at most 3 played cards. -/
theorem C29_room_size (g : GameSession) (h : Reachable g) :
    ∃ room, g.currentRoom = some room ∧
      1 ≤ room.cards.length + room.playedCards.length ∧
      room.cards.length + room.playedCards.length ≤ 4 ∧
      room.cards.length + room.playedCards.length = 4 ∧
      room.playedCards.length ≤ 3 := by
  obtain ⟨room, hr, h4, h3, -, -, -⟩ := (Inv_reachable g h).room
  exact ⟨room, hr, by omega, by omega, h4, h3⟩

/-- Witness for C29: the room of the session after a skip and three plays in the game dealt
from `demoRnd`. -/
theorem C29_room_size_witness :
    ∃ room, (((demoSession.SkipRoom.1.PlayCard 0).1.PlayCard 0).1.PlayCard 0).1.currentRoom
        = some room ∧
      room.cards.length + room.playedCards.length = 4 :=
  have h := C29_room_size
    (((demoSession.SkipRoom.1.PlayCard 0).1.PlayCard 0).1.PlayCard 0).1 demoPlayed_reachable
  h.elim (fun room hroom => ⟨room, hroom.1, hroom.2.2.2.1⟩)

/-- C30: in every reachable session maxHealth is 20 and health is at most maxHealth, so no
card play raises health above 20; the damage of a monster is never negative: neither
monster handler raises health, and a play of a Monster card with either play operation
leaves health at most what it was. -/
theorem C30_health_bounds (g : GameSession) (h : Reachable g) :
    g.player.maxHealth = 20 ∧
    g.player.health ≤ g.player.maxHealth ∧
    (∀ (index : Int) (r : GameSession × Option GameError),
      (r = g.PlayCard index ∨ r = g.PlayCardWithoutWeapon index) →
      r.1.player.maxHealth = 20 ∧ r.1.player.health ≤ 20) ∧
    (∀ card : Card,
      (g.handleMonster card).1.player.health ≤ g.player.health ∧
      (g.handleMonsterWithoutWeapon card).1.player.health ≤ g.player.health ∧
      0 ≤ g.player.health - (g.handleMonster card).1.player.health ∧
      0 ≤ g.player.health - (g.handleMonsterWithoutWeapon card).1.player.health) ∧
    (∀ (room : Room) (i : Nat) (card : Card) (r : GameSession × Option GameError),
      g.state = .InProgress → g.currentRoom = some room → room.cards[i]? = some card →
      card.CardType = .Monster →
      (r = g.PlayCard (i : Int) ∨ r = g.PlayCardWithoutWeapon (i : Int)) →
      r.1.player.health ≤ g.player.health) := by
  have hinv := Inv_reachable g h
  have hm : ∀ card : Card,
      (g.handleMonster card).1.player.health ≤ g.player.health ∧
      (g.handleMonsterWithoutWeapon card).1.player.health ≤ g.player.health := by
    intro card
    have hv := Card_Value_pos card
    rw [handleMonster_eq, handleMonsterWithoutWeapon_eq]
    refine ⟨monsterEffect_health_le _ _, ?_⟩
    show g.player.health - card.Value ≤ g.player.health
    omega
  refine ⟨hinv.player.maxHealth, ?_, ?_, ?_, ?_⟩
  · rw [hinv.player.maxHealth]; exact hinv.player.health
  · intro index r hrr
    have h2 := Inv_play g index r hrr hinv
    exact ⟨h2.player.maxHealth, h2.player.health⟩
  · intro card
    have := hm card
    exact ⟨this.1, this.2, by omega, by omega⟩
  · intro room i card r hs hr hc ht hrr
    have hv := Card_Value_pos card
    rcases hrr with hx | hx
    · rw [hx, PlayCard_eq g room i card hs hr hc]
      show (lossCheck _).player.health ≤ _
      rw [lossCheck_player, (roomStep_player _ _ (played_state _ g room i card hs)).1]
      show (cardEffect monsterEffect g.player card).health ≤ _
      simp only [cardEffect, ht]
      exact monsterEffect_health_le _ _
    · rw [hx, PlayCardWithoutWeapon_eq g room i card hs hr hc]
      show (lossCheck _).player.health ≤ _
      rw [lossCheck_player, (roomStep_player _ _ (played_state _ g room i card hs)).1]
      show (cardEffect bareEffect g.player card).health ≤ _
      simp only [cardEffect, ht, bareEffect]
      omega

/-- Witness for C30: after a skip and three plays in the game dealt from `demoRnd` health is
at most maxHealth. -/
theorem C30_health_bounds_witness :
    (((demoSession.SkipRoom.1.PlayCard 0).1.PlayCard 0).1.PlayCard 0).1.player.health
      ≤ (((demoSession.SkipRoom.1.PlayCard 0).1.PlayCard 0).1.PlayCard 0).1.player.maxHealth :=
  (C30_health_bounds
    (((demoSession.SkipRoom.1.PlayCard 0).1.PlayCard 0).1.PlayCard 0).1
    demoPlayed_reachable).2.1

/-- C31: in every reachable session the defeated-monster list is non-increasing in value
from first to last (each kill is at most the one before it, hence at most every earlier
one), holds only Monster cards, and is non-empty only if a weapon is equipped. -/
theorem C31_defeated_monsters_invariant (g : GameSession) (h : Reachable g) :
    nonIncreasing g.player.defeatedMonsters ∧
    (∀ (i : Nat) (a b : Card), g.player.defeatedMonsters[i]? = some a →
      g.player.defeatedMonsters[i + 1]? = some b → b.Value ≤ a.Value) ∧
    g.player.defeatedMonsters.Pairwise (fun a b => b.Value ≤ a.Value) ∧
    (∀ c ∈ g.player.defeatedMonsters, c.CardType = .Monster) ∧
    (g.player.defeatedMonsters ≠ [] → g.player.equippedWeapon ≠ none) := by
  have hp := (Inv_reachable g h).player
  haveI : IsTrans Card (fun a b => b.Value ≤ a.Value) :=
    ⟨fun _ _ _ h1 h2 => le_trans h2 h1⟩
  have hpw : g.player.defeatedMonsters.Pairwise (fun a b => b.Value ≤ a.Value) :=
    List.chain'_iff_pairwise.1 hp.sorted
  refine ⟨hp.sorted, ?_, hpw, hp.monsters, hp.weapon⟩
  intro i a b ha hb
  rw [List.getElem?_eq_some] at ha hb
  obtain ⟨h1, rfl⟩ := ha
  obtain ⟨h2, rfl⟩ := hb
  exact List.pairwise_iff_getElem.1 hpw i (i + 1) h1 h2 (Nat.lt_succ_self i)

/-- Witness for C31: after a skip and three plays in the game dealt from `demoRnd` the
defeated-monster list is the 4 of Clubs alone, killed with the 3 of Diamonds, and no card
of it has a greater value than an earlier one. -/
theorem C31_defeated_monsters_invariant_witness :
    (((demoSession.SkipRoom.1.PlayCard 0).1.PlayCard 0).1.PlayCard
        0).1.player.defeatedMonsters = [⟨.Clubs, .Four⟩] ∧
    (((demoSession.SkipRoom.1.PlayCard 0).1.PlayCard 0).1.PlayCard
        0).1.player.defeatedMonsters.Pairwise (fun a b => b.Value ≤ a.Value) :=
  ⟨by set_option maxRecDepth 1000000 in decide,
   (C31_defeated_monsters_invariant
    (((demoSession.SkipRoom.1.PlayCard 0).1.PlayCard 0).1.PlayCard 0).1
    demoPlayed_reachable).2.2.1⟩

/-- C32: in every reachable session the number of cards in the deck is congruent to 1
modulo 3 and at most 40 (one of 40, 37, ..., 4, 1), so the deck is never empty; and when
the state is Won the deck holds exactly 1 card, the room 1 unplayed and 3 played cards, and
the play history exactly 42 cards. -/
theorem C32_deck_size_mod_three (g : GameSession) (h : Reachable g) :
    g.deck.cards.length % 3 = 1 ∧
    (∃ k : Nat, k ≤ 13 ∧ g.deck.cards.length = 40 - 3 * k) ∧
    g.deck.cards ≠ [] ∧
    (g.state = .Won →
      g.deck.cards.length = 1 ∧
      g.playHistory.length = 42 ∧
      ∃ room, g.currentRoom = some room ∧ room.cards.length = 1 ∧
        room.playedCards.length = 3) := by
  have hinv := Inv_reachable g h
  have hmod := hinv.deckMod
  have h40 := deck_le_40 g h
  refine ⟨hmod, ⟨(40 - g.deck.cards.length) / 3, by omega, by omega⟩, ?_, ?_⟩
  · intro he
    rw [he] at hmod
    simp at hmod
  · intro hw
    obtain ⟨room, hr, h4, -, -, hwon, hperm⟩ := hinv.room
    have hlen := hperm.length_eq
    rw [NewDeck_length] at hlen
    simp only [List.length_append] at hlen
    have h3 := hwon hw
    exact ⟨h3.2, by omega, room, hr, by omega, h3.1⟩

/-- Witness for C32: the game dealt from `winRnd` is won after 42 plays of index 0, with a
single card in the deck and 42 cards in the play history. -/
theorem C32_deck_size_mod_three_witness :
    (runOps winOps (NewGameSession (String.mk []) winRnd)).state = .Won ∧
    (runOps winOps (NewGameSession (String.mk []) winRnd)).deck.cards.length = 1 ∧
    (runOps winOps (NewGameSession (String.mk []) winRnd)).playHistory.length = 42 :=
  have hw : (runOps winOps (NewGameSession (String.mk []) winRnd)).state = .Won := by
    set_option maxRecDepth 1000000 in decide
  have h := (C32_deck_size_mod_three
    (runOps winOps (NewGameSession (String.mk []) winRnd)) winGame_reachable).2.2.2 hw
  ⟨hw, h.1, h.2.1⟩

/-- C33: no reachable session is stuck. The state is never Initial; and when it is
InProgress the current room has exactly 4 cards in all, at most 2 of them played and at
least 2 unplayed, and both `PlayCard 0` and `PlayCardWithoutWeapon 0` succeed. -/
theorem C33_no_stuck_state (g : GameSession) (h : Reachable g) :
    g.state ≠ .Initial ∧
    (g.state = .InProgress →
      (∃ room, g.currentRoom = some room ∧
        room.cards.length + room.playedCards.length = 4 ∧
        room.playedCards.length ≤ 2 ∧ 2 ≤ room.cards.length) ∧
      (g.PlayCard 0).2 = none ∧ (g.PlayCardWithoutWeapon 0).2 = none) := by
  have hinv := Inv_reachable g h
  refine ⟨hinv.notInitial, ?_⟩
  intro hs
  obtain ⟨room, hr, h4, -, hin, -, -⟩ := hinv.room
  have h2 := hin hs
  have hlen : 0 < room.cards.length := by omega
  have hc : room.cards[0]? = some (room.cards.get ⟨0, hlen⟩) := by
    rw [List.getElem?_eq_getElem hlen]
    rfl
  refine ⟨⟨room, hr, h4, h2, by omega⟩, ?_, ?_⟩
  · have := PlayCard_eq g room 0 _ hs hr hc
    rw [Nat.cast_zero] at this
    rw [this]
  · have := PlayCardWithoutWeapon_eq g room 0 _ hs hr hc
    rw [Nat.cast_zero] at this
    rw [this]

/-- Witness for C33: after a skip and three plays in the game dealt from `demoRnd` the state
is not Initial. -/
theorem C33_no_stuck_state_witness :
    (((demoSession.SkipRoom.1.PlayCard 0).1.PlayCard 0).1.PlayCard 0).1.state ≠ .Initial :=
  (C33_no_stuck_state
    (((demoSession.SkipRoom.1.PlayCard 0).1.PlayCard 0).1.PlayCard 0).1
    demoPlayed_reachable).1

/-- C34: for every session and index `PlayCard` and `PlayCardWithoutWeapon` return the same
error and leave the same session unless the card at the index is a Monster, a weapon is
equipped and `CanUseWeaponAgainst` holds for it. So the two coincide on Weapon and Potion
cards, on monsters faced with no weapon and on monsters the accordion rule excludes; and in
the excepted case, in an in-progress session, they differ. -/
theorem C34_play_operations_coincide (g : GameSession) (index : Int) :
    ((∀ (room : Room) (i : Nat) (card : Card), g.currentRoom = some room →
        index = (i : Int) → room.cards[i]? = some card →
        ¬ (card.CardType = .Monster ∧ g.player.equippedWeapon ≠ none ∧
          g.player.CanUseWeaponAgainst card = true)) →
      g.PlayCard index = g.PlayCardWithoutWeapon index) ∧
    (∀ (room : Room) (i : Nat) (card : Card), g.currentRoom = some room →
        index = (i : Int) → room.cards[i]? = some card →
        (card.CardType = .Weapon ∨ card.CardType = .Potion ∨
          g.player.equippedWeapon = none ∨ g.player.CanUseWeaponAgainst card = false) →
      g.PlayCard index = g.PlayCardWithoutWeapon index) ∧
    (∀ (room : Room) (i : Nat) (card : Card), g.state = .InProgress →
        g.currentRoom = some room → index = (i : Int) → room.cards[i]? = some card →
        card.CardType = .Monster → g.player.equippedWeapon ≠ none →
        g.player.CanUseWeaponAgainst card = true →
      g.PlayCard index ≠ g.PlayCardWithoutWeapon index) := by
  have main : (∀ (room : Room) (i : Nat) (card : Card), g.currentRoom = some room →
        index = (i : Int) → room.cards[i]? = some card →
        ¬ (card.CardType = .Monster ∧ g.player.equippedWeapon ≠ none ∧
          g.player.CanUseWeaponAgainst card = true)) →
      g.PlayCard index = g.PlayCardWithoutWeapon index := by
    intro h
    by_cases hs : g.state = .InProgress
    · cases hr : g.currentRoom with
      | none => rw [PlayCard_noRoom g index hs hr, PlayCardWithoutWeapon_noRoom g index hs hr]
      | some room =>
        by_cases hi : index < 0 ∨ index ≥ (room.cards.length : Int)
        · rw [PlayCard_invalid g room index hs hr hi,
            PlayCardWithoutWeapon_invalid g room index hs hr hi]
        · obtain ⟨i, card, rfl, hc⟩ := valid_index room index hi
          rw [PlayCard_eq g room i card hs hr hc,
            PlayCardWithoutWeapon_eq g room i card hs hr hc,
            played_same g room i card (h room i card hr rfl hc)]
    · rw [PlayCard_notInProgress g index hs, PlayCardWithoutWeapon_notInProgress g index hs]
  refine ⟨main, ?_, ?_⟩
  · intro room i card hr hi hc hcase
    apply main
    intro room2 i2 card2 hr2 hi2 hc2 hex
    have hroom : room2 = room := Option.some.inj (hr2.symm.trans hr)
    have hidx : i2 = i := Int.ofNat.inj (hi2.symm.trans hi)
    subst hroom
    subst hidx
    have hcard : card2 = card := Option.some.inj (hc2.symm.trans hc)
    subst hcard
    rcases hcase with h1 | h1 | h1 | h1
    · rw [h1] at hex; exact absurd hex.1 (by decide)
    · rw [h1] at hex; exact absurd hex.1 (by decide)
    · exact hex.2.1 h1
    · rw [h1] at hex; exact absurd hex.2.2 (by decide)
  · intro room i card hs hr hi hc ht hw hu heq
    subst hi
    have hd := play_defeated g room i card hs hr hc ht hw hu
    rw [heq, hd.2] at hd
    have h2 := congrArg List.length hd.1
    simp at h2

/-- Witness for C34: in `weaponThirdSession` the card at index 0 is a Weapon, and the two
play operations give the same result; in `armedSession` the card at index 0 is a monster the
equipped weapon can be used against, and they differ. -/
theorem C34_play_operations_coincide_witness :
    weaponThirdSession.PlayCard 0 = weaponThirdSession.PlayCardWithoutWeapon 0 ∧
    armedSession.PlayCard 0 ≠ armedSession.PlayCardWithoutWeapon 0 :=
  ⟨(C34_play_operations_coincide weaponThirdSession 0).2.1
      { cards := [⟨.Diamonds, .Six⟩, ⟨.Spades, .Three⟩]
        playedCards := [⟨.Hearts, .Five⟩, ⟨.Clubs, .Two⟩] }
      0 ⟨.Diamonds, .Six⟩ rfl rfl rfl (Or.inl (by decide)),
   (C34_play_operations_coincide armedSession 0).2.2
      { cards := [⟨.Spades, .Ten⟩, ⟨.Spades, .Three⟩, ⟨.Hearts, .Four⟩]
        playedCards := [⟨.Diamonds, .Seven⟩] }
      0 ⟨.Spades, .Ten⟩ rfl rfl rfl rfl (by decide) (by decide) (by decide)⟩

/-- C35: in every reachable session the state is Lost if and only if the health of the
player is at most 0; equivalently the state is InProgress or Won if and only if the health
is at least 1, and then the health is between 1 and 20. -/
theorem C35_lost_iff_no_health (g : GameSession) (h : Reachable g) :
    (g.state = .Lost ↔ g.player.health ≤ 0) ∧
    ((g.state = .InProgress ∨ g.state = .Won) ↔ 1 ≤ g.player.health) ∧
    (g.state = .InProgress ∨ g.state = .Won →
      1 ≤ g.player.health ∧ g.player.health ≤ 20) := by
  have hinv := Inv_reachable g h
  have hl := hinv.lost
  have hni := hinv.notInitial
  have h20 := hinv.player.health
  have hiff : (g.state = .InProgress ∨ g.state = .Won) ↔ 1 ≤ g.player.health := by
    constructor
    · intro hs
      by_contra hc
      have hlost : g.state = .Lost := hl.2 (by omega)
      rcases hs with hs | hs
      · rw [hs] at hlost; cases hlost
      · rw [hs] at hlost; cases hlost
    · intro hh
      have hnl : g.state ≠ .Lost := fun e => by have := hl.1 e; omega
      cases hst : g.state with
      | Initial => exact absurd hst hni
      | InProgress => exact Or.inl rfl
      | Won => exact Or.inr rfl
      | Lost => exact absurd hst hnl
  exact ⟨hl, hiff, fun hs => ⟨hiff.1 hs, h20⟩⟩

/-- Witness for C35: after a skip and three plays in the game dealt from `demoRnd` the state
is Lost exactly when the health is at most 0. -/
theorem C35_lost_iff_no_health_witness :
    (((demoSession.SkipRoom.1.PlayCard 0).1.PlayCard 0).1.PlayCard 0).1.state = .Lost ↔
    (((demoSession.SkipRoom.1.PlayCard 0).1.PlayCard 0).1.PlayCard 0).1.player.health ≤ 0 :=
  (C35_lost_iff_no_health
    (((demoSession.SkipRoom.1.PlayCard 0).1.PlayCard 0).1.PlayCard 0).1
    demoPlayed_reachable).1

/-- C36: every game ends. In the session reached from a new session by any sequence of
`PlayCard`, `PlayCardWithoutWeapon` and `SkipRoom` calls: a play that succeeds lengthens the
play history by exactly one card; the history holds as many cards as plays have succeeded,
and never more than 42; after a `SkipRoom` that succeeds no later `SkipRoom` succeeds as
long as no play has succeeded in between; at most one `SkipRoom` and at most 43 calls succeed
in all, so a sequence of calls that all succeed has at most 43 calls; and once 42 plays have
succeeded the state is Won or Lost. -/
theorem C36_every_game_ends (id : String) (rnd : Nat → Nat) (ops : List Op)
    (hops : ∀ op ∈ ops, op ≠ .createRoom) :
    (∀ (index : Int) (r : GameSession × Option GameError),
      (r = (runOps ops (NewGameSession id rnd)).PlayCard index ∨
        r = (runOps ops (NewGameSession id rnd)).PlayCardWithoutWeapon index) →
      r.2 = none →
      r.1.playHistory.length = (runOps ops (NewGameSession id rnd)).playHistory.length + 1) ∧
    (runOps ops (NewGameSession id rnd)).playHistory.length
      = countOk Op.isPlay ops (NewGameSession id rnd) ∧
    (runOps ops (NewGameSession id rnd)).playHistory.length ≤ 42 ∧
    countOk Op.isPlay ops (NewGameSession id rnd) ≤ 42 ∧
    ((runOps ops (NewGameSession id rnd)).SkipRoom.2 = none →
      ∀ more : List Op, (∀ op ∈ more, op ≠ .createRoom) →
        countOk Op.isPlay more (runOps ops (NewGameSession id rnd)).SkipRoom.1 = 0 →
        (runOps more (runOps ops (NewGameSession id rnd)).SkipRoom.1).SkipRoom.2 ≠ none) ∧
    countOk Op.isSkip ops (NewGameSession id rnd) ≤ 1 ∧
    countOk (fun _ => true) ops (NewGameSession id rnd) ≤ 43 ∧
    (allOk ops (NewGameSession id rnd) = true → ops.length ≤ 43) ∧
    (countOk Op.isPlay ops (NewGameSession id rnd) = 42 →
      (runOps ops (NewGameSession id rnd)).state = .Won ∨
      (runOps ops (NewGameSession id rnd)).state = .Lost) := by
  have hreach := Reachable_runOps ops _ (Reachable.init id rnd) hops
  have hcount := history_counts ops (NewGameSession id rnd) hops
  rw [NewGameSession_history, List.length_nil, Nat.zero_add] at hcount
  have h42 := history_le_42 _ hreach
  have hskip := skip_at_most_once ops (NewGameSession id rnd)
  have hall := countOk_all ops (NewGameSession id rnd) hops
  refine ⟨?_, hcount, h42.1, by omega, ?_, hskip, by omega, ?_, ?_⟩
  · intro index r hrr hok
    obtain ⟨card, hcard⟩ := (play_history _ index r hrr).1 hok
    rw [hcard, List.length_append, List.length_singleton]
  · intro hok more _ _
    exact (skip_fails_after more _ ((SkipRoom_frame _).2 hok)).2
  · intro hok
    have := countOk_allOk ops _ hok
    omega
  · intro hp
    exact h42.2 (by omega)

/-- Witness for C36: in the game dealt from `winRnd` the 42 plays of index 0 all succeed, and
the state is then Won or Lost. -/
theorem C36_every_game_ends_witness :
    countOk Op.isPlay winOps (NewGameSession (String.mk []) winRnd) = 42 ∧
    ((runOps winOps (NewGameSession (String.mk []) winRnd)).state = .Won ∨
      (runOps winOps (NewGameSession (String.mk []) winRnd)).state = .Lost) :=
  have hc : countOk Op.isPlay winOps (NewGameSession (String.mk []) winRnd) = 42 := by
    set_option maxRecDepth 1000000 in decide
  ⟨hc, (C36_every_game_ends (String.mk []) winRnd winOps
    (by decide)).2.2.2.2.2.2.2.2 hc⟩

end Scoundrel
